import Mathlib

/-!
# PSX first-person camera: ordering table, packet allocator, GTE set-up, render pass

A shallow embedding of `src/include/gpu.c`, `src/include/gte.c` and the frame loop of
`src/FirstPersonCamera/main.c`, with the properties of the specification proved
(or refuted) over it.

Conventions.
* C `int` values are `Int`; 32-bit words held in memory are `Nat` below `2 ^ 32`.
* A pointer into `chain->data` is the signed word offset from `&data[0]`; its
  32-bit value is `ptrAddr`.
* `assert` failing is `none`.
-/

namespace PSX

/-! ## gpu.h -/

/-- Words in the packet buffer of one chain (`CHAIN_BUFFER_SIZE`, gpu.h). -/
def CHAIN_BUFFER_SIZE : Nat := 32768

/-- Buckets of the ordering table (`ORDERING_TABLE_SIZE`, gpu.h). -/
def ORDERING_TABLE_SIZE : Nat := 720

/-- The chain structure of gpu.h. `addr` is the byte address of `data[0]` in
RAM. `data i` is the word at `&data[0] + i`; the array proper is
`0 ≤ i < CHAIN_BUFFER_SIZE`, other offsets stand for what a stray cursor
would touch. `nextPacket` is the cursor as a word offset from `&data[0]`. -/
structure DMAChain where
  addr : Nat
  data : Int → Nat
  orderingTable : Nat → Nat
  nextPacket : Int

/-- Modelled from the spec: `gp0_tag` of `ps1/gpucmd.h`, which is not part of the
sources at hand. "Every packet begins with a 32-bit tag =
`(wordCount << 24) | backLinkAddress`": the word count sits in the top 8 bits,
the address in the low 24 bits. -/
def gp0_tag (length next : Nat) : Nat :=
  ((next &&& 0xffffff) <<< 0) ||| ((length &&& 0xff) <<< 24)

/-- Word-count field of a tag. -/
def tagLength (t : Nat) : Nat := t >>> 24

/-- Address field of a tag. -/
def tagAddr (t : Nat) : Nat := t &&& 0xffffff

/-- End-of-list address: a tag whose address field is this value terminates a
linked list. -/
def END_ADDR : Nat := 0xffffff

/-- A C `int` converted to `size_t` / `uint32_t`. -/
def toU32 (x : Int) : Nat := (x % 2 ^ 32).toNat

/-- The 32-bit value of the pointer `&data[0] + k`. -/
def ptrAddr (addr : Nat) (k : Int) : Nat := toU32 (addr + 4 * k)

/-- Store through a pointer into `data`. -/
def storeData (d : Int → Nat) (k : Int) (v : Nat) : Int → Nat :=
  fun i => if i = k then v else d i

/-- Store into an array indexed from zero. -/
def storeAt (t : Nat → Nat) (i : Nat) (v : Nat) : Nat → Nat :=
  fun j => if j = i then v else t j

/-! ## gpu.c: allocatePacket -/

/-- The function `allocatePacket` of gpu.c, statement by statement. The result is
the chain after the call and the returned pointer (a word offset from
`&data[0]`); `none` is a failed `assert`. The cursor is a word offset in unbounded
integers, which is C's pointer arithmetic as long as the pointer stays in the array;
`allocatePacket32` below is the same function with the 32-bit addresses of the
machine, and the two agree where no address wraps. -/
def allocatePacket (chain : DMAChain) (zIndex numCommands : Int) :
    Option (DMAChain × Int) :=
  -- uint32_t *ptr = chain->nextPacket; chain->nextPacket += numCommands + 1;
  let ptr := chain.nextPacket
  let chain1 : DMAChain := { chain with nextPacket := chain.nextPacket + (numCommands + 1) }
  -- assert(zIndex >= 0); assert(zIndex < ORDERING_TABLE_SIZE);
  if ¬ (zIndex ≥ 0) then none
  else if ¬ (zIndex < (ORDERING_TABLE_SIZE : Int)) then none
  else
    let z := zIndex.toNat
    -- *ptr = gp0_tag(numCommands, (void *) chain->orderingTable[zIndex]);
    let chain2 : DMAChain :=
      { chain1 with
        data := storeData chain1.data ptr (gp0_tag (toU32 numCommands) (chain1.orderingTable z)) }
    -- chain->orderingTable[zIndex] = gp0_tag(0, ptr);
    let chain3 : DMAChain :=
      { chain2 with
        orderingTable := storeAt chain2.orderingTable z (gp0_tag 0 (ptrAddr chain2.addr ptr)) }
    -- assert(chain->nextPacket < &(chain->data)[CHAIN_BUFFER_SIZE]);
    if ¬ (chain3.nextPacket < (CHAIN_BUFFER_SIZE : Int)) then none
    else some (chain3, ptr + 1)

/-- A run of successful calls of allocatePacket on one chain, each call a
(bucket, word count) pair; `none` as soon as one call aborts. -/
def allocateAll (chain : DMAChain) : List (Nat × Nat) → Option DMAChain
  | [] => some chain
  | (z, n) :: rest =>
    (allocatePacket chain (z : Int) (n : Int)).bind (fun res => allocateAll res.1 rest)

/-! ## gpu.c: clearOrderingTable -/

/-- Byte address of `orderingTable[0]`: in the structure of gpu.h the table follows the
`CHAIN_BUFFER_SIZE` words of `data`. -/
def tableAddr (addr : Nat) : Nat := addr + 4 * CHAIN_BUFFER_SIZE

/-- Modelled from the spec: the OTC DMA channel, which is hardware and not code.
"A single hardware-assisted bulk fill that writes each head to point at its own
index minus one, forming an implicit chain ... terminating at bucket 0": started
at entry `i` for `count` words, the channel walks down the table, storing in each
entry the 24-bit address of the entry below it and in the last one the
end-of-list address. -/
def otcTransfer (tablePtr : Nat) : Nat → Nat → (Nat → Nat) → (Nat → Nat)
  | _, 0, t => t
  | i, 1, t => storeAt t i END_ADDR
  | i, count + 2, t =>
    otcTransfer tablePtr (i - 1) (count + 1)
      (storeAt t i (gp0_tag 0 (toU32 ((tablePtr : Int) + 4 * (i : Int) - 4))))

/-- The function `clearOrderingTable` of gpu.c: `DMA_MADR` is set to
`&table[numEntries - 1]`, `DMA_BCR` to `numEntries`, and the channel is run to
completion. `tablePtr` is the byte address of `table[0]`. -/
def clearOrderingTable (tablePtr : Nat) (table : Nat → Nat) (numEntries : Nat) : Nat → Nat :=
  otcTransfer tablePtr (numEntries - 1) numEntries table

/-- The reset at the top of a frame (main.c):
`clearOrderingTable(chain->orderingTable, ORDERING_TABLE_SIZE); chain->nextPacket = chain->data;` -/
def resetChain (chain : DMAChain) : DMAChain :=
  { chain with
    orderingTable :=
      clearOrderingTable (tableAddr chain.addr) chain.orderingTable ORDERING_TABLE_SIZE
    nextPacket := 0 }

/-! ## Linked-list traversal -/

/-- The word of an array of `count` words at byte address `base` that the 24-bit
address `a` names, if any. -/
def wordIndexAt (base count a : Nat) : Option Nat :=
  let off := (a + 2 ^ 24 - base % 2 ^ 24) % 2 ^ 24
  if off % 4 = 0 ∧ off / 4 < count then some (off / 4) else none

/-- Modelled from the spec: the linked-list transfer of the GPU DMA channel, which
is hardware and not code. Starting at the 24-bit address `a` it reads a tag,
sends the `tagLength` words that follow it, and goes on at `tagAddr` unless that is
the end-of-list address. `read` maps an address to the cell found there and its
content. The result lists the cells visited with the word count found in each;
`none` when the walk leaves the mapped memory or does not end within `fuel` steps. -/
def dmaWalk {ι : Type} (read : Nat → Option (ι × Nat)) : Nat → Nat → Option (List (ι × Nat))
  | 0, _ => none
  | fuel + 1, a =>
    match read a with
    | none => none
    | some (cell, tag) =>
      if tagAddr tag = END_ADDR then some [(cell, tagLength tag)]
      else (dmaWalk read fuel (tagAddr tag)).map (fun rest => (cell, tagLength tag) :: rest)

/-- Reading a stand-alone table of `n` entries at byte address `tablePtr`. -/
def readTable (tablePtr n : Nat) (t : Nat → Nat) (a : Nat) : Option (Nat × Nat) :=
  (wordIndexAt tablePtr n a).map (fun i => (i, t i))

/-- Following back-links through the packet buffer of a chain: from the 24-bit
address `a`, as long as the address names a word of `data`, record that packet
(index of its header, word count in its header) and go on at the header's address
field. The result is the packets visited and the address at which the walk left
the buffer. -/
def followLinks (chain : DMAChain) : Nat → Nat → List (Nat × Nat) × Nat
  | 0, a => ([], a)
  | fuel + 1, a =>
    if a = END_ADDR then ([], a)
    else
      match wordIndexAt chain.addr CHAIN_BUFFER_SIZE a with
      | none => ([], a)
      | some k =>
        let t := chain.data (k : Int)
        let r := followLinks chain fuel (tagAddr t)
        ((k, tagLength t) :: r.1, r.2)

/-- The packets a run of calls allocates to bucket `b`, in allocation order: index
of the header and the word count its header carries, the cursor being at `k`
before the first call. -/
def packetsOf (b : Nat) : Nat → List (Nat × Nat) → List (Nat × Nat)
  | _, [] => []
  | k, (z, n) :: rest =>
    (if z = b then [(k, n % 256)] else []) ++ packetsOf b (k + (n + 1)) rest

/-- The chain from address `a` runs through exactly the packets `ps` and leaves the
packet buffer at address `e`. -/
def Linked (addr : Nat) (data : Int → Nat) : Nat → List (Nat × Nat) → Nat → Prop
  | a, [], e => a = e ∧ (e = END_ADDR ∨ wordIndexAt addr CHAIN_BUFFER_SIZE e = none)
  | a, p :: ps, e =>
    a ≠ END_ADDR ∧ wordIndexAt addr CHAIN_BUFFER_SIZE a = some p.1 ∧
      tagLength (data (p.1 : Int)) = p.2 ∧ Linked addr data (tagAddr (data (p.1 : Int))) ps e

/-- A chain used in the worked examples: an aligned address in RAM, cleared
memory, the cursor at the start of `data`. -/
def exampleChain : DMAChain :=
  { addr := 0x80100000, data := fun _ => 0, orderingTable := fun _ => 0, nextPacket := 0 }

/-! ## main.c: which chain a frame uses -/

/-- Height of one framebuffer (`SCREEN_HEIGHT`, main.c). -/
def SCREEN_HEIGHT : Int := 256

/-- Width of one framebuffer (`SCREEN_WIDTH`, main.c). -/
def SCREEN_WIDTH : Int := 320

/-- The variables of `main` that select the buffers of a frame. -/
structure FrameState where
  usingSecondFrame : Bool
  bufferX : Int
  bufferY : Int
deriving DecidableEq

/-- What one pass of the loop of `main` does with the two chains and the two
framebuffers, in program order. `chain` is the index into `dmaChains`. -/
inductive FrameEvent where
  /-- The calls `clearOrderingTable(chain->orderingTable, ...)` and `chain->nextPacket = chain->data`. -/
  | reset (chain : Nat)
  /-- Packets are allocated on the chain, drawn for the framebuffer at (bufferX, bufferY). -/
  | build (chain : Nat) (bufferX bufferY : Int)
  /-- The write `GPU_GP1 = gp1_fbOffset(bufferX, bufferY)`. -/
  | display (bufferX bufferY : Int)
  /-- The call `sendLinkedList(&(chain->orderingTable)[ORDERING_TABLE_SIZE - 1])`. -/
  | submit (chain : Nat)
deriving DecidableEq

/-- State of `main` on entry to the loop: `usingSecondFrame = false`, `bufferX = 0`,
`bufferY = 0`. -/
def initialFrameState : FrameState :=
  { usingSecondFrame := false, bufferX := 0, bufferY := 0 }

/-- One pass of the loop of `main`, as far as the buffers go. -/
def frameStep (s : FrameState) : FrameState × List FrameEvent :=
  -- DMAChain *chain = &dmaChains[usingSecondFrame];
  let chain : Nat := if s.usingSecondFrame then 1 else 0
  -- usingSecondFrame = !usingSecondFrame;
  let s1 : FrameState := { s with usingSecondFrame := !s.usingSecondFrame }
  -- bufferY = usingSecondFrame ? SCREEN_HEIGHT : 0;
  let s2 : FrameState := { s1 with bufferY := if s1.usingSecondFrame then SCREEN_HEIGHT else 0 }
  (s2, [FrameEvent.reset chain, FrameEvent.build chain s1.bufferX s1.bufferY,
        FrameEvent.display s2.bufferX s2.bufferY, FrameEvent.submit chain])

/-- State of `main` after `k` passes of the loop. -/
def framesFrom (s : FrameState) : Nat → FrameState
  | 0 => s
  | k + 1 => (frameStep (framesFrom s k)).1

/-- The events of frame number `k`, counted from 0. -/
def frameEvents (k : Nat) : List FrameEvent :=
  (frameStep (framesFrom initialFrameState k)).2

/-- The chain an event touches, if it touches one. -/
def FrameEvent.chain? : FrameEvent → Option Nat
  | FrameEvent.reset c => some c
  | FrameEvent.build c _ _ => some c
  | FrameEvent.display _ _ => none
  | FrameEvent.submit c => some c

/-- The chain handed to `sendLinkedList` in frame `k`. -/
def submittedChain (k : Nat) : List Nat :=
  (frameEvents k).filterMap (fun e => match e with
    | FrameEvent.submit c => some c
    | _ => none)

/-! ## The geometry coprocessor -/

/-- The constant `ONE` of gte.h, `1 << 12`. -/
def ONE : Int := 4096

/-- A value stored into a signed 16-bit register or `int16_t`. -/
def int16 (x : Int) : Int := (x + 32768) % 65536 - 32768

/-- Arithmetic shift right by 12 bits, the coprocessor's `sf` shift. -/
def sar12 (x : Int) : Int := Int.shiftRight x 12

/-- Saturation to the signed 16-bit range, as the coprocessor applies to IR1..IR3. -/
def sat16 (x : Int) : Int := if x < -32768 then -32768 else if x > 32767 then 32767 else x

/-- A vector of three components. -/
structure Vec3 where
  x : Int
  y : Int
  z : Int
deriving DecidableEq

/-- The type `GTEMatrix` (`int16_t values[3][3]`); `mRC` is `values[R][C]`. -/
structure GTEMatrix where
  m00 : Int
  m01 : Int
  m02 : Int
  m10 : Int
  m11 : Int
  m12 : Int
  m20 : Int
  m21 : Int
  m22 : Int
deriving DecidableEq

/-- The registers of the coprocessor that the program uses: rotation matrix,
translation vector, the three vertex vectors, the 16-bit accumulators, MAC0, the
screen coordinates, the depth queue SZ0..SZ3, OTZ and the depth scale factor. -/
structure GTE where
  rt : GTEMatrix
  tr : Vec3
  v0 : Vec3
  v1 : Vec3
  v2 : Vec3
  ir1 : Int
  ir2 : Int
  ir3 : Int
  mac0 : Int
  sx0 : Int
  sy0 : Int
  sx1 : Int
  sy1 : Int
  sx2 : Int
  sy2 : Int
  sz0 : Int
  sz1 : Int
  sz2 : Int
  sz3 : Int
  otz : Int
  zsf3 : Int
deriving DecidableEq

/-- Modelled from the spec: `isin` and `icos` of trig.h, which is not among the
sources: the "precomputed sine/cosine lookup, pure function" over a 4096-unit
turn. The development takes the two functions as a parameter. -/
structure Trig where
  isin : Int → Int
  icos : Int → Int

/-- The sine and cosine stay within one unit of 1.12 fixed point. -/
def Trig.Bounded (t : Trig) : Prop :=
  ∀ a, -ONE ≤ t.isin a ∧ t.isin a ≤ ONE ∧ -ONE ≤ t.icos a ∧ t.icos a ≤ ONE

/-- A sine/cosine table that is exact at the quarter turns (0, 1024, 2048, 3072
modulo 4096) and returns 0 elsewhere; the worked examples evaluate it at quarter
turns only. -/
def quarterTurnTrig : Trig :=
  { isin := fun a => if a % 4096 = 1024 then 4096 else if a % 4096 = 3072 then -4096 else 0
    icos := fun a => if a % 4096 = 0 then 4096 else if a % 4096 = 2048 then -4096 else 0 }

/-- Modelled from the spec: `gte_setRotationMatrix` of ps1/cop0gte.h (absent):
loads the nine 16-bit entries of the rotation matrix, row by row. -/
def gte_setRotationMatrix (g : GTE) (v11 v12 v13 v21 v22 v23 v31 v32 v33 : Int) : GTE :=
  { g with rt := ⟨int16 v11, int16 v12, int16 v13, int16 v21, int16 v22, int16 v23,
                  int16 v31, int16 v32, int16 v33⟩ }

/-- Modelled from the spec: `gte_setColumnVectors` of ps1/cop0gte.h (absent):
"building a column-vector rotation": the nine arguments are a matrix written row by
row, and V0, V1, V2 receive its first, second and third column. -/
def gte_setColumnVectors (g : GTE) (v11 v12 v13 v21 v22 v23 v31 v32 v33 : Int) : GTE :=
  { g with
    v0 := ⟨int16 v11, int16 v21, int16 v31⟩
    v1 := ⟨int16 v12, int16 v22, int16 v32⟩
    v2 := ⟨int16 v13, int16 v23, int16 v33⟩ }

/-- Modelled from the spec: `gte_loadRotationMatrix` of ps1/cop0gte.h (absent):
"loading the product back as the new current matrix". -/
def gte_loadRotationMatrix (g : GTE) (m : GTEMatrix) : GTE :=
  { g with rt := m }

/-- Modelled from the spec: `gte_setTranslationVector` of ps1/cop0gte.h (absent):
loads the translation vector. -/
def gte_setTranslationVector (g : GTE) (x y z : Int) : GTE :=
  { g with tr := ⟨x, y, z⟩ }

/-- Modelled from the spec: the coprocessor's matrix-vector multiply
(`GTE_CMD_MVMVA | GTE_SF | GTE_MX_RT | ... | GTE_CV_NONE`), which is hardware: the
rotation matrix times the vector `v`, each component shifted right by 12 bits and
saturated into the 16-bit accumulators IR1..IR3. -/
def mvmvaRT (g : GTE) (v : Vec3) : GTE :=
  { g with
    ir1 := sat16 (sar12 (g.rt.m00 * v.x + g.rt.m01 * v.y + g.rt.m02 * v.z))
    ir2 := sat16 (sar12 (g.rt.m10 * v.x + g.rt.m11 * v.y + g.rt.m12 * v.z))
    ir3 := sat16 (sar12 (g.rt.m20 * v.x + g.rt.m21 * v.y + g.rt.m22 * v.z)) }

/-! ## gte.c -/

/-- The function `multiplyCurrentMatrixByVectors` of gte.c: three multiplies, by V0,
V1 and V2, each filling one column of the output. The result is the coprocessor
state after the call and the matrix written to `*output`. -/
def multiplyCurrentMatrixByVectors (g : GTE) : GTE × GTEMatrix :=
  -- gte_command(MVMVA | SF | MX_RT | V_V0 | CV_NONE); values[0..2][0] = IR1..IR3
  let ga := mvmvaRT g g.v0
  let o00 := int16 ga.ir1
  let o10 := int16 ga.ir2
  let o20 := int16 ga.ir3
  -- gte_command(MVMVA | SF | MX_RT | V_V1 | CV_NONE); values[0..2][1] = IR1..IR3
  let gb := mvmvaRT ga ga.v1
  let o01 := int16 gb.ir1
  let o11 := int16 gb.ir2
  let o21 := int16 gb.ir3
  -- gte_command(MVMVA | SF | MX_RT | V_V2 | CV_NONE); values[0..2][2] = IR1..IR3
  let gc := mvmvaRT gb gb.v2
  let o02 := int16 gc.ir1
  let o12 := int16 gc.ir2
  let o22 := int16 gc.ir3
  (gc, ⟨o00, o01, o02, o10, o11, o12, o20, o21, o22⟩)

/-- The function `rotateCurrentMatrix` of gte.c, in the order of its statements: the
block guarded by `pitch`, then the one guarded by `yaw`, then the one guarded by
`roll`. -/
def rotateCurrentMatrix (t : Trig) (g : GTE) (roll yaw pitch : Int) : GTE :=
  let g1 :=
    if pitch ≠ 0 then
      let s := t.isin pitch
      let c := t.icos pitch
      let gv := gte_setColumnVectors g
        ONE 0 0
        0 c (-s)
        0 s c
      let r := multiplyCurrentMatrixByVectors gv
      gte_loadRotationMatrix r.1 r.2
    else g
  let g2 :=
    if yaw ≠ 0 then
      let s := t.isin yaw
      let c := t.icos yaw
      let gv := gte_setColumnVectors g1
        c 0 s
        0 ONE 0
        (-s) 0 c
      let r := multiplyCurrentMatrixByVectors gv
      gte_loadRotationMatrix r.1 r.2
    else g1
  let g3 :=
    if roll ≠ 0 then
      let s := t.isin roll
      let c := t.icos roll
      let gv := gte_setColumnVectors g2
        c (-s) 0
        s c 0
        0 0 ONE
      let r := multiplyCurrentMatrixByVectors gv
      gte_loadRotationMatrix r.1 r.2
    else g2
  g3

/-- The function `updateTranslationMatrix` of gte.c: the three arguments are moved
into the 16-bit registers IR1..IR3, multiplied by the rotation matrix, and the
accumulators are loaded as the translation vector. -/
def updateTranslationMatrix (g : GTE) (x y z : Int) : GTE :=
  -- GTE_SET(GTE_IR1, tx); GTE_SET(GTE_IR2, ty); GTE_SET(GTE_IR3, tz);
  let g1 : GTE := { g with ir1 := int16 x, ir2 := int16 y, ir3 := int16 z }
  -- gte_command(MVMVA | SF | MX_RT | V_IR | CV_NONE);
  let g2 := mvmvaRT g1 ⟨g1.ir1, g1.ir2, g1.ir3⟩
  -- tx = gte_getIR1(); ...; gte_setTranslationVector(tx, ty, tz);
  gte_setTranslationVector g2 g2.ir1 g2.ir2 g2.ir3

/-- The camera of camera.h: position and orientation. -/
structure Camera where
  x : Int
  y : Int
  z : Int
  pitch : Int
  roll : Int
  yaw : Int
deriving DecidableEq

/-- The set-up of the rotation at the top of a frame (main.c):
`gte_setRotationMatrix(ONE, 0, 0, 0, ONE, 0, 0, 0, ONE);`
`rotateCurrentMatrix(-camera.roll, camera.yaw, camera.pitch);` -/
def cameraRotation (t : Trig) (g : GTE) (camera : Camera) : GTE :=
  let g1 := gte_setRotationMatrix g ONE 0 0 0 ONE 0 0 0 ONE
  rotateCurrentMatrix t g1 (-camera.roll) camera.yaw camera.pitch

/-- The set-up of the translation (main.c):
`updateTranslationMatrix(-camera.x, -camera.y, -camera.z);` -/
def cameraTranslation (g : GTE) (camera : Camera) : GTE :=
  updateTranslationMatrix g (-camera.x) (-camera.y) (-camera.z)

/-! ### Matrices as the specification speaks of them -/

/-- Elementary rotation about the X axis (pitch), as gte.c writes it. -/
def rotationX (s c : Int) : GTEMatrix := ⟨ONE, 0, 0, 0, c, -s, 0, s, c⟩

/-- Elementary rotation about the Y axis (yaw), as gte.c writes it. -/
def rotationY (s c : Int) : GTEMatrix := ⟨c, 0, s, 0, ONE, 0, -s, 0, c⟩

/-- Elementary rotation about the Z axis (roll), as gte.c writes it. -/
def rotationZ (s c : Int) : GTEMatrix := ⟨c, -s, 0, s, c, 0, 0, 0, ONE⟩

/-- Fixed-point product of two matrices: the ordinary matrix product with every
entry shifted right by 12 bits and saturated to 16 bits. -/
def fixMul (a b : GTEMatrix) : GTEMatrix :=
  ⟨sat16 (sar12 (a.m00 * b.m00 + a.m01 * b.m10 + a.m02 * b.m20)),
   sat16 (sar12 (a.m00 * b.m01 + a.m01 * b.m11 + a.m02 * b.m21)),
   sat16 (sar12 (a.m00 * b.m02 + a.m01 * b.m12 + a.m02 * b.m22)),
   sat16 (sar12 (a.m10 * b.m00 + a.m11 * b.m10 + a.m12 * b.m20)),
   sat16 (sar12 (a.m10 * b.m01 + a.m11 * b.m11 + a.m12 * b.m21)),
   sat16 (sar12 (a.m10 * b.m02 + a.m11 * b.m12 + a.m12 * b.m22)),
   sat16 (sar12 (a.m20 * b.m00 + a.m21 * b.m10 + a.m22 * b.m20)),
   sat16 (sar12 (a.m20 * b.m01 + a.m21 * b.m11 + a.m22 * b.m21)),
   sat16 (sar12 (a.m20 * b.m02 + a.m21 * b.m12 + a.m22 * b.m22))⟩

/-- Fixed-point product of a matrix and a vector, shifted right by 12 bits. -/
def fixApply (a : GTEMatrix) (v : Vec3) : Vec3 :=
  ⟨sar12 (a.m00 * v.x + a.m01 * v.y + a.m02 * v.z),
   sar12 (a.m10 * v.x + a.m11 * v.y + a.m12 * v.z),
   sar12 (a.m20 * v.x + a.m21 * v.y + a.m22 * v.z)⟩

/-- The identity matrix in 1.12 fixed point. -/
def identityMatrix : GTEMatrix := ⟨ONE, 0, 0, 0, ONE, 0, 0, 0, ONE⟩

/-- Modelled from the spec: the rotate-and-translate stage of the coprocessor's
projection, which is hardware: `(R * v >> 12) + translation`. -/
def cameraSpace (g : GTE) (v : Vec3) : Vec3 :=
  ⟨(fixApply g.rt v).x + g.tr.x, (fixApply g.rt v).y + g.tr.y, (fixApply g.rt v).z + g.tr.z⟩

/-- A coprocessor state with every register cleared. -/
def exampleGTE : GTE :=
  { rt := ⟨0, 0, 0, 0, 0, 0, 0, 0, 0⟩, tr := ⟨0, 0, 0⟩, v0 := ⟨0, 0, 0⟩, v1 := ⟨0, 0, 0⟩,
    v2 := ⟨0, 0, 0⟩, ir1 := 0, ir2 := 0, ir3 := 0, mac0 := 0, sx0 := 0, sy0 := 0, sx1 := 0,
    sy1 := 0, sx2 := 0, sy2 := 0, sz0 := 0, sz1 := 0, sz2 := 0, sz3 := 0, otz := 0,
    zsf3 := 0 }

/-- The order of the multiplies as the specification words it: starting from the
matrix `m`, the roll step, then the yaw step, then the pitch step, each one a
multiply-and-load that is skipped when its angle is zero. -/
def rotateRollYawPitch (t : Trig) (m : GTEMatrix) (roll yaw pitch : Int) : GTEMatrix :=
  let m1 := if roll ≠ 0 then fixMul m (rotationZ (t.isin roll) (t.icos roll)) else m
  let m2 := if yaw ≠ 0 then fixMul m1 (rotationY (t.isin yaw) (t.icos yaw)) else m1
  if pitch ≠ 0 then fixMul m2 (rotationX (t.isin pitch) (t.icos pitch)) else m2

/-- A value fits a signed 16-bit register. -/
def Fits16 (x : Int) : Prop := -32768 ≤ x ∧ x ≤ 32767

instance Fits16.decidable (x : Int) : Decidable (Fits16 x) :=
  inferInstanceAs (Decidable (-32768 ≤ x ∧ x ≤ 32767))

/-- A coprocessor state holding the identity rotation. -/
def identityGTE : GTE := { exampleGTE with rt := identityMatrix }

/-- A coprocessor state holding a rotation of an eighth of a turn about the Y axis
(sine and cosine 2896 in 1.12 fixed point). -/
def eighthTurnGTE : GTE := { exampleGTE with rt := rotationY 2896 2896 }

/-! ## main.c: the render pass -/

/-- Saturation to the unsigned 16-bit range, as the coprocessor applies to OTZ. -/
def satU16 (x : Int) : Int := if x < 0 then 0 else if x > 65535 then 65535 else x

/-- What the projection of the three vertices of a face yields: screen coordinates
and depth of each vertex, in the order of `tri->vertices`. -/
structure Projected where
  sx0 : Int
  sy0 : Int
  depth0 : Int
  sx1 : Int
  sy1 : Int
  depth1 : Int
  sx2 : Int
  sy2 : Int
  depth2 : Int
deriving DecidableEq

/-- Modelled from the spec: the fused "rotate+translate+perspective-divide" of three
vertices (`GTE_CMD_RTPT`), which is hardware. Its arithmetic is not modelled: the
projected vertices are taken as given. They fill the three screen-coordinate
registers, and each depth is pushed on the queue SZ0..SZ3, so that SZ1, SZ2, SZ3 end
up holding the three depths and SZ0 the value SZ3 held before. -/
def rtpt (g : GTE) (p : Projected) : GTE :=
  { g with
    sx0 := p.sx0, sy0 := p.sy0, sx1 := p.sx1, sy1 := p.sy1, sx2 := p.sx2, sy2 := p.sy2
    sz0 := g.sz3, sz1 := p.depth0, sz2 := p.depth1, sz3 := p.depth2 }

/-- Modelled from the spec: normal clipping (`GTE_CMD_NCLIP`), which is hardware:
MAC0 receives "the signed area of the projected triangle",
SX0*SY1 + SX1*SY2 + SX2*SY0 - SX0*SY2 - SX1*SY0 - SX2*SY1. -/
def nclip (g : GTE) : GTE :=
  { g with
    mac0 := g.sx0 * g.sy1 + g.sx1 * g.sy2 + g.sx2 * g.sy0
      - g.sx0 * g.sy2 - g.sx1 * g.sy0 - g.sx2 * g.sy1 }

/-- Modelled from the spec: the depth average (`GTE_CMD_AVSZ3`), which is hardware:
MAC0 = ZSF3 * (SZ1 + SZ2 + SZ3) and OTZ = MAC0 >> 12, saturated to 16 unsigned bits. -/
def avsz3 (g : GTE) : GTE :=
  { g with
    mac0 := g.zsf3 * (g.sz1 + g.sz2 + g.sz3)
    otz := satU16 (sar12 (g.zsf3 * (g.sz1 + g.sz2 + g.sz3))) }

/-- The type `TextureInfo` of gpu.h. -/
structure TextureInfo where
  u : Int
  v : Int
  w : Int
  h : Int
  page : Int
  clut : Int
deriving DecidableEq

/-- The texture coordinates of a face (`Tri_Textured.UVs` of RoomModel.h). -/
structure FaceUVs where
  u0 : Int
  v0 : Int
  u1 : Int
  v1 : Int
  u2 : Int
  v2 : Int
deriving DecidableEq

/-- Modelled from the spec: the command encoders of ps1/gpucmd.h that the render pass
calls; the header is not among the sources and the encodings are taken as a
parameter ("the target display processor's fixed encoding"). -/
structure GPUCommands where
  gp0_shadedTriangle : Bool → Bool → Bool → Nat
  gp0_uv : Int → Int → Int → Nat

/-- The table `colors` of main.c. -/
def colors : List Nat := [0x0000FF, 0x00FF00, 0xFF0000, 0x00FFFF, 0xFF00FF, 0xFFFF00]

/-- A screen-coordinate register read as one 32-bit word (`gte_getSXY0` and the
like): X in the low half, Y in the high half. -/
def sxyWord (sx sy : Int) : Nat := toU32 sx % 65536 + 65536 * (toU32 sy % 65536)

/-- Store a run of words through a pointer: `ptr[0] = ...; ptr[1] = ...;` -/
def storeWords (d : Int → Nat) (ptr : Int) : List Nat → Int → Nat
  | [] => d
  | w :: ws => storeWords (storeData d ptr w) (ptr + 1) ws

/-- What the loop of the render pass carries from face to face. -/
structure RenderState where
  chain : DMAChain
  gte : GTE
  polyCount : Int

/-- How the body of the loop is left for one face. -/
inductive FaceOutcome where
  /-- The `continue` after normal clipping. -/
  | backface
  /-- The `continue` of the far-plane test. -/
  | tooFar
  /-- The `continue` of the test behind the camera. -/
  | behind
  /-- A packet was allocated and filled. -/
  | drawn
deriving DecidableEq

/-- The emission of a face (main.c, the `if(renderTextured)` statement and
`polyCount++`): a packet of 7 command words for a textured triangle, of 4 for a flat
one, linked into bucket `zIndex`. -/
def emitFace (cmds : GPUCommands) (tex : TextureInfo) (renderTextured : Bool) (i : Nat)
    (uvs : FaceUVs) (zIndex : Int) (chain : DMAChain) (g : GTE) (polyCount : Int) :
    Option (RenderState × FaceOutcome) :=
  if renderTextured then
    let uv0 := cmds.gp0_uv (tex.u + uvs.u0) (tex.v + uvs.v0) tex.clut
    let uv1 := cmds.gp0_uv (tex.u + uvs.u1) (tex.v + uvs.v1) tex.page
    let uv2 := cmds.gp0_uv (tex.u + uvs.u2) (tex.v + uvs.v2) 0
    (allocatePacket chain zIndex 7).map (fun res =>
      ({ chain := { res.1 with
            data := storeWords res.1.data res.2
              [0x808080 ||| cmds.gp0_shadedTriangle false true false,
               sxyWord g.sx0 g.sy0, uv0, sxyWord g.sx1 g.sy1, uv1, sxyWord g.sx2 g.sy2, uv2] }
         gte := g
         polyCount := polyCount + 1 }, FaceOutcome.drawn))
  else
    (allocatePacket chain zIndex 4).map (fun res =>
      ({ chain := { res.1 with
            data := storeWords res.1.data res.2
              [colors.getD (i % 6) 0 ||| cmds.gp0_shadedTriangle false false false,
               sxyWord g.sx0 g.sy0, sxyWord g.sx1 g.sy1, sxyWord g.sx2 g.sy2] }
         gte := g
         polyCount := polyCount + 1 }, FaceOutcome.drawn))

/-- The body of the loop over the faces (main.c), for face number `i` whose
projection is `p`. `none` is a failed `assert` of allocatePacket. -/
def renderFace (cmds : GPUCommands) (tex : TextureInfo) (renderTextured : Bool) (i : Nat)
    (uvs : FaceUVs) (p : Projected) (st : RenderState) : Option (RenderState × FaceOutcome) :=
  -- gte_loadV0..2; gte_command(GTE_CMD_RTPT | GTE_SF); gte_command(GTE_CMD_NCLIP);
  let g2 := nclip (rtpt st.gte p)
  -- if(gte_getMAC0() <= 0) continue;
  if g2.mac0 ≤ 0 then some ({ st with gte := g2 }, FaceOutcome.backface)
  else
    -- gte_command(GTE_CMD_AVSZ3 | GTE_SF); int zIndex = gte_getOTZ();
    let g3 := avsz3 g2
    let zIndex := g3.otz
    -- if((zIndex >= ORDERING_TABLE_SIZE)) continue;
    if zIndex ≥ (ORDERING_TABLE_SIZE : Int) then some ({ st with gte := g3 }, FaceOutcome.tooFar)
    else if zIndex ≤ 0 then
      -- mfc2 z0, $16; mfc2 z1, $17; mfc2 z2, $18; if(z0 + z1 + z2 == 0) continue;
      let z0 := g3.sz0
      let z1 := g3.sz1
      let z2 := g3.sz2
      if z0 + z1 + z2 = 0 then some ({ st with gte := g3 }, FaceOutcome.behind)
      else emitFace cmds tex renderTextured i uvs zIndex st.chain g3 st.polyCount
    else emitFace cmds tex renderTextured i uvs zIndex st.chain g3 st.polyCount

/-- The loop over the faces, from face number `i` on. -/
def renderFaces (cmds : GPUCommands) (tex : TextureInfo) (renderTextured : Bool) :
    Nat → List (FaceUVs × Projected) → RenderState → Option RenderState
  | _, [], st => some st
  | i, face :: rest, st =>
    (renderFace cmds tex renderTextured i face.1 face.2 st).bind (fun r =>
      renderFaces cmds tex renderTextured (i + 1) rest r.1)

/-- Signed area of the projected triangle, twice over: the value of normal clipping. -/
def signedArea (p : Projected) : Int :=
  p.sx0 * p.sy1 + p.sx1 * p.sy2 + p.sx2 * p.sy0
    - p.sx0 * p.sy2 - p.sx1 * p.sy0 - p.sx2 * p.sy1

/-- Scaled average depth of a projected face, the bucket index the coprocessor
returns in OTZ, for the depth scale factor `zsf3`. -/
def bucketIndex (zsf3 : Int) (p : Projected) : Int :=
  satU16 (sar12 (zsf3 * (p.depth0 + p.depth1 + p.depth2)))

/-- Command encodings used in the worked examples: the opcode in the top byte. -/
def exampleCommands : GPUCommands :=
  { gp0_shadedTriangle := fun gouraud textured blend =>
      0x20000000 + (if gouraud then 0x10000000 else 0) + (if textured then 0x04000000 else 0)
        + (if blend then 0x02000000 else 0)
    gp0_uv := fun u v attr => toU32 u % 256 + 256 * (toU32 v % 256) + 65536 * (toU32 attr % 65536) }

/-- A texture descriptor used in the worked examples. -/
def exampleTexture : TextureInfo := ⟨0, 0, 64, 64, 5, 0x3c14⟩

/-- The state of the render pass at the start of a frame on the example chain, the
scale register ZSF3 holding 30, the value `setupGTE` leaves in it (one third of
`(ONE * ORDERING_TABLE_SIZE) / 0x7fff`). -/
def exampleRender : RenderState :=
  { chain := resetChain exampleChain, gte := { identityGTE with zsf3 := 30 }, polyCount := 0 }

/-- A triangle on screen with positive signed area at the given depths. -/
def frontFacing (d0 d1 d2 : Int) : Projected := ⟨0, 0, d0, 10, 0, d1, 0, 10, d2⟩

/-- The same triangle with two vertices exchanged: negative signed area. -/
def backFacing (d0 d1 d2 : Int) : Projected := ⟨0, 0, d0, 0, 10, d1, 10, 0, d2⟩

/-! ## gte.c: setupGTE -/

/-- Modelled from the spec: `gte_setZScaleFactor` of ps1/cop0gte.h, which is not
among the sources. The bucket is "the average of the three vertices' camera-space
depth, scaled by a fixed factor"; the depth average of the coprocessor multiplies
the sum of the three depths by ZSF3, so the register receives one third of the
scale passed (an `unsigned int`). -/
def gte_setZScaleFactor (g : GTE) (scale : Int) : GTE :=
  { g with zsf3 := ((toU32 scale / 3 : Nat) : Int) }

/-- The scale that `setupGTE` passes on: `(ONE * ORDERING_TABLE_SIZE) / 0x7fff`. -/
def depthScaleFactor : Int := Int.tdiv (ONE * (ORDERING_TABLE_SIZE : Int)) 0x7fff

/-- The function `setupGTE` of gte.c, as far as the registers of the model go.
`cop0_setSR` enables the coprocessor; `gte_setXYOrigin(width / 2, height / 2)` and
`gte_setFieldOfView(width)` set the screen origin and the projection distance, which
enter the projection arithmetic only (taken as given, see `rtpt`); the last statement
is `gte_setZScaleFactor((ONE * ORDERING_TABLE_SIZE) / 0x7fff)`. -/
def setupGTE (g : GTE) (width height : Int) : GTE :=
  let _origin := (Int.tdiv width 2, Int.tdiv height 2)
  let _fieldOfView := width
  gte_setZScaleFactor g depthScaleFactor

/-- Three vertices at the given depths; the screen coordinates do not enter the
depth average. -/
def atDepths (za zb zc : Int) : Projected := ⟨0, 0, za, 0, 0, zb, 0, 0, zc⟩

/-! ## gte.c: the rotation without the zero-angle shortcut -/

/-- The variant of `rotateCurrentMatrix` that the specification compares it with:
the same three blocks, each performed unconditionally, also for a zero angle. -/
def rotateCurrentMatrixUnconditional (t : Trig) (g : GTE) (roll yaw pitch : Int) : GTE :=
  let g1 :=
    let s := t.isin pitch
    let c := t.icos pitch
    let gv := gte_setColumnVectors g
      ONE 0 0
      0 c (-s)
      0 s c
    let r := multiplyCurrentMatrixByVectors gv
    gte_loadRotationMatrix r.1 r.2
  let g2 :=
    let s := t.isin yaw
    let c := t.icos yaw
    let gv := gte_setColumnVectors g1
      c 0 s
      0 ONE 0
      (-s) 0 c
    let r := multiplyCurrentMatrixByVectors gv
    gte_loadRotationMatrix r.1 r.2
  let g3 :=
    let s := t.isin roll
    let c := t.icos roll
    let gv := gte_setColumnVectors g2
      c (-s) 0
      s c 0
      0 0 ONE
    let r := multiplyCurrentMatrixByVectors gv
    gte_loadRotationMatrix r.1 r.2
  g3

/-- Every entry of a matrix fits a signed 16-bit register. -/
def GTEMatrix.Fits16 (m : GTEMatrix) : Prop :=
  PSX.Fits16 m.m00 ∧ PSX.Fits16 m.m01 ∧ PSX.Fits16 m.m02 ∧
  PSX.Fits16 m.m10 ∧ PSX.Fits16 m.m11 ∧ PSX.Fits16 m.m12 ∧
  PSX.Fits16 m.m20 ∧ PSX.Fits16 m.m21 ∧ PSX.Fits16 m.m22

instance GTEMatrix.Fits16.decidable (m : GTEMatrix) : Decidable m.Fits16 :=
  inferInstanceAs (Decidable (_ ∧ _))

/-- One multiply-and-load block of `rotateCurrentMatrix`, for the matrix `m` written
row by row: `gte_setColumnVectors(...); multiplyCurrentMatrixByVectors(&multiplied);`
`gte_loadRotationMatrix(&multiplied);` -/
def multiplyInto (g : GTE) (m : GTEMatrix) : GTE :=
  let gv := gte_setColumnVectors g m.m00 m.m01 m.m02 m.m10 m.m11 m.m12 m.m20 m.m21 m.m22
  let r := multiplyCurrentMatrixByVectors gv
  gte_loadRotationMatrix r.1 r.2

/-- The state of the render pass at the start of a frame on the example chain, the
coprocessor being set up by `setupGTE(SCREEN_WIDTH, SCREEN_HEIGHT)`. -/
def setupRender : RenderState :=
  { chain := resetChain exampleChain
    gte := setupGTE identityGTE SCREEN_WIDTH SCREEN_HEIGHT
    polyCount := 0 }

/-! ## main.c: the input step -/

/-- The type `ControllerInfo` of controller.h; every field is a `uint16_t`. -/
structure ControllerInfo where
  type : Nat
  buttons : Nat
  rx : Nat
  ry : Nat
  lx : Nat
  ly : Nat
deriving DecidableEq

/-- The mask `BUTTON_MASK_L2` of controller.h, `1 << 8`. -/
def BUTTON_MASK_L2 : Nat := 1 <<< 8

/-- The mask `BUTTON_MASK_R2` of controller.h, `1 << 9`. -/
def BUTTON_MASK_R2 : Nat := 1 <<< 9

/-- The mask `BUTTON_MASK_TRIANGLE` of controller.h, `1 << 12`. -/
def BUTTON_MASK_TRIANGLE : Nat := 1 <<< 12

/-- The mask `BUTTON_MASK_SQUARE` of controller.h, `1 << 15`. -/
def BUTTON_MASK_SQUARE : Nat := 1 <<< 15

/-- The constant `CAMERA_SENSITIVITY` of camera.h. -/
def CAMERA_SENSITIVITY : Int := 10

/-- The constant `MOVEMENT_SPEED` of camera.h. -/
def MOVEMENT_SPEED : Int := 30

/-- A value stored into an `int32_t`. -/
def int32 (x : Int) : Int := (x + 2147483648) % 4294967296 - 2147483648

/-- Arithmetic shift right by 6 bits. -/
def sar6 (x : Int) : Int := Int.shiftRight x 6

/-- The C test `buttons & mask`. -/
def pressed (info : ControllerInfo) (mask : Nat) : Bool := info.buttons &&& mask != 0

/-- The C test `axis > 156 || axis < 100` on a stick axis. -/
def outsideDeadZone (axis : Nat) : Bool := decide (axis > 156) || decide (axis < 100)

/-- The variables of `main` that the input step reads and writes: the camera and the
four flags of the two toggles. -/
structure InputState where
  camera : Camera
  trianglePressed : Bool
  squarePressed : Bool
  showingHelp : Bool
  renderTextured : Bool
deriving DecidableEq

/-- The state on entry to the loop of `main`: the camera at (0, -1000, 0) looking
straight ahead, no button held, the help shown, flat colours. -/
def initialInputState : InputState :=
  { camera := ⟨0, -1000, 0, 0, 0, 0⟩
    trianglePressed := false
    squarePressed := false
    showingHelp := true
    renderTextured := false }

/-- The camera part of the input step (main.c, inside `if(getControllerInfo(...))`):
up and down on L2 and R2, then the four stick axes of an analog controller. -/
def moveCamera (t : Trig) (camera : Camera) (info : ControllerInfo) : Camera :=
  -- yawSin = isin(camera.yaw); yawCos = icos(camera.yaw);  (both int16_t)
  let yawSin := int16 (t.isin camera.yaw)
  let yawCos := int16 (t.icos camera.yaw)
  -- if(controllerInfo.buttons & BUTTON_MASK_L2) camera.y += 16;
  let c1 : Camera :=
    if pressed info BUTTON_MASK_L2 then { camera with y := int32 (camera.y + 16) } else camera
  -- if(controllerInfo.buttons & BUTTON_MASK_R2) camera.y -= 16;
  let c2 : Camera :=
    if pressed info BUTTON_MASK_R2 then { c1 with y := int32 (c1.y - 16) } else c1
  -- if(controllerInfo.type == 0x07){
  if info.type = 0x07 then
    let c3 : Camera :=
      if outsideDeadZone info.lx then
        { c2 with
          x := int32 (c2.x
            + sar12 (sar6 (((info.lx : Int) - 127) * yawCos) * MOVEMENT_SPEED))
          z := int32 (c2.z
            - sar12 (sar6 (((info.lx : Int) - 127) * -yawSin) * MOVEMENT_SPEED)) }
      else c2
    let c4 : Camera :=
      if outsideDeadZone info.ly then
        { c3 with
          x := int32 (c3.x
            + sar12 (sar6 (((info.ly : Int) - 127) * yawSin) * MOVEMENT_SPEED))
          z := int32 (c3.z
            - sar12 (sar6 (((info.ly : Int) - 127) * yawCos) * MOVEMENT_SPEED)) }
      else c3
    let c5 : Camera :=
      if outsideDeadZone info.rx then
        { c4 with yaw := int16 (c4.yaw - sar6 ((info.rx : Int) - 127) * CAMERA_SENSITIVITY) }
      else c4
    if outsideDeadZone info.ry then
      -- camera.pitch += (((controllerInfo.ry-127)>>6) * CAMERA_SENSITIVITY);
      let c6 : Camera :=
        { c5 with pitch := int16 (c5.pitch + sar6 ((info.ry : Int) - 127) * CAMERA_SENSITIVITY) }
      -- if((int16_t)camera.pitch > 1024) camera.pitch = 1024;
      let c7 : Camera := if int16 c6.pitch > 1024 then { c6 with pitch := 1024 } else c6
      -- if((int16_t)camera.pitch < -1024) camera.pitch = -1024;
      if int16 c7.pitch < -1024 then { c7 with pitch := -1024 } else c7
    else c5
  else c2

/-- One of the two toggles of main.c: given whether the button is down, the pair
(button held, flag) becomes the new pair. The flag flips when the button is down and
was not held. -/
def toggle (down held flag : Bool) : Bool × Bool :=
  if down then
    if !held then (true, !flag) else (held, flag)
  else (false, flag)

/-- The body of `if(getControllerInfo(0, &controllerInfo))` in main.c. -/
def inputStep (t : Trig) (s : InputState) (info : ControllerInfo) : InputState :=
  let camera := moveCamera t s.camera info
  let help := toggle (pressed info BUTTON_MASK_TRIANGLE) s.trianglePressed s.showingHelp
  let tex := toggle (pressed info BUTTON_MASK_SQUARE) s.squarePressed s.renderTextured
  { camera := camera
    trianglePressed := help.1
    showingHelp := help.2
    squarePressed := tex.1
    renderTextured := tex.2 }

/-- The input step of one frame: `controller` is what `getControllerInfo` delivers,
`none` when it returns false (no controller answers), in which case nothing
changes. -/
def inputFrame (t : Trig) (s : InputState) (controller : Option ControllerInfo) : InputState :=
  match controller with
  | none => s
  | some info => inputStep t s info

/-- The input steps of a run of frames. -/
def inputFrames (t : Trig) (s : InputState) : List (Option ControllerInfo) → InputState
  | [] => s
  | c :: rest => inputFrames t (inputFrame t s c) rest

/-- Whether a button is down in the last snapshot of a run of read frames; false
when there is none. -/
def downInLast (mask : Nat) (infos : List ControllerInfo) : Bool :=
  match infos.getLast? with
  | none => false
  | some info => pressed info mask

/-- A snapshot of an analog controller with the sticks at rest and the given
buttons down. -/
def atRest (buttons : Nat) : ControllerInfo := ⟨0x07, buttons, 127, 127, 127, 127⟩

/-- The framebuffer origin that the packets of frame `k` are built with. -/
def buildOrigin (k : Nat) : List (Int × Int) :=
  (frameEvents k).filterMap (fun e => match e with
    | FrameEvent.build _ x y => some (x, y)
    | _ => none)

/-- The visible-buffer offset written to the display hardware in frame `k`. -/
def displayOffset (k : Nat) : List (Int × Int) :=
  (frameEvents k).filterMap (fun e => match e with
    | FrameEvent.display x y => some (x, y)
    | _ => none)

/-! ## main.c: building the chain of a frame -/

/-- Modelled from the spec: the command encoders of ps1/gpucmd.h that the trailing
packets use; the header is not among the sources and the encodings are taken as a
parameter. -/
structure FrameCommands where
  gp0_rgb : Int → Int → Int → Nat
  gp0_vramFill : Nat
  gp0_xy : Int → Int → Nat
  gp0_texpage : Int → Bool → Bool → Nat
  gp0_fbOffset1 : Int → Int → Nat
  gp0_fbOffset2 : Int → Int → Nat
  gp0_fbOrigin : Int → Int → Nat

/-- Modelled from the spec: `printString` of font.h, which is not among the sources.
It appends the packets of the overlay to the chain: a run of allocations, each a
(bucket, word count) pair, taken as a parameter; the specification places them in
the nearest-camera bucket, bucket 0. The command words it writes into its packets
are not modelled. -/
def printString (chain : DMAChain) (overlay : List (Nat × Nat)) : Option DMAChain :=
  allocateAll chain overlay

/-- The two packets that end the chain of a frame (main.c): the background fill of 3
words and the drawing attributes and offsets of 4 words, both in bucket
`ORDERING_TABLE_SIZE - 1`, built for the framebuffer at (bufferX, bufferY). -/
def trailingPackets (fc : FrameCommands) (chain : DMAChain) (bufferX bufferY : Int) :
    Option DMAChain :=
  -- ptr = allocatePacket(chain, ORDERING_TABLE_SIZE - 1, 3); ptr[0..2] = ...
  (allocatePacket chain ((ORDERING_TABLE_SIZE : Int) - 1) 3).bind (fun r1 =>
    let chain1 : DMAChain :=
      { r1.1 with
        data := storeWords r1.1.data r1.2
          [fc.gp0_rgb 64 64 64 ||| fc.gp0_vramFill,
           fc.gp0_xy bufferX bufferY,
           fc.gp0_xy SCREEN_WIDTH SCREEN_HEIGHT] }
    -- ptr = allocatePacket(chain, ORDERING_TABLE_SIZE - 1, 4); ptr[0..3] = ...
    (allocatePacket chain1 ((ORDERING_TABLE_SIZE : Int) - 1) 4).map (fun r2 =>
      { r2.1 with
        data := storeWords r2.1.data r2.2
          [fc.gp0_texpage 0 true false,
           fc.gp0_fbOffset1 bufferX bufferY,
           fc.gp0_fbOffset2 (bufferX + SCREEN_WIDTH - 1) (bufferY + SCREEN_HEIGHT - 2),
           fc.gp0_fbOrigin bufferX bufferY] }))

/-- The first part of the loop body of `main`: the reset of the chain, the set-up of
rotation and translation, the loop over the faces, and the overlay when the help is
shown. `faces` is the mesh as the projection delivers it in this frame. -/
def renderAndOverlay (t : Trig) (cmds : GPUCommands) (tex : TextureInfo)
    (renderTextured showingHelp : Bool) (camera : Camera)
    (faces : List (FaceUVs × Projected)) (overlay : List (Nat × Nat))
    (chain : DMAChain) (g : GTE) : Option RenderState :=
  -- clearOrderingTable(chain->orderingTable, ORDERING_TABLE_SIZE); chain->nextPacket = chain->data;
  let chain0 := resetChain chain
  -- gte_setRotationMatrix(...); rotateCurrentMatrix(...); updateTranslationMatrix(...);
  let g1 := cameraTranslation (cameraRotation t g camera) camera
  -- polyCount = 0; for(uint16_t i = 0; i < roomModel.faceCount; i++) { ... }
  (renderFaces cmds tex renderTextured 0 faces
      { chain := chain0, gte := g1, polyCount := 0 }).bind (fun st =>
    -- if(showingHelp) { ...; printString(chain, &font, 0, 0, textBuffer); }
    if showingHelp then
      (printString st.chain overlay).map (fun c => { st with chain := c })
    else some st)

/-- The chain of a frame as it is handed off: `renderAndOverlay`, then the two
trailing packets. Nothing else touches the chain before `sendLinkedList`. -/
def buildFrame (t : Trig) (cmds : GPUCommands) (fc : FrameCommands) (tex : TextureInfo)
    (renderTextured showingHelp : Bool) (camera : Camera)
    (faces : List (FaceUVs × Projected)) (overlay : List (Nat × Nat))
    (bufferX bufferY : Int) (chain : DMAChain) (g : GTE) : Option RenderState :=
  (renderAndOverlay t cmds tex renderTextured showingHelp camera faces overlay chain g).bind
    (fun st =>
      (trailingPackets fc st.chain bufferX bufferY).map (fun c => { st with chain := c }))

/-- What holds of bucket `b` of a chain all along the building of a frame: the chain
is word-aligned, the cursor is inside the buffer, the links from the head of the
bucket run through exactly the packets `ps` and leave the buffer at `e`, and these
packets lie below the cursor and are no more than the words used. -/
def BucketInv (chain : DMAChain) (b : Nat) (ps : List (Nat × Nat)) (e : Nat) : Prop :=
  chain.addr % 4 = 0 ∧ 0 ≤ chain.nextPacket ∧ chain.nextPacket < (CHAIN_BUFFER_SIZE : Int) ∧
    Linked chain.addr chain.data (tagAddr (chain.orderingTable b)) ps e ∧
    (∀ p ∈ ps, (p.1 : Int) < chain.nextPacket) ∧ (ps.length : Int) ≤ chain.nextPacket

/-- Encodings of the trailing commands used in the worked examples. -/
def exampleFrameCommands : FrameCommands :=
  { gp0_rgb := fun r g b => toU32 r % 256 + 256 * (toU32 g % 256) + 65536 * (toU32 b % 256)
    gp0_vramFill := 0x02000000
    gp0_xy := fun x y => toU32 x % 65536 + 65536 * (toU32 y % 65536)
    gp0_texpage := fun page dither unlock =>
      0xe1000000 + toU32 page % 512 + (if dither then 512 else 0) + (if unlock then 1024 else 0)
    gp0_fbOffset1 := fun x y => 0xe3000000 + toU32 x % 1024 + 1024 * (toU32 y % 1024)
    gp0_fbOffset2 := fun x y => 0xe4000000 + toU32 x % 1024 + 1024 * (toU32 y % 1024)
    gp0_fbOrigin := fun x y => 0xe5000000 + toU32 x % 2048 + 2048 * (toU32 y % 2048) }

/-- A face of the worked examples: front-facing, at depths that the scale of
`setupGTE` maps to bucket 10. -/
def triangleAtTen : FaceUVs × Projected := (⟨0, 0, 0, 0, 0, 0⟩, frontFacing 456 456 456)

/-! ## Runs of allocatePacket and the words their packets take -/

/-- One use of allocatePacket as main.c makes it,
`ptr = allocatePacket(chain, zIndex, numCommands); ptr[0] = ...; ptr[1] = ...;`:
the two arguments of the call and the command words the caller then stores through
the returned pointer. -/
structure PacketRequest where
  zIndex : Int
  numCommands : Int
  words : List Nat
deriving DecidableEq

/-- What a run keeps on record of one packet: the index in `data` of its header word
(the pointer returned, `&ptr[1]`, less one), its word count, the header as the call
left it, and the command words the caller stored. -/
structure PacketRecord where
  header : Int
  numCommands : Int
  tag : Nat
  words : List Nat
deriving DecidableEq

/-- The index one past the last word of a packet: the header and `numCommands`
command words. -/
def PacketRecord.stop (p : PacketRecord) : Int := p.header + (p.numCommands + 1)

/-- The word `data[i]` belongs to the packet. -/
def PacketRecord.covers (p : PacketRecord) (i : Int) : Prop := p.header ≤ i ∧ i < p.stop

/-- A run of uses of allocatePacket on one chain; `none` as soon as one call aborts.
The result is the chain after the run and the record of each packet, in allocation
order. -/
def allocateRun (chain : DMAChain) : List PacketRequest → Option (DMAChain × List PacketRecord)
  | [] => some (chain, [])
  | r :: rest =>
    (allocatePacket chain r.zIndex r.numCommands).bind (fun res =>
      (allocateRun { res.1 with data := storeWords res.1.data res.2 r.words } rest).map
        (fun out =>
          (out.1, ⟨res.2 - 1, r.numCommands, res.1.data (res.2 - 1), r.words⟩ :: out.2)))

/-- The packets lie one after the other from word `a` up to word `e`: each header is
where the packet before it stops. -/
def contiguousFrom : Int → List PacketRecord → Int → Prop
  | a, [], e => a = e
  | a, p :: ps, e => p.header = a ∧ contiguousFrom p.stop ps e

/-- Read `n` words of `data` from index `ptr` on. -/
def readWords (d : Int → Nat) (ptr : Int) : Nat → List Nat
  | 0 => []
  | n + 1 => d ptr :: readWords d (ptr + 1) n

/-- Three packets as a frame makes them: the background fill and the attribute
packet in the farthest bucket, and a packet without command words in bucket 10. -/
def exampleRequests : List PacketRequest :=
  [⟨719, 3, [0x02404040, 0, 0x01000140]⟩, ⟨719, 4, [1, 2, 3, 4]⟩, ⟨10, 0, []⟩]

/-! ## gpu.c on the 32-bit machine

`allocatePacket` above keeps the cursor as a word offset in unbounded integers, as C
defines pointer arithmetic inside the array. On the machine `nextPacket` is a 32-bit
address: advancing it by 2^30 words brings it back to where it was. The definitions
below keep the address modulo 2^32; the two readings agree as long as no address
wraps (`allocatePacket32_eq`). -/

/-- The word offset from `&data[0]` of the 32-bit pointer `&data[0] + k`: the byte
address is kept modulo 2^32, so offsets 2^30 words apart name the same word. The
result is the one offset of that word whose address lies in [0, 2^32); `addr` is
below 2^32. -/
def wrapOffset (addr : Nat) (k : Int) : Int := ((ptrAddr addr k : Int) - (addr : Int)) / 4

/-- The function `allocatePacket` of gpu.c, statement by statement, on the 32-bit
machine: pointers are addresses modulo 2^32 and the last assertion compares two
addresses as unsigned numbers. The cursor of the result is the word offset of the
advanced address; `none` is a failed `assert`. A store through a cursor outside
`data` is kept at its offset and not mirrored into the table behind `data`. -/
def allocatePacket32 (chain : DMAChain) (zIndex numCommands : Int) :
    Option (DMAChain × Int) :=
  -- uint32_t *ptr = chain->nextPacket; chain->nextPacket += numCommands + 1;
  let ptr := wrapOffset chain.addr chain.nextPacket
  let chain1 : DMAChain :=
    { chain with nextPacket := wrapOffset chain.addr (ptr + (numCommands + 1)) }
  -- assert(zIndex >= 0); assert(zIndex < ORDERING_TABLE_SIZE);
  if ¬ (zIndex ≥ 0) then none
  else if ¬ (zIndex < (ORDERING_TABLE_SIZE : Int)) then none
  else
    let z := zIndex.toNat
    -- *ptr = gp0_tag(numCommands, (void *) chain->orderingTable[zIndex]);
    let chain2 : DMAChain :=
      { chain1 with
        data := storeData chain1.data ptr (gp0_tag (toU32 numCommands) (chain1.orderingTable z)) }
    -- chain->orderingTable[zIndex] = gp0_tag(0, ptr);
    let chain3 : DMAChain :=
      { chain2 with
        orderingTable := storeAt chain2.orderingTable z (gp0_tag 0 (ptrAddr chain2.addr ptr)) }
    -- assert(chain->nextPacket < &(chain->data)[CHAIN_BUFFER_SIZE]);
    if ¬ (ptrAddr chain3.addr chain3.nextPacket
        < ptrAddr chain3.addr (CHAIN_BUFFER_SIZE : Int)) then none
    else some (chain3, wrapOffset chain.addr (ptr + 1))

/-- A word count that is non-negative and small enough for the pointer arithmetic
of allocatePacket not to wrap from any cursor inside the buffer: the address of
`data[CHAIN_BUFFER_SIZE + numCommands + 1]` is at most 2^32. -/
def NoWrap (addr : Nat) (numCommands : Int) : Prop :=
  0 ≤ numCommands ∧
    (addr : Int) + 4 * ((CHAIN_BUFFER_SIZE : Int) + (numCommands + 1)) ≤ 2 ^ 32

instance NoWrap.decidable (addr : Nat) (numCommands : Int) :
    Decidable (NoWrap addr numCommands) :=
  inferInstanceAs (Decidable (0 ≤ numCommands ∧
    (addr : Int) + 4 * ((CHAIN_BUFFER_SIZE : Int) + (numCommands + 1)) ≤ 2 ^ 32))

/-- A run of calls of allocatePacket on the 32-bit machine, each call a pair
(zIndex, numCommands); `none` as soon as one call aborts. -/
def allocateAll32 (chain : DMAChain) : List (Int × Int) → Option DMAChain
  | [] => some chain
  | (z, n) :: rest =>
    (allocatePacket32 chain z n).bind (fun res => allocateAll32 res.1 rest)

/-- The run `allocateRun` on the 32-bit machine: each call of allocatePacket followed
by the stores of its caller, with the record of each packet in allocation order. -/
def allocateRun32 (chain : DMAChain) :
    List PacketRequest → Option (DMAChain × List PacketRecord)
  | [] => some (chain, [])
  | r :: rest =>
    (allocatePacket32 chain r.zIndex r.numCommands).bind (fun res =>
      (allocateRun32 { res.1 with data := storeWords res.1.data res.2 r.words } rest).map
        (fun out =>
          (out.1, ⟨res.2 - 1, r.numCommands, res.1.data (res.2 - 1), r.words⟩ :: out.2)))

/-- The calls of a run as (bucket, word count) pairs of natural numbers. -/
def natCalls (calls : List (Int × Int)) : List (Nat × Nat) :=
  calls.map (fun c => (c.1.toNat, c.2.toNat))

/-! # Theorems -/

/-! ## Arithmetic of tags -/

theorem gp0_tag_eq (length next : Nat) :
    gp0_tag length next = (length % 256) * 2 ^ 24 + next % 2 ^ 24 := by
  have h1 : next &&& 0xffffff = next % 2 ^ 24 := Nat.and_pow_two_sub_one_eq_mod next 24
  have h2 : length &&& 0xff = length % 2 ^ 8 := Nat.and_pow_two_sub_one_eq_mod length 8
  have h3 : next % 2 ^ 24 < 2 ^ 24 := Nat.mod_lt _ (by norm_num)
  unfold gp0_tag
  rw [h1, h2, Nat.shiftLeft_eq, Nat.shiftLeft_eq, pow_zero, Nat.mul_one, Nat.lor_comm,
    Nat.mul_comm (length % 2 ^ 8), ← Nat.mul_add_lt_is_or h3]
  norm_num
  ring

theorem tagLength_gp0_tag (length next : Nat) :
    tagLength (gp0_tag length next) = length % 256 := by
  rw [gp0_tag_eq, tagLength, Nat.shiftRight_eq_div_pow]
  have h3 : next % 2 ^ 24 < 2 ^ 24 := Nat.mod_lt _ (by norm_num)
  omega

theorem tagAddr_gp0_tag (length next : Nat) :
    tagAddr (gp0_tag length next) = next % 2 ^ 24 := by
  have h : ∀ x : Nat, x &&& 0xffffff = x % 2 ^ 24 := fun x =>
    Nat.and_pow_two_sub_one_eq_mod x 24
  rw [gp0_tag_eq, tagAddr, h]
  omega

theorem gp0_tag_lt (length next : Nat) : gp0_tag length next < 2 ^ 32 := by
  rw [gp0_tag_eq]
  omega

theorem allocatePacket_some_iff (chain : DMAChain) (z n : Int) :
    (allocatePacket chain z n).isSome = true ↔
      0 ≤ z ∧ z < (ORDERING_TABLE_SIZE : Int) ∧
        chain.nextPacket + (n + 1) < (CHAIN_BUFFER_SIZE : Int) := by
  unfold allocatePacket
  by_cases h0 : z ≥ 0 <;> by_cases h1 : z < (ORDERING_TABLE_SIZE : Int) <;>
    by_cases h2 : chain.nextPacket + (n + 1) < (CHAIN_BUFFER_SIZE : Int) <;>
    simp [h0, h1, h2]

theorem allocatePacket_eq_some (chain : DMAChain) (z n : Int) (res : DMAChain × Int)
    (h : allocatePacket chain z n = some res) :
    0 ≤ z ∧ z < (ORDERING_TABLE_SIZE : Int) ∧
      chain.nextPacket + (n + 1) < (CHAIN_BUFFER_SIZE : Int) ∧
      res.1.addr = chain.addr ∧
      res.1.nextPacket = chain.nextPacket + (n + 1) ∧
      res.1.data = storeData chain.data chain.nextPacket
        (gp0_tag (toU32 n) (chain.orderingTable z.toNat)) ∧
      res.1.orderingTable = storeAt chain.orderingTable z.toNat
        (gp0_tag 0 (ptrAddr chain.addr chain.nextPacket)) ∧
      res.2 = chain.nextPacket + 1 := by
  have hs := (allocatePacket_some_iff chain z n).1 (by rw [h]; rfl)
  obtain ⟨h0, h1, h2⟩ := hs
  unfold allocatePacket at h
  simp only [ge_iff_le, h0, not_true_eq_false, h1, h2, if_false] at h
  injection h with h
  subst h
  exact ⟨h0, h1, h2, rfl, rfl, rfl, rfl, rfl⟩

theorem tagAddr_eq_mod (t : Nat) : tagAddr t = t % 2 ^ 24 :=
  Nat.and_pow_two_sub_one_eq_mod t 24

theorem otcTransfer_run (tablePtr : Nat) (i : Nat) (t : Nat → Nat) (j : Nat) :
    otcTransfer tablePtr i (i + 1) t j =
      if j ≤ i then
        (if j = 0 then END_ADDR
         else gp0_tag 0 (toU32 ((tablePtr : Int) + 4 * (j : Int) - 4)))
      else t j := by
  induction i generalizing t with
  | zero =>
    simp only [otcTransfer, storeAt]
    by_cases hj : j = 0 <;> simp [hj]
  | succ k ih =>
    rw [otcTransfer, Nat.add_sub_cancel, ih]
    by_cases h1 : j ≤ k
    · have h2 : j ≤ k + 1 := by omega
      simp [h1, h2]
    · by_cases h3 : j = k + 1
      · subst h3
        simp [storeAt]
      · have h2 : ¬ j ≤ k + 1 := by omega
        simp [h1, h2, storeAt, h3]

theorem clearOrderingTable_get (tablePtr n : Nat) (t : Nat → Nat) (hn : 1 ≤ n) (j : Nat) :
    clearOrderingTable tablePtr t n j =
      if j < n then
        (if j = 0 then END_ADDR
         else gp0_tag 0 (toU32 ((tablePtr : Int) + 4 * (j : Int) - 4)))
      else t j := by
  obtain ⟨m, rfl⟩ : ∃ m, n = m + 1 := ⟨n - 1, by omega⟩
  rw [clearOrderingTable, Nat.add_sub_cancel, otcTransfer_run]
  by_cases h : j ≤ m
  · have h' : j < m + 1 := by omega
    simp [h, h']
  · have h' : ¬ j < m + 1 := by omega
    simp [h, h']

theorem clearOrderingTable_tagAddr (tablePtr n : Nat) (t : Nat → Nat) (i : Nat)
    (h1 : 1 ≤ i) (h2 : i < n) :
    tagAddr (clearOrderingTable tablePtr t n i) = (tablePtr + 4 * (i - 1)) % 2 ^ 24 := by
  rw [clearOrderingTable_get tablePtr n t (by omega)]
  have hi : i ≠ 0 := by omega
  simp only [h2, hi, if_true, if_false]
  rw [tagAddr_gp0_tag]
  unfold toU32
  omega

theorem clearOrderingTable_tagLength (tablePtr n : Nat) (t : Nat → Nat) (i : Nat)
    (h2 : i < n) : tagLength (clearOrderingTable tablePtr t n i) = 0 := by
  rw [clearOrderingTable_get tablePtr n t (by omega)]
  by_cases hi : i = 0
  · subst hi
    simp only [h2, if_true]
    decide
  · simp only [h2, hi, if_true, if_false]
    rw [tagLength_gp0_tag]

theorem wordIndexAt_entry (base count j : Nat) (hj : j < count) (hsize : 4 * count ≤ 2 ^ 24) :
    wordIndexAt base count ((base + 4 * j) % 2 ^ 24) = some j := by
  unfold wordIndexAt
  have hoff : ((base + 4 * j) % 2 ^ 24 + 2 ^ 24 - base % 2 ^ 24) % 2 ^ 24 = 4 * j := by omega
  simp only [hoff]
  have h1 : 4 * j % 4 = 0 := by omega
  have h2 : 4 * j / 4 = j := by omega
  simp [h1, h2, hj]

theorem dmaWalk_cleared (tablePtr n : Nat) (t : Nat → Nat) (halign : tablePtr % 4 = 0)
    (hsize : 4 * n ≤ 2 ^ 24) (j : Nat) (hj : j < n) (fuel : Nat) (hfuel : j < fuel) :
    dmaWalk (readTable tablePtr n (clearOrderingTable tablePtr t n)) fuel
        ((tablePtr + 4 * j) % 2 ^ 24)
      = some ((List.range (j + 1)).reverse.map (fun i => (i, 0))) := by
  induction j generalizing fuel with
  | zero =>
    obtain ⟨f, rfl⟩ : ∃ f, fuel = f + 1 := ⟨fuel - 1, by omega⟩
    have hr : readTable tablePtr n (clearOrderingTable tablePtr t n)
        ((tablePtr + 4 * 0) % 2 ^ 24) = some (0, END_ADDR) := by
      rw [readTable, wordIndexAt_entry tablePtr n 0 hj hsize]
      simp [clearOrderingTable_get tablePtr n t (by omega), hj]
    rw [dmaWalk, hr]
    simp [tagAddr, tagLength, END_ADDR, List.range_succ]
  | succ k ih =>
    obtain ⟨f, rfl⟩ : ∃ f, fuel = f + 1 := ⟨fuel - 1, by omega⟩
    have hr : readTable tablePtr n (clearOrderingTable tablePtr t n)
        ((tablePtr + 4 * (k + 1)) % 2 ^ 24)
          = some (k + 1, clearOrderingTable tablePtr t n (k + 1)) := by
      rw [readTable, wordIndexAt_entry tablePtr n (k + 1) hj hsize]
      rfl
    have ha := clearOrderingTable_tagAddr tablePtr n t (k + 1) (by omega) hj
    have hl := clearOrderingTable_tagLength tablePtr n t (k + 1) hj
    rw [Nat.add_sub_cancel] at ha
    have hne : (tablePtr + 4 * k) % 2 ^ 24 ≠ END_ADDR := by
      unfold END_ADDR
      omega
    rw [dmaWalk, hr]
    simp only [ha, hl, hne, if_false]
    rw [ih (by omega) f (by omega)]
    simp [List.range_succ]

/-- C4. After clearOrderingTable(table, n) with n >= 1 and no allocation, every entry is
a tag with word count 0, entry i for i >= 1 links to entry i - 1, and entry 0 is the
end-of-list terminator; and the linked-list traversal started at entry n - 1 of an
aligned table visits the n buckets n - 1, ..., 1, 0 in this order, finds a word count
of 0 in each of them, and ends at bucket 0. -/
theorem clearOrderingTable_empty_chain (tablePtr n : Nat) (t : Nat → Nat)
    (hn : 1 ≤ n) (halign : tablePtr % 4 = 0) (hsize : 4 * n ≤ 2 ^ 24) :
    (∀ i, i < n → tagLength (clearOrderingTable tablePtr t n i) = 0) ∧
    (∀ i, 1 ≤ i → i < n →
      tagAddr (clearOrderingTable tablePtr t n i) = (tablePtr + 4 * (i - 1)) % 2 ^ 24) ∧
    tagAddr (clearOrderingTable tablePtr t n 0) = END_ADDR ∧
    dmaWalk (readTable tablePtr n (clearOrderingTable tablePtr t n)) n
        ((tablePtr + 4 * (n - 1)) % 2 ^ 24)
      = some ((List.range n).reverse.map (fun i => (i, 0))) := by
  refine ⟨fun i hi => clearOrderingTable_tagLength tablePtr n t i hi,
    fun i h1 h2 => clearOrderingTable_tagAddr tablePtr n t i h1 h2, ?_, ?_⟩
  · rw [clearOrderingTable_get tablePtr n t hn]
    have h0 : 0 < n := by omega
    simp only [h0, if_true]
    decide
  · have h := dmaWalk_cleared tablePtr n t halign hsize (n - 1) (by omega) n (by omega)
    have e : n - 1 + 1 = n := by omega
    rw [e] at h
    exact h

/-- Worked instance of C4: a table of 3 entries at address 0x80100000. -/
theorem clearOrderingTable_empty_chain_witness :
    dmaWalk (readTable 0x80100000 3 (clearOrderingTable 0x80100000 (fun _ => 0) 3)) 3 0x100008
      = some [(2, 0), (1, 0), (0, 0)] :=
  (clearOrderingTable_empty_chain 0x80100000 3 (fun _ => 0) (by decide) (by decide)
    (by decide)).2.2.2

/-! ## Buckets are LIFO chains -/

theorem ptrAddr_mod (addr k : Nat) : ptrAddr addr (k : Int) % 2 ^ 24 = (addr + 4 * k) % 2 ^ 24 := by
  unfold ptrAddr toU32
  omega

theorem Linked_storeData (addr : Nat) (d : Int → Nat) (K : Int) (v : Nat) (e : Nat)
    (ps : List (Nat × Nat)) (a : Nat) (h : Linked addr d a ps e)
    (hK : ∀ p ∈ ps, (p.1 : Int) < K) : Linked addr (storeData d K v) a ps e := by
  induction ps generalizing a with
  | nil => exact h
  | cons p ps ih =>
    obtain ⟨h1, h2, h3, h4⟩ := h
    have hp : (p.1 : Int) ≠ K := ne_of_lt (hK p (List.mem_cons_self _ _))
    have hd : storeData d K v (p.1 : Int) = d (p.1 : Int) := by simp [storeData, hp]
    refine ⟨h1, h2, ?_, ?_⟩
    · rw [hd]; exact h3
    · rw [hd]
      exact ih _ h4 (fun q hq => hK q (List.mem_cons_of_mem _ hq))

theorem followLinks_of_Linked (chain : DMAChain) (e : Nat) (ps : List (Nat × Nat)) (a : Nat)
    (h : Linked chain.addr chain.data a ps e) (fuel : Nat) (hfuel : ps.length < fuel) :
    followLinks chain fuel a = (ps, e) := by
  induction ps generalizing a fuel with
  | nil =>
    obtain ⟨f, rfl⟩ : ∃ f, fuel = f + 1 := ⟨fuel - 1, by simp at hfuel; omega⟩
    obtain ⟨h1, h2⟩ := h
    subst h1
    rw [followLinks]
    rcases h2 with h2 | h2
    · simp [h2]
    · simp [h2]
  | cons p ps ih =>
    obtain ⟨f, rfl⟩ : ∃ f, fuel = f + 1 := ⟨fuel - 1, by simp at hfuel; omega⟩
    obtain ⟨h1, h2, h3, h4⟩ := h
    have hf : ps.length < f := by simp at hfuel; omega
    rw [followLinks]
    simp only [h1, if_false, h2]
    rw [ih _ h4 f hf, h3]

/-- What holds of bucket `b` all along a run of allocations: the cursor is inside
the buffer, the chain of the bucket runs through the packets `ps` and leaves the
buffer at `e`, and these packets lie below the cursor. -/
theorem allocatePacket_keeps_chain (chain : DMAChain) (z n : Nat) (res : DMAChain × Int)
    (b e : Nat) (ps : List (Nat × Nat)) (halign : chain.addr % 4 = 0)
    (h : allocatePacket chain (z : Int) (n : Int) = some res)
    (h0 : 0 ≤ chain.nextPacket)
    (hl : Linked chain.addr chain.data (tagAddr (chain.orderingTable b)) ps e)
    (hb : ∀ p ∈ ps, (p.1 : Int) < chain.nextPacket) :
    0 ≤ res.1.nextPacket ∧
    res.1.nextPacket.toNat = chain.nextPacket.toNat + (n + 1) ∧
    res.1.addr = chain.addr ∧
    Linked res.1.addr res.1.data (tagAddr (res.1.orderingTable b))
      ((if z = b then [(chain.nextPacket.toNat, n % 256)] else []) ++ ps) e ∧
    (∀ p ∈ (if z = b then [(chain.nextPacket.toNat, n % 256)] else []) ++ ps,
      (p.1 : Int) < res.1.nextPacket) := by
  obtain ⟨_, _, hcap, ha, hn, hd, ht, _⟩ := allocatePacket_eq_some chain z n res h
  have hzz : ((z : Int)).toNat = z := Int.toNat_ofNat z
  rw [hzz] at hd ht
  obtain ⟨K, hK⟩ : ∃ K : Nat, chain.nextPacket = (K : Int) := ⟨chain.nextPacket.toNat, by omega⟩
  have hKlt : K < CHAIN_BUFFER_SIZE := by
    have : (K : Int) + ((n : Int) + 1) < (CHAIN_BUFFER_SIZE : Int) := by rw [← hK]; exact hcap
    omega
  have hstore := Linked_storeData chain.addr chain.data chain.nextPacket
    (gp0_tag (toU32 n) (chain.orderingTable z)) e ps _ hl hb
  refine ⟨by omega, by omega, ha, ?_, ?_⟩
  · rw [ha, hd, ht]
    by_cases hzb : z = b
    · subst hzb
      simp only [if_true, List.singleton_append, storeAt]
      rw [tagAddr_gp0_tag, hK, ptrAddr_mod]
      refine ⟨?_, ?_, ?_, ?_⟩
      · unfold END_ADDR
        omega
      · exact wordIndexAt_entry chain.addr CHAIN_BUFFER_SIZE K hKlt (by decide)
      · simp only [Int.toNat_ofNat, storeData, if_true]
        rw [tagLength_gp0_tag]
        unfold toU32
        omega
      · simp only [Int.toNat_ofNat]
        have hv : storeData chain.data (K : Int) (gp0_tag (toU32 n) (chain.orderingTable z))
            (K : Int) = gp0_tag (toU32 n) (chain.orderingTable z) := by simp [storeData]
        rw [hv, tagAddr_gp0_tag, ← tagAddr_eq_mod, ← hK]
        exact hstore
    · have hbz : ¬ b = z := fun hh => hzb hh.symm
      simp only [hzb, if_false, List.nil_append, storeAt, hbz]
      exact hstore
  · intro p hp
    rw [hn]
    by_cases hzb : z = b
    · simp only [hzb, if_true, List.singleton_append, List.mem_cons] at hp
      rcases hp with hp | hp
      · subst hp
        simp only
        omega
      · have := hb p hp
        omega
    · simp only [hzb, if_false, List.nil_append] at hp
      have := hb p hp
      omega

theorem allocateAll_nil (chain : DMAChain) : allocateAll chain [] = some chain := rfl

theorem allocateAll_cons (chain : DMAChain) (z n : Nat) (rest : List (Nat × Nat)) :
    allocateAll chain ((z, n) :: rest) =
      (allocatePacket chain (z : Int) (n : Int)).bind (fun res => allocateAll res.1 rest) := rfl

theorem allocateAll_keeps_chain (calls : List (Nat × Nat)) (chain chain' : DMAChain)
    (b e : Nat) (ps : List (Nat × Nat)) (halign : chain.addr % 4 = 0)
    (h : allocateAll chain calls = some chain')
    (h0 : 0 ≤ chain.nextPacket)
    (hl : Linked chain.addr chain.data (tagAddr (chain.orderingTable b)) ps e)
    (hb : ∀ p ∈ ps, (p.1 : Int) < chain.nextPacket) :
    chain'.addr = chain.addr ∧ 0 ≤ chain'.nextPacket ∧
    Linked chain'.addr chain'.data (tagAddr (chain'.orderingTable b))
      ((packetsOf b chain.nextPacket.toNat calls).reverse ++ ps) e ∧
    (∀ p ∈ (packetsOf b chain.nextPacket.toNat calls).reverse ++ ps,
      (p.1 : Int) < chain'.nextPacket) := by
  induction calls generalizing chain ps with
  | nil =>
    rw [allocateAll_nil] at h
    injection h with h
    subst h
    rw [packetsOf, List.reverse_nil, List.nil_append]
    exact ⟨rfl, h0, hl, hb⟩
  | cons call rest ih =>
    obtain ⟨z, n⟩ := call
    rw [allocateAll_cons] at h
    cases hres : allocatePacket chain (z : Int) (n : Int) with
    | none => rw [hres] at h; simp at h
    | some res =>
      rw [hres, Option.some_bind] at h
      obtain ⟨k0, kn, ka, kl, kb⟩ :=
        allocatePacket_keeps_chain chain z n res b e ps halign hres h0 hl hb
      obtain ⟨ia, i0, il, ib⟩ := ih res.1 _ (by rw [ka]; exact halign) h k0 kl kb
      have hlist : (packetsOf b chain.nextPacket.toNat ((z, n) :: rest)).reverse ++ ps
          = (packetsOf b res.1.nextPacket.toNat rest).reverse
            ++ ((if z = b then [(chain.nextPacket.toNat, n % 256)] else []) ++ ps) := by
        rw [packetsOf, kn]
        by_cases hzb : z = b <;> simp [hzb]
      rw [hlist]
      exact ⟨by rw [ia, ka], i0, il, ib⟩

theorem resetChain_orderingTable (chain : DMAChain) :
    (resetChain chain).orderingTable
      = clearOrderingTable (tableAddr chain.addr) chain.orderingTable ORDERING_TABLE_SIZE := by
  simp only [resetChain]

theorem resetChain_addr (chain : DMAChain) : (resetChain chain).addr = chain.addr := by
  simp only [resetChain]

theorem resetChain_nextPacket (chain : DMAChain) : (resetChain chain).nextPacket = 0 := by
  simp only [resetChain]

theorem Linked_nil (addr : Nat) (d : Int → Nat) (e : Nat)
    (h : e = END_ADDR ∨ wordIndexAt addr CHAIN_BUFFER_SIZE e = none) : Linked addr d e [] e :=
  ⟨rfl, h⟩

theorem wordIndexAt_beyond (base count j : Nat) (hj : count ≤ j) (hsize : 4 * j < 2 ^ 24) :
    wordIndexAt base count ((base + 4 * j) % 2 ^ 24) = none := by
  unfold wordIndexAt
  have hoff : ((base + 4 * j) % 2 ^ 24 + 2 ^ 24 - base % 2 ^ 24) % 2 ^ 24 = 4 * j := by omega
  simp only [hoff]
  rw [if_neg]
  intro hh
  omega

theorem resetChain_link_leaves (chain : DMAChain) (b : Nat) (hb : b < ORDERING_TABLE_SIZE) :
    tagAddr ((resetChain chain).orderingTable b) = END_ADDR ∨
      wordIndexAt chain.addr CHAIN_BUFFER_SIZE (tagAddr ((resetChain chain).orderingTable b))
        = none := by
  rw [resetChain_orderingTable]
  have hpos : 1 ≤ ORDERING_TABLE_SIZE := by omega
  by_cases h0 : b = 0
  · left
    subst h0
    rw [clearOrderingTable_get _ _ _ hpos]
    simp only [hb, if_true]
    rfl
  · right
    rw [clearOrderingTable_tagAddr _ _ _ b (by omega) hb]
    have hsz : ORDERING_TABLE_SIZE = 720 := rfl
    have hcs : CHAIN_BUFFER_SIZE = 32768 := rfl
    have he : tableAddr chain.addr + 4 * (b - 1)
        = chain.addr + 4 * (CHAIN_BUFFER_SIZE + (b - 1)) := by
      unfold tableAddr
      omega
    rw [he]
    exact wordIndexAt_beyond chain.addr CHAIN_BUFFER_SIZE _ (by omega) (by omega)

theorem packetsOf_length (b : Nat) (calls : List (Nat × Nat)) (k : Nat) :
    (packetsOf b k calls).length ≤ calls.length := by
  induction calls generalizing k with
  | nil => simp [packetsOf]
  | cons call rest ih =>
    obtain ⟨z, n⟩ := call
    rw [packetsOf, List.length_append, List.length_cons]
    have := ih (k + (n + 1))
    by_cases hzb : z = b
    · simp only [hzb, if_true, List.length_singleton]
      omega
    · simp only [hzb, if_false, List.length_nil]
      omega

theorem allocateAll_cursor (calls : List (Nat × Nat)) (chain chain' : DMAChain)
    (h : allocateAll chain calls = some chain')
    (hc : chain.nextPacket < (CHAIN_BUFFER_SIZE : Int)) :
    chain.nextPacket + (calls.length : Int) ≤ chain'.nextPacket ∧
      chain'.nextPacket < (CHAIN_BUFFER_SIZE : Int) := by
  induction calls generalizing chain with
  | nil =>
    rw [allocateAll_nil] at h
    injection h with h
    subst h
    simpa using hc
  | cons call rest ih =>
    obtain ⟨z, n⟩ := call
    rw [allocateAll_cons] at h
    cases hres : allocatePacket chain (z : Int) (n : Int) with
    | none => rw [hres] at h; simp at h
    | some res =>
      rw [hres, Option.some_bind] at h
      obtain ⟨_, _, hcap, _, hn, _, _, _⟩ := allocatePacket_eq_some chain z n res hres
      obtain ⟨i1, i2⟩ := ih res.1 h (by rw [hn]; exact hcap)
      rw [List.length_cons]
      push_cast
      constructor
      · omega
      · exact i2

theorem followLinks_after_reset (chain chain' : DMAChain) (calls : List (Nat × Nat)) (b : Nat)
    (halign : chain.addr % 4 = 0) (hb : b < ORDERING_TABLE_SIZE)
    (h : allocateAll (resetChain chain) calls = some chain') :
    followLinks chain' CHAIN_BUFFER_SIZE (tagAddr (chain'.orderingTable b))
      = ((packetsOf b 0 calls).reverse, tagAddr ((resetChain chain).orderingTable b)) := by
  have hleave := resetChain_link_leaves chain b hb
  rw [← resetChain_addr chain] at hleave halign
  have hl := Linked_nil (resetChain chain).addr (resetChain chain).data _ hleave
  have hcur := resetChain_nextPacket chain
  obtain ⟨_, h0, hlink, hbelow⟩ := allocateAll_keeps_chain calls (resetChain chain) chain' b _ []
    halign h (by rw [hcur]) hl (by simp)
  rw [hcur, Int.toNat_zero, List.append_nil] at hlink hbelow
  apply followLinks_of_Linked chain' _ _ _ hlink
  have hlen := packetsOf_length b calls 0
  have hcap : (resetChain chain).nextPacket < (CHAIN_BUFFER_SIZE : Int) := by
    rw [hcur]; decide
  obtain ⟨c1, c2⟩ := allocateAll_cursor calls (resetChain chain) chain' h hcap
  rw [hcur] at c1
  rw [List.length_reverse]
  omega

theorem wordIndexAt_some (base count a k : Nat) (ha : a < 2 ^ 24)
    (h : wordIndexAt base count a = some k) : a = (base + 4 * k) % 2 ^ 24 := by
  unfold wordIndexAt at h
  simp only at h
  split at h
  · rename_i hc
    injection h with h
    omega
  · exact absurd h (by simp)

theorem tagAddr_lt (t : Nat) : tagAddr t < 2 ^ 24 := by
  rw [tagAddr_eq_mod]
  omega

theorem Linked_head (addr : Nat) (d : Int → Nat) (t : Nat) (p : Nat × Nat)
    (ps : List (Nat × Nat)) (e : Nat) (h : Linked addr d (tagAddr t) (p :: ps) e) :
    tagAddr t = (addr + 4 * p.1) % 2 ^ 24 ∧ Linked addr d (tagAddr (d (p.1 : Int))) ps e :=
  ⟨wordIndexAt_some addr CHAIN_BUFFER_SIZE _ _ (tagAddr_lt t) h.2.1, h.2.2.2⟩

theorem linked_after_reset (chain chain' : DMAChain) (calls : List (Nat × Nat)) (b : Nat)
    (halign : chain.addr % 4 = 0) (hb : b < ORDERING_TABLE_SIZE)
    (h : allocateAll (resetChain chain) calls = some chain') :
    Linked chain.addr chain'.data (tagAddr (chain'.orderingTable b))
      (packetsOf b 0 calls).reverse (tagAddr ((resetChain chain).orderingTable b)) := by
  have hleave := resetChain_link_leaves chain b hb
  rw [← resetChain_addr chain] at hleave halign
  have hl := Linked_nil (resetChain chain).addr (resetChain chain).data _ hleave
  have hcur := resetChain_nextPacket chain
  obtain ⟨ha, _, hlink, _⟩ := allocateAll_keeps_chain calls (resetChain chain) chain' b _ []
    halign h (by rw [hcur]) hl (by simp)
  rw [hcur, Int.toNat_zero, List.append_nil, ha, resetChain_addr] at hlink
  exact hlink

/-! ## Frame parity -/

theorem framesFrom_usingSecondFrame (k : Nat) :
    (framesFrom initialFrameState k).usingSecondFrame = decide (k % 2 = 1) := by
  induction k with
  | zero => rfl
  | succ n ih =>
    rw [framesFrom]
    simp only [frameStep, ih]
    rcases Nat.mod_two_eq_zero_or_one n with h | h
    · have h' : (n + 1) % 2 = 1 := by omega
      simp [h, h']
    · have h' : (n + 1) % 2 = 0 := by omega
      simp [h, h']

theorem frameEvents_chain (k : Nat) :
    (frameEvents k).filterMap FrameEvent.chain? = [k % 2, k % 2, k % 2] ∧
      submittedChain k = [k % 2] := by
  unfold submittedChain frameEvents
  simp only [frameStep, framesFrom_usingSecondFrame]
  rcases Nat.mod_two_eq_zero_or_one k with h | h <;>
    simp [h, FrameEvent.chain?]

/-- C5. For every frame number k of the main loop, every use of a chain in frame k
(reset, build, submit) is a use of dmaChains[k mod 2], and the chain used in frame
k + 1 is not the chain submitted in frame k. -/
theorem frame_uses_chain_of_parity (k : Nat) :
    (frameEvents k).filterMap FrameEvent.chain? = [k % 2, k % 2, k % 2] ∧
    submittedChain k = [k % 2] ∧
    (∀ c ∈ (frameEvents (k + 1)).filterMap FrameEvent.chain?, c ∉ submittedChain k) := by
  refine ⟨(frameEvents_chain k).1, (frameEvents_chain k).2, ?_⟩
  intro c hc
  rw [(frameEvents_chain (k + 1)).1] at hc
  rw [(frameEvents_chain k).2]
  simp only [List.mem_cons, List.mem_singleton, List.not_mem_nil, or_false, or_self] at hc ⊢
  omega

/-! ## Rotation -/

theorem sar12_eq (x : Int) : sar12 x = x / 4096 := by
  unfold sar12
  rw [← Int.shiftRight_eq, Int.shiftRight_eq_div_pow]
  norm_num

theorem int16_of_fits (x : Int) (h1 : -32768 ≤ x) (h2 : x ≤ 32767) : int16 x = x := by
  unfold int16
  omega

theorem sat16_of_fits (x : Int) (h1 : -32768 ≤ x) (h2 : x ≤ 32767) : sat16 x = x := by
  unfold sat16
  split
  · omega
  · split
    · omega
    · rfl

theorem sat16_fits (x : Int) : -32768 ≤ sat16 x ∧ sat16 x ≤ 32767 := by
  unfold sat16
  split
  · omega
  · split <;> omega

theorem int16_sat16 (x : Int) : int16 (sat16 x) = sat16 x :=
  int16_of_fits _ (sat16_fits x).1 (sat16_fits x).2

/-- One multiply-and-load step of gte.c is the fixed-point matrix product of the
current matrix with the matrix whose columns were loaded. -/
theorem multiply_and_load (g : GTE) (v11 v12 v13 v21 v22 v23 v31 v32 v33 : Int) :
    (gte_loadRotationMatrix
        (multiplyCurrentMatrixByVectors
          (gte_setColumnVectors g v11 v12 v13 v21 v22 v23 v31 v32 v33)).1
        (multiplyCurrentMatrixByVectors
          (gte_setColumnVectors g v11 v12 v13 v21 v22 v23 v31 v32 v33)).2).rt
      = fixMul g.rt ⟨int16 v11, int16 v12, int16 v13, int16 v21, int16 v22, int16 v23,
                     int16 v31, int16 v32, int16 v33⟩ := by
  simp only [gte_loadRotationMatrix, multiplyCurrentMatrixByVectors, gte_setColumnVectors,
    mvmvaRT, fixMul, int16_sat16]

/-- The multiply-and-load step of an axis, skipped when the angle is zero. -/
theorem rotateCurrentMatrix_rt (t : Trig) (g : GTE) (roll yaw pitch : Int) (ht : t.Bounded) :
    (rotateCurrentMatrix t g roll yaw pitch).rt =
      (fun m => if roll ≠ 0 then fixMul m (rotationZ (t.isin roll) (t.icos roll)) else m)
        ((fun m => if yaw ≠ 0 then fixMul m (rotationY (t.isin yaw) (t.icos yaw)) else m)
          ((fun m => if pitch ≠ 0 then fixMul m (rotationX (t.isin pitch) (t.icos pitch))
            else m) g.rt)) := by
  have hb : ∀ a, int16 (t.isin a) = t.isin a ∧ int16 (-t.isin a) = -t.isin a ∧
      int16 (t.icos a) = t.icos a := by
    intro a
    obtain ⟨h1, h2, h3, h4⟩ := ht a
    unfold ONE at h1 h2 h3 h4
    exact ⟨int16_of_fits _ (by omega) (by omega), int16_of_fits _ (by omega) (by omega),
      int16_of_fits _ (by omega) (by omega)⟩
  have h0 : int16 0 = 0 := by decide
  have h1 : int16 ONE = ONE := by decide
  unfold rotateCurrentMatrix
  simp only [multiply_and_load, (hb _).1, (hb _).2.1, (hb _).2.2, h0, h1, rotationX, rotationY,
    rotationZ]
  by_cases hp : pitch = 0 <;> by_cases hy : yaw = 0 <;> by_cases hr : roll = 0 <;>
    simp [hp, hy, hr, multiply_and_load, (hb _).1, (hb _).2.1, (hb _).2.2, h0, h1]

theorem fixMul_identity (m : GTEMatrix)
    (h : (-32768 ≤ m.m00 ∧ m.m00 ≤ 32767) ∧ (-32768 ≤ m.m01 ∧ m.m01 ≤ 32767) ∧
      (-32768 ≤ m.m02 ∧ m.m02 ≤ 32767) ∧ (-32768 ≤ m.m10 ∧ m.m10 ≤ 32767) ∧
      (-32768 ≤ m.m11 ∧ m.m11 ≤ 32767) ∧ (-32768 ≤ m.m12 ∧ m.m12 ≤ 32767) ∧
      (-32768 ≤ m.m20 ∧ m.m20 ≤ 32767) ∧ (-32768 ≤ m.m21 ∧ m.m21 ≤ 32767) ∧
      (-32768 ≤ m.m22 ∧ m.m22 ≤ 32767)) :
    fixMul identityMatrix m = m := by
  obtain ⟨h00, h01, h02, h10, h11, h12, h20, h21, h22⟩ := h
  have key : ∀ x : Int, -32768 ≤ x → x ≤ 32767 → sat16 (sar12 (4096 * x)) = x := by
    intro x hx1 hx2
    have : sar12 (4096 * x) = x := by
      rw [sar12_eq]
      omega
    rw [this]
    exact sat16_of_fits x hx1 hx2
  cases m
  simp only [fixMul, identityMatrix, ONE, zero_mul, add_zero, zero_add] at *
  simp only [key _ h00.1 h00.2, key _ h01.1 h01.2, key _ h02.1 h02.2, key _ h10.1 h10.2,
    key _ h11.1 h11.2, key _ h12.1 h12.2, key _ h20.1 h20.2, key _ h21.1 h21.2,
    key _ h22.1 h22.2]

theorem setRotationMatrix_identity (g : GTE) :
    (gte_setRotationMatrix g ONE 0 0 0 ONE 0 0 0 ONE).rt = identityMatrix := by
  simp only [gte_setRotationMatrix, identityMatrix]
  decide

theorem quarterTurnTrig_bounded : quarterTurnTrig.Bounded := by
  intro a
  simp only [quarterTurnTrig, ONE]
  refine ⟨?_, ?_, ?_, ?_⟩ <;> split <;> (try split) <;> omega

/-- C6. For every camera orientation in which exactly one of pitch, yaw, roll is
non-zero, the rotation matrix held by the coprocessor after
gte_setRotationMatrix(identity) and rotateCurrentMatrix(-roll, yaw, pitch) is, entry
for entry, the elementary rotation matrix of that axis built from isin and icos of the
angle passed for it (sine and cosine lying within [-ONE, ONE]). -/
theorem cameraRotation_single_axis (t : Trig) (g : GTE) (camera : Camera) (ht : t.Bounded) :
    (camera.pitch ≠ 0 → camera.yaw = 0 → camera.roll = 0 →
      (cameraRotation t g camera).rt
        = rotationX (t.isin camera.pitch) (t.icos camera.pitch)) ∧
    (camera.yaw ≠ 0 → camera.pitch = 0 → camera.roll = 0 →
      (cameraRotation t g camera).rt
        = rotationY (t.isin camera.yaw) (t.icos camera.yaw)) ∧
    (camera.roll ≠ 0 → camera.pitch = 0 → camera.yaw = 0 →
      (cameraRotation t g camera).rt
        = rotationZ (t.isin (-camera.roll)) (t.icos (-camera.roll))) := by
  have hfit : ∀ a, (-32768 ≤ t.isin a ∧ t.isin a ≤ 32767) ∧
      (-32768 ≤ -t.isin a ∧ -t.isin a ≤ 32767) ∧ (-32768 ≤ t.icos a ∧ t.icos a ≤ 32767) := by
    intro a
    obtain ⟨h1, h2, h3, h4⟩ := ht a
    unfold ONE at h1 h2 h3 h4
    omega
  have hz : (-32768 : Int) ≤ 0 ∧ (0 : Int) ≤ 32767 := by omega
  have ho : (-32768 : Int) ≤ ONE ∧ ONE ≤ 32767 := by unfold ONE; omega
  unfold cameraRotation
  simp only [rotateCurrentMatrix_rt _ _ _ _ _ ht, setRotationMatrix_identity]
  refine ⟨?_, ?_, ?_⟩
  · intro hp hy hr
    have hr' : -camera.roll = 0 := by omega
    simp only [hp, hy, hr', ne_eq, not_true_eq_false, not_false_eq_true, if_true, if_false]
    exact fixMul_identity _
      ⟨ho, hz, hz, hz, (hfit _).2.2, (hfit _).2.1, hz, (hfit _).1, (hfit _).2.2⟩
  · intro hy hp hr
    have hr' : -camera.roll = 0 := by omega
    simp only [hp, hy, hr', ne_eq, not_true_eq_false, not_false_eq_true, if_true, if_false]
    exact fixMul_identity _
      ⟨(hfit _).2.2, hz, (hfit _).1, hz, ho, hz, (hfit _).2.1, hz, (hfit _).2.2⟩
  · intro hr hp hy
    have hr' : -camera.roll ≠ 0 := by omega
    simp only [hp, hy, hr', ne_eq, not_true_eq_false, not_false_eq_true, if_true, if_false]
    exact fixMul_identity _
      ⟨(hfit _).2.2, (hfit _).2.1, hz, (hfit _).1, (hfit _).2.2, hz, hz, hz, ho⟩

/-- Worked instance of C6: a camera pitched up by a quarter turn, with sine 4096 and
cosine 0. -/
theorem cameraRotation_single_axis_witness :
    (cameraRotation quarterTurnTrig exampleGTE ⟨0, -1000, 0, 1024, 0, 0⟩).rt
      = ⟨4096, 0, 0, 0, 0, -4096, 0, 4096, 0⟩ :=
  (cameraRotation_single_axis quarterTurnTrig exampleGTE ⟨0, -1000, 0, 1024, 0, 0⟩
    quarterTurnTrig_bounded).1 (by decide) rfl rfl

/-- C7, as the claim words it, fails: with a quarter turn of roll and of pitch, no yaw,
from the identity, the code performs the pitch step and then the roll step and holds
the first matrix below, while roll first and pitch last gives the second. -/
theorem rotateCurrentMatrix_not_roll_first :
    (rotateCurrentMatrix quarterTurnTrig identityGTE 1024 0 1024).rt
        = ⟨0, -4096, 0, 0, 0, -4096, 4096, 0, 0⟩ ∧
      rotateRollYawPitch quarterTurnTrig identityGTE.rt 1024 0 1024
        = ⟨0, 0, 4096, 4096, 0, 0, 0, 4096, 0⟩ ∧
      (rotateCurrentMatrix quarterTurnTrig identityGTE 1024 0 1024).rt
        ≠ rotateRollYawPitch quarterTurnTrig identityGTE.rt 1024 0 1024 := by
  decide

/-- C7 (amended). For every orientation with more than one non-zero axis,
rotateCurrentMatrix multiplies the elementary rotations into the current matrix in
the fixed order pitch first, then yaw, then roll: the matrix after the call is the
starting matrix after the pitch multiply-and-load step, then the yaw step, then the
roll step, the step of a zero angle being left out. -/
theorem rotateCurrentMatrix_pitch_yaw_roll (t : Trig) (g : GTE) (roll yaw pitch : Int)
    (ht : t.Bounded) :
    (pitch ≠ 0 → yaw ≠ 0 → roll ≠ 0 →
      (rotateCurrentMatrix t g roll yaw pitch).rt
        = fixMul (fixMul (fixMul g.rt (rotationX (t.isin pitch) (t.icos pitch)))
            (rotationY (t.isin yaw) (t.icos yaw))) (rotationZ (t.isin roll) (t.icos roll))) ∧
    (pitch ≠ 0 → yaw ≠ 0 → roll = 0 →
      (rotateCurrentMatrix t g roll yaw pitch).rt
        = fixMul (fixMul g.rt (rotationX (t.isin pitch) (t.icos pitch)))
            (rotationY (t.isin yaw) (t.icos yaw))) ∧
    (pitch ≠ 0 → yaw = 0 → roll ≠ 0 →
      (rotateCurrentMatrix t g roll yaw pitch).rt
        = fixMul (fixMul g.rt (rotationX (t.isin pitch) (t.icos pitch)))
            (rotationZ (t.isin roll) (t.icos roll))) ∧
    (pitch = 0 → yaw ≠ 0 → roll ≠ 0 →
      (rotateCurrentMatrix t g roll yaw pitch).rt
        = fixMul (fixMul g.rt (rotationY (t.isin yaw) (t.icos yaw)))
            (rotationZ (t.isin roll) (t.icos roll))) := by
  rw [rotateCurrentMatrix_rt t g roll yaw pitch ht]
  refine ⟨?_, ?_, ?_, ?_⟩ <;> intro hp hy hr <;>
    simp only [hp, hy, hr, ne_eq, not_true_eq_false, not_false_eq_true, if_true, if_false]

/-- Worked instance of the amended C7: a quarter turn of pitch, then of roll, from the
identity. -/
theorem rotateCurrentMatrix_pitch_yaw_roll_witness :
    (rotateCurrentMatrix quarterTurnTrig identityGTE 1024 0 1024).rt
      = fixMul (fixMul identityMatrix (rotationX 4096 0)) (rotationZ 4096 0) :=
  (rotateCurrentMatrix_pitch_yaw_roll quarterTurnTrig identityGTE 1024 0 1024
    quarterTurnTrig_bounded).2.2.1 (by decide) rfl (by decide)

/-! ## Translation -/

theorem sar12_add_le (a b : Int) :
    sar12 a + sar12 b = sar12 (a + b) ∨ sar12 a + sar12 b = sar12 (a + b) - 1 := by
  rw [sar12_eq, sar12_eq, sar12_eq]
  omega

theorem updateTranslationMatrix_tr (g : GTE) (x y z : Int) :
    (updateTranslationMatrix g x y z).tr
      = ⟨sat16 (sar12 (g.rt.m00 * int16 x + g.rt.m01 * int16 y + g.rt.m02 * int16 z)),
         sat16 (sar12 (g.rt.m10 * int16 x + g.rt.m11 * int16 y + g.rt.m12 * int16 z)),
         sat16 (sar12 (g.rt.m20 * int16 x + g.rt.m21 * int16 y + g.rt.m22 * int16 z))⟩ := by
  simp only [updateTranslationMatrix, gte_setTranslationVector, mvmvaRT]

theorem updateTranslationMatrix_rt (g : GTE) (x y z : Int) :
    (updateTranslationMatrix g x y z).rt = g.rt := by
  simp only [updateTranslationMatrix, gte_setTranslationVector, mvmvaRT]

/-- C8, as the claim words it, fails twice over. With the identity rotation and the
camera at x = 40000, the negated position does not fit the 16-bit register IR1 and the
translation loaded is 25536, not -40000. With an eighth of a turn of yaw, the camera
at x = -1 and the vertex (1, 0, 0), every value fits, yet the transform gives
(0, 0, -2) where R * (v - p) >> 12 is (1, 0, -2): the two shifts round separately. -/
theorem cameraTranslation_not_exact :
    ((cameraTranslation identityGTE ⟨40000, 0, 0, 0, 0, 0⟩).tr = ⟨25536, 0, 0⟩ ∧
      fixApply identityGTE.rt ⟨-40000, 0, 0⟩ = ⟨-40000, 0, 0⟩) ∧
    ((cameraTranslation eighthTurnGTE ⟨-1, 0, 0, 0, 0, 0⟩).tr
        = fixApply eighthTurnGTE.rt ⟨1, 0, 0⟩ ∧
      cameraSpace (cameraTranslation eighthTurnGTE ⟨-1, 0, 0, 0, 0, 0⟩) ⟨1, 0, 0⟩
        = ⟨0, 0, -2⟩ ∧
      fixApply eighthTurnGTE.rt ⟨1 - (-1), 0 - 0, 0 - 0⟩ = ⟨1, 0, -2⟩) := by
  decide

/-- C8 (amended). For every current rotation matrix R and camera position p whose
negated coordinates fit the signed 16-bit registers IR1..IR3 and for which no
component of (R * (-p)) >> 12 leaves the 16-bit range,
updateTranslationMatrix(-p.x, -p.y, -p.z) keeps R and loads (R * (-p)) >> 12 as
translation vector; and for every model-space vertex v each component of
(R * v >> 12) + translation is the matching component of (R * (v - p)) >> 12 or one
less. -/
theorem cameraTranslation_within_one (g : GTE) (camera : Camera)
    (hx : Fits16 (-camera.x)) (hy : Fits16 (-camera.y)) (hz : Fits16 (-camera.z))
    (hsx : Fits16 (fixApply g.rt ⟨-camera.x, -camera.y, -camera.z⟩).x)
    (hsy : Fits16 (fixApply g.rt ⟨-camera.x, -camera.y, -camera.z⟩).y)
    (hsz : Fits16 (fixApply g.rt ⟨-camera.x, -camera.y, -camera.z⟩).z) :
    (cameraTranslation g camera).rt = g.rt ∧
    (cameraTranslation g camera).tr = fixApply g.rt ⟨-camera.x, -camera.y, -camera.z⟩ ∧
    ∀ v : Vec3,
      ((cameraSpace (cameraTranslation g camera) v).x
          = (fixApply g.rt ⟨v.x - camera.x, v.y - camera.y, v.z - camera.z⟩).x ∨
        (cameraSpace (cameraTranslation g camera) v).x
          = (fixApply g.rt ⟨v.x - camera.x, v.y - camera.y, v.z - camera.z⟩).x - 1) ∧
      ((cameraSpace (cameraTranslation g camera) v).y
          = (fixApply g.rt ⟨v.x - camera.x, v.y - camera.y, v.z - camera.z⟩).y ∨
        (cameraSpace (cameraTranslation g camera) v).y
          = (fixApply g.rt ⟨v.x - camera.x, v.y - camera.y, v.z - camera.z⟩).y - 1) ∧
      ((cameraSpace (cameraTranslation g camera) v).z
          = (fixApply g.rt ⟨v.x - camera.x, v.y - camera.y, v.z - camera.z⟩).z ∨
        (cameraSpace (cameraTranslation g camera) v).z
          = (fixApply g.rt ⟨v.x - camera.x, v.y - camera.y, v.z - camera.z⟩).z - 1) := by
  have htr : (cameraTranslation g camera).tr
      = fixApply g.rt ⟨-camera.x, -camera.y, -camera.z⟩ := by
    unfold cameraTranslation
    rw [updateTranslationMatrix_tr, int16_of_fits _ hx.1 hx.2, int16_of_fits _ hy.1 hy.2,
      int16_of_fits _ hz.1 hz.2]
    simp only [fixApply] at hsx hsy hsz ⊢
    rw [sat16_of_fits _ hsx.1 hsx.2, sat16_of_fits _ hsy.1 hsy.2, sat16_of_fits _ hsz.1 hsz.2]
  have hrt : (cameraTranslation g camera).rt = g.rt := updateTranslationMatrix_rt g _ _ _
  refine ⟨hrt, htr, ?_⟩
  intro v
  simp only [cameraSpace, htr, hrt, fixApply]
  have e : ∀ a b c : Int,
      a * (v.x - camera.x) + b * (v.y - camera.y) + c * (v.z - camera.z)
        = (a * v.x + b * v.y + c * v.z) + (a * -camera.x + b * -camera.y + c * -camera.z) := by
    intro a b c
    ring
  rw [e, e, e]
  exact ⟨sar12_add_le _ _, sar12_add_le _ _, sar12_add_le _ _⟩

/-- Worked instance of the amended C8: the initial camera of main.c, at (0, -1000, 0),
under the identity rotation: the translation loaded is (0, 1000, 0). -/
theorem cameraTranslation_within_one_witness :
    (cameraTranslation identityGTE ⟨0, -1000, 0, 0, 0, 0⟩).tr = ⟨0, 1000, 0⟩ :=
  (cameraTranslation_within_one identityGTE ⟨0, -1000, 0, 0, 0, 0⟩ (by decide) (by decide)
    (by decide) (by decide) (by decide) (by decide)).2.1

/-! ## The render pass: culling -/

theorem nclip_rtpt_mac0 (g : GTE) (p : Projected) : (nclip (rtpt g p)).mac0 = signedArea p := by
  simp only [nclip, rtpt, signedArea]

theorem avsz3_otz (g : GTE) (p : Projected) :
    (avsz3 (nclip (rtpt g p))).otz = bucketIndex g.zsf3 p := by
  simp only [avsz3, nclip, rtpt, bucketIndex]

theorem renderFace_backface (cmds : GPUCommands) (tex : TextureInfo) (renderTextured : Bool)
    (i : Nat) (uvs : FaceUVs) (p : Projected) (st : RenderState) (h : signedArea p ≤ 0) :
    renderFace cmds tex renderTextured i uvs p st
      = some ({ st with gte := nclip (rtpt st.gte p) }, FaceOutcome.backface) := by
  unfold renderFace
  simp only [nclip_rtpt_mac0, h, if_true]

theorem emitFace_outcome (cmds : GPUCommands) (tex : TextureInfo) (renderTextured : Bool)
    (i : Nat) (uvs : FaceUVs) (zIndex : Int) (chain : DMAChain) (g : GTE) (polyCount : Int)
    (r : RenderState × FaceOutcome)
    (h : emitFace cmds tex renderTextured i uvs zIndex chain g polyCount = some r) :
    r.2 = FaceOutcome.drawn := by
  unfold emitFace at h
  split at h
  · cases ha : allocatePacket chain zIndex 7 with
    | none => rw [ha] at h; simp at h
    | some res =>
      rw [ha, Option.map_some'] at h
      injection h with h
      rw [← h]
  · cases ha : allocatePacket chain zIndex 4 with
    | none => rw [ha] at h; simp at h
    | some res =>
      rw [ha, Option.map_some'] at h
      injection h with h
      rw [← h]

theorem renderFace_front (cmds : GPUCommands) (tex : TextureInfo) (renderTextured : Bool)
    (i : Nat) (uvs : FaceUVs) (p : Projected) (st : RenderState) (h : 0 < signedArea p)
    (r : RenderState × FaceOutcome)
    (hr : renderFace cmds tex renderTextured i uvs p st = some r) :
    r.2 ≠ FaceOutcome.backface := by
  unfold renderFace at hr
  have h' : ¬ signedArea p ≤ 0 := by omega
  simp only [nclip_rtpt_mac0, h', if_false] at hr
  split at hr
  · injection hr with hr
    rw [← hr]
    exact fun hh => FaceOutcome.noConfusion hh
  · split at hr
    · split at hr
      · injection hr with hr
        rw [← hr]
        exact fun hh => FaceOutcome.noConfusion hh
      · rw [emitFace_outcome _ _ _ _ _ _ _ _ _ r hr]
        decide
    · rw [emitFace_outcome _ _ _ _ _ _ _ _ _ r hr]
      decide

/-- C9. For every face, the render pass leaves the loop body at the backface step if
and only if the signed area of the projected triangle (the NCLIP value) is
non-positive: a face of positive signed area is never discarded by this step, and a
face of negative or zero signed area always is, the chain and the polygon counter
staying as they were. -/
theorem backface_cull_iff (cmds : GPUCommands) (tex : TextureInfo) (renderTextured : Bool)
    (i : Nat) (uvs : FaceUVs) (p : Projected) (st : RenderState) :
    (signedArea p ≤ 0 →
      renderFace cmds tex renderTextured i uvs p st
        = some ({ st with gte := nclip (rtpt st.gte p) }, FaceOutcome.backface)) ∧
    (∀ r, renderFace cmds tex renderTextured i uvs p st = some r →
      (r.2 = FaceOutcome.backface ↔ signedArea p ≤ 0)) ∧
    (∀ r, renderFace cmds tex renderTextured i uvs p st = some r →
      r.2 = FaceOutcome.backface → r.1.chain = st.chain ∧ r.1.polyCount = st.polyCount) := by
  refine ⟨renderFace_backface cmds tex renderTextured i uvs p st, ?_, ?_⟩
  · intro r hr
    constructor
    · intro hb
      by_contra hpos
      exact renderFace_front cmds tex renderTextured i uvs p st (by omega) r hr hb
    · intro hneg
      rw [renderFace_backface cmds tex renderTextured i uvs p st hneg] at hr
      injection hr with hr
      rw [← hr]
  · intro r hr hb
    have hneg : signedArea p ≤ 0 := by
      by_contra hpos
      exact renderFace_front cmds tex renderTextured i uvs p st (by omega) r hr hb
    rw [renderFace_backface cmds tex renderTextured i uvs p st hneg] at hr
    injection hr with hr
    rw [← hr]
    exact ⟨rfl, rfl⟩

/-- Worked instance of C9: of a triangle and its mirror image at bucket 10 (three
depths of 456, scaled by 30), the first is drawn and the second is discarded at the
backface step. -/
theorem backface_cull_iff_witness :
    (renderFace exampleCommands exampleTexture false 0 ⟨0, 0, 0, 0, 0, 0⟩
        (backFacing 456 456 456) exampleRender).map Prod.snd = some FaceOutcome.backface ∧
    (renderFace exampleCommands exampleTexture false 0 ⟨0, 0, 0, 0, 0, 0⟩
        (frontFacing 456 456 456) exampleRender).map Prod.snd = some FaceOutcome.drawn := by
  constructor
  · rw [(backface_cull_iff exampleCommands exampleTexture false 0 ⟨0, 0, 0, 0, 0, 0⟩
      (backFacing 456 456 456) exampleRender).1 (by decide)]
    rfl
  · decide

/-- C10. For every front-facing face whose scaled average depth (the bucket index read
from the coprocessor) is greater than or equal to ORDERING_TABLE_SIZE, the render pass
leaves the loop body at the far-plane test with the chain (cursor, packets, bucket
heads) and the polygon counter as they were; this holds at the boundary value
ORDERING_TABLE_SIZE itself, while a front-facing face at ORDERING_TABLE_SIZE - 1 goes
on to the emission into bucket ORDERING_TABLE_SIZE - 1. -/
theorem far_plane_cull (cmds : GPUCommands) (tex : TextureInfo) (renderTextured : Bool)
    (i : Nat) (uvs : FaceUVs) (p : Projected) (st : RenderState) (hfront : 0 < signedArea p) :
    ((ORDERING_TABLE_SIZE : Int) ≤ bucketIndex st.gte.zsf3 p →
      renderFace cmds tex renderTextured i uvs p st
        = some ({ st with gte := avsz3 (nclip (rtpt st.gte p)) }, FaceOutcome.tooFar)) ∧
    (bucketIndex st.gte.zsf3 p = (ORDERING_TABLE_SIZE : Int) →
      ∃ r, renderFace cmds tex renderTextured i uvs p st = some r ∧
        r.2 = FaceOutcome.tooFar ∧ r.1.chain = st.chain ∧ r.1.polyCount = st.polyCount) ∧
    (bucketIndex st.gte.zsf3 p = (ORDERING_TABLE_SIZE : Int) - 1 →
      renderFace cmds tex renderTextured i uvs p st
        = emitFace cmds tex renderTextured i uvs ((ORDERING_TABLE_SIZE : Int) - 1) st.chain
            (avsz3 (nclip (rtpt st.gte p))) st.polyCount) := by
  have h' : ¬ signedArea p ≤ 0 := by omega
  have hfar : (ORDERING_TABLE_SIZE : Int) ≤ bucketIndex st.gte.zsf3 p →
      renderFace cmds tex renderTextured i uvs p st
        = some ({ st with gte := avsz3 (nclip (rtpt st.gte p)) }, FaceOutcome.tooFar) := by
    intro hz
    unfold renderFace
    simp only [nclip_rtpt_mac0, h', if_false, avsz3_otz, ge_iff_le, hz, if_true]
  refine ⟨hfar, ?_, ?_⟩
  · intro hz
    exact ⟨_, hfar (by rw [hz]), rfl, rfl, rfl⟩
  · intro hz
    have h1 : ¬ (ORDERING_TABLE_SIZE : Int) ≤ bucketIndex st.gte.zsf3 p := by
      rw [hz]; omega
    have h2 : ¬ bucketIndex st.gte.zsf3 p ≤ 0 := by
      rw [hz]; unfold ORDERING_TABLE_SIZE; omega
    unfold renderFace
    simp only [nclip_rtpt_mac0, h', if_false, avsz3_otz, ge_iff_le, h1, h2]
    rw [hz]

/-- Worked instance of C10: with ZSF3 = 30, depths summing to 98304 give the bucket
index 720 and the face is discarded as too far; depths summing to 98303 give 719 and
the face is drawn. -/
theorem far_plane_cull_witness :
    (renderFace exampleCommands exampleTexture false 0 ⟨0, 0, 0, 0, 0, 0⟩
        (frontFacing 32768 32768 32768) exampleRender).map Prod.snd
      = some FaceOutcome.tooFar ∧
    (emitFace exampleCommands exampleTexture false 0 ⟨0, 0, 0, 0, 0, 0⟩
        ((ORDERING_TABLE_SIZE : Int) - 1) exampleRender.chain
        (avsz3 (nclip (rtpt exampleRender.gte (frontFacing 32768 32768 32767))))
        exampleRender.polyCount).map Prod.snd = some FaceOutcome.drawn := by
  have h := far_plane_cull exampleCommands exampleTexture false 0 ⟨0, 0, 0, 0, 0, 0⟩
  constructor
  · rw [(h (frontFacing 32768 32768 32768) exampleRender (by decide)).1 (by decide)]
    rfl
  · rw [← (h (frontFacing 32768 32768 32767) exampleRender (by decide)).2.2 (by decide)]
    decide

/-! ## The render pass: behind the camera -/

theorem renderFace_near (cmds : GPUCommands) (tex : TextureInfo) (renderTextured : Bool)
    (i : Nat) (uvs : FaceUVs) (p : Projected) (st : RenderState) (hfront : 0 < signedArea p)
    (hz : bucketIndex st.gte.zsf3 p ≤ 0) :
    renderFace cmds tex renderTextured i uvs p st =
      if st.gte.sz3 + p.depth0 + p.depth1 = 0 then
        some ({ st with gte := avsz3 (nclip (rtpt st.gte p)) }, FaceOutcome.behind)
      else
        emitFace cmds tex renderTextured i uvs (bucketIndex st.gte.zsf3 p) st.chain
          (avsz3 (nclip (rtpt st.gte p))) st.polyCount := by
  have h' : ¬ signedArea p ≤ 0 := by omega
  have h1 : ¬ (ORDERING_TABLE_SIZE : Int) ≤ bucketIndex st.gte.zsf3 p := by
    unfold ORDERING_TABLE_SIZE
    omega
  unfold renderFace
  simp only [nclip_rtpt_mac0, h', if_false, avsz3_otz, ge_iff_le, h1, hz, if_true]
  rfl

/-- C11, the code at the failing inputs. In a mesh of two front-facing faces, the
first with depths (152, 152, 500) and the second with its three depths 0, 0, 0
(scaled depth 0, depths summing to zero), both faces are drawn: the sum the code
tests for the second face is 500 + 0 + 0, the 500 being the last depth of the first
face. And a single face with depths (0, 0, 5), scaled depth 0 and depths not summing
to zero, is discarded when the depth left before it is 0: the code tests 0 + 0 + 0. -/
theorem near_plane_reads_stale_depth :
    (renderFaces exampleCommands exampleTexture false 0
        [(⟨0, 0, 0, 0, 0, 0⟩, frontFacing 152 152 500), (⟨0, 0, 0, 0, 0, 0⟩, frontFacing 0 0 0)]
        setupRender).map (fun st => st.polyCount) = some 2 ∧
    bucketIndex setupRender.gte.zsf3 (frontFacing 0 0 0) = 0 ∧
    (renderFace exampleCommands exampleTexture false 0 ⟨0, 0, 0, 0, 0, 0⟩ (frontFacing 0 0 5)
        setupRender).map Prod.snd = some FaceOutcome.behind ∧
    bucketIndex setupRender.gte.zsf3 (frontFacing 0 0 5) = 0 := by
  decide

/-! ## The bucket index is in range -/

theorem satU16_nonneg (x : Int) : 0 ≤ satU16 x := by
  unfold satU16
  split
  · omega
  · split <;> omega

theorem bucketIndex_nonneg (zsf3 : Int) (p : Projected) : 0 ≤ bucketIndex zsf3 p :=
  satU16_nonneg _

theorem emitFace_none (cmds : GPUCommands) (tex : TextureInfo) (renderTextured : Bool)
    (i : Nat) (uvs : FaceUVs) (zIndex : Int) (chain : DMAChain) (g : GTE) (polyCount : Int)
    (h0 : 0 ≤ zIndex) (h1 : zIndex < (ORDERING_TABLE_SIZE : Int))
    (h : emitFace cmds tex renderTextured i uvs zIndex chain g polyCount = none) :
    (CHAIN_BUFFER_SIZE : Int) ≤ chain.nextPacket + (if renderTextured then 8 else 5) := by
  unfold emitFace at h
  by_contra hcap
  cases renderTextured with
  | true =>
    simp only [if_true, Option.map_eq_none'] at h
    have hs := (allocatePacket_some_iff chain zIndex 7).2 ⟨h0, h1, by simp at hcap; omega⟩
    rw [h] at hs
    exact absurd hs (by simp)
  | false =>
    simp only [Bool.false_eq_true, if_false, Option.map_eq_none'] at h
    have hs := (allocatePacket_some_iff chain zIndex 4).2 ⟨h0, h1, by simp at hcap; omega⟩
    rw [h] at hs
    exact absurd hs (by simp)

/-- C20. For every face, the loop body either leaves at one of the three culling
tests with the chain untouched, or passes to allocatePacket an index zIndex with
0 <= zIndex < ORDERING_TABLE_SIZE, which is 0 for a face kept at the near plane; so
the loop body aborts only when the buffer capacity is reached, never on a range
assertion. -/
theorem renderFace_index_in_range (cmds : GPUCommands) (tex : TextureInfo)
    (renderTextured : Bool) (i : Nat) (uvs : FaceUVs) (p : Projected) (st : RenderState) :
    ((∃ g o, o ≠ FaceOutcome.drawn ∧
        renderFace cmds tex renderTextured i uvs p st = some ({ st with gte := g }, o)) ∨
      (∃ zIndex : Int, 0 ≤ zIndex ∧ zIndex < (ORDERING_TABLE_SIZE : Int) ∧
        zIndex = bucketIndex st.gte.zsf3 p ∧
        (bucketIndex st.gte.zsf3 p ≤ 0 → zIndex = 0) ∧
        renderFace cmds tex renderTextured i uvs p st
          = emitFace cmds tex renderTextured i uvs zIndex st.chain
              (avsz3 (nclip (rtpt st.gte p))) st.polyCount)) ∧
    (renderFace cmds tex renderTextured i uvs p st = none →
      (CHAIN_BUFFER_SIZE : Int) ≤ st.chain.nextPacket + (if renderTextured then 8 else 5)) := by
  have hnn := bucketIndex_nonneg st.gte.zsf3 p
  have key : (∃ g o, o ≠ FaceOutcome.drawn ∧
        renderFace cmds tex renderTextured i uvs p st = some ({ st with gte := g }, o)) ∨
      (∃ zIndex : Int, 0 ≤ zIndex ∧ zIndex < (ORDERING_TABLE_SIZE : Int) ∧
        zIndex = bucketIndex st.gte.zsf3 p ∧
        (bucketIndex st.gte.zsf3 p ≤ 0 → zIndex = 0) ∧
        renderFace cmds tex renderTextured i uvs p st
          = emitFace cmds tex renderTextured i uvs zIndex st.chain
              (avsz3 (nclip (rtpt st.gte p))) st.polyCount) := by
    by_cases hback : signedArea p ≤ 0
    · left
      exact ⟨_, FaceOutcome.backface, by decide,
        renderFace_backface cmds tex renderTextured i uvs p st hback⟩
    · have hfront : 0 < signedArea p := by omega
      by_cases hfar : (ORDERING_TABLE_SIZE : Int) ≤ bucketIndex st.gte.zsf3 p
      · left
        refine ⟨avsz3 (nclip (rtpt st.gte p)), FaceOutcome.tooFar, by decide, ?_⟩
        unfold renderFace
        simp only [nclip_rtpt_mac0, hback, if_false, avsz3_otz, ge_iff_le, hfar, if_true]
      · by_cases hnear : bucketIndex st.gte.zsf3 p ≤ 0
        · rw [renderFace_near cmds tex renderTextured i uvs p st hfront hnear]
          by_cases hsum : st.gte.sz3 + p.depth0 + p.depth1 = 0
          · left
            exact ⟨avsz3 (nclip (rtpt st.gte p)), FaceOutcome.behind, by decide,
              by simp only [hsum, if_true]⟩
          · right
            exact ⟨_, hnn, by omega, rfl, fun _ => by omega, by simp only [hsum, if_false]⟩
        · right
          refine ⟨_, hnn, by omega, rfl, fun hh => absurd hh hnear, ?_⟩
          unfold renderFace
          simp only [nclip_rtpt_mac0, hback, if_false, avsz3_otz, ge_iff_le, hfar, hnear]
  refine ⟨key, ?_⟩
  intro hnone
  rcases key with ⟨g, o, _, hsome⟩ | ⟨z, hz0, hz1, _, _, hemit⟩
  · rw [hsome] at hnone
    exact absurd hnone (by simp)
  · rw [hemit] at hnone
    exact emitFace_none cmds tex renderTextured i uvs z st.chain _ st.polyCount hz0 hz1 hnone

/-! ## The depth scale factor -/

theorem setupGTE_zsf3 (g : GTE) (width height : Int) : (setupGTE g width height).zsf3 = 30 := by
  simp only [setupGTE, gte_setZScaleFactor]
  decide

/-- C12, as the claim words it, fails at three depths of 0x7fff. After setupGTE the
scale register holds 30 and the bucket index the program reads there is 719. The
formula of the claim, the factor (ONE * ORDERING_TABLE_SIZE) / 0x7fff = 90 times the
sum of the depths, shifted right by 12, gives 2159; and the average of the three
depths, 0x7fff, scaled by ORDERING_TABLE_SIZE / 0x7fff is 720 exactly, with nothing
to truncate. -/
theorem setupGTE_bucket_at_full_depth :
    (setupGTE identityGTE SCREEN_WIDTH SCREEN_HEIGHT).zsf3 = 30 ∧
    (avsz3 (nclip (rtpt (setupGTE identityGTE SCREEN_WIDTH SCREEN_HEIGHT)
      (atDepths 0x7fff 0x7fff 0x7fff)))).otz = 719 ∧
    depthScaleFactor = 90 ∧
    sar12 (depthScaleFactor * (0x7fff + 0x7fff + 0x7fff)) = 2159 ∧
    ((0x7fff + 0x7fff + 0x7fff) / 3 : Int) * (ORDERING_TABLE_SIZE : Int) / 0x7fff = 720 := by
  decide

/-- C12 (amended). After setupGTE the scale register ZSF3 holds one third of
(ONE * ORDERING_TABLE_SIZE) / 0x7fff, that is 30, and with the depth average
OTZ = (ZSF3 * (z_a + z_b + z_c)) >> 12 every triple of depths in [0, 0x7fff] gives a
bucket index in [0, ORDERING_TABLE_SIZE): the average of the three depths scaled by
ORDERING_TABLE_SIZE / 0x7fff, truncated, or one less than that. -/
theorem setupGTE_bucket_range (g : GTE) (width height : Int) (p : Projected)
    (h0 : 0 ≤ p.depth0 ∧ p.depth0 ≤ 0x7fff) (h1 : 0 ≤ p.depth1 ∧ p.depth1 ≤ 0x7fff)
    (h2 : 0 ≤ p.depth2 ∧ p.depth2 ≤ 0x7fff) :
    (setupGTE g width height).zsf3 * 3 = depthScaleFactor ∧
    (avsz3 (nclip (rtpt (setupGTE g width height) p))).otz
      = bucketIndex (setupGTE g width height).zsf3 p ∧
    0 ≤ bucketIndex (setupGTE g width height).zsf3 p ∧
    bucketIndex (setupGTE g width height).zsf3 p < (ORDERING_TABLE_SIZE : Int) ∧
    (bucketIndex (setupGTE g width height).zsf3 p
        = ((ORDERING_TABLE_SIZE : Int) * (p.depth0 + p.depth1 + p.depth2)) / (3 * 0x7fff) ∨
      bucketIndex (setupGTE g width height).zsf3 p
        = ((ORDERING_TABLE_SIZE : Int) * (p.depth0 + p.depth1 + p.depth2)) / (3 * 0x7fff)
          - 1) := by
  have hz := setupGTE_zsf3 g width height
  have hb : bucketIndex (setupGTE g width height).zsf3 p
      = (30 * (p.depth0 + p.depth1 + p.depth2)) / 4096 := by
    rw [hz]
    unfold bucketIndex satU16
    rw [sar12_eq]
    split
    · omega
    · split
      · omega
      · rfl
  refine ⟨by rw [hz]; decide, avsz3_otz _ p, ?_, ?_, ?_⟩
  · rw [hb]; omega
  · rw [hb]; unfold ORDERING_TABLE_SIZE; omega
  · rw [hb]; unfold ORDERING_TABLE_SIZE; omega

/-- Worked instance of the amended C12: three depths of 0x7fff give a bucket index
within the table (it is 719). -/
theorem setupGTE_bucket_range_witness :
    0 ≤ bucketIndex (setupGTE exampleGTE 320 256).zsf3 (atDepths 0x7fff 0x7fff 0x7fff) ∧
    bucketIndex (setupGTE exampleGTE 320 256).zsf3 (atDepths 0x7fff 0x7fff 0x7fff)
      < (ORDERING_TABLE_SIZE : Int) :=
  ⟨(setupGTE_bucket_range exampleGTE 320 256 (atDepths 0x7fff 0x7fff 0x7fff)
      (by decide) (by decide) (by decide)).2.2.1,
   (setupGTE_bucket_range exampleGTE 320 256 (atDepths 0x7fff 0x7fff 0x7fff)
      (by decide) (by decide) (by decide)).2.2.2.1⟩

/-! ## Skipping a zero angle -/

theorem fixMul_identity_right (m : GTEMatrix) (h : m.Fits16) : fixMul m identityMatrix = m := by
  obtain ⟨h00, h01, h02, h10, h11, h12, h20, h21, h22⟩ := h
  have key : ∀ x : Int, Fits16 x → sat16 (sar12 (x * 4096)) = x := by
    intro x hx
    have : sar12 (x * 4096) = x := by
      rw [sar12_eq]
      omega
    rw [this]
    exact sat16_of_fits x hx.1 hx.2
  cases m
  simp only [fixMul, identityMatrix, ONE, mul_zero, add_zero, zero_add] at *
  simp only [key _ h00, key _ h01, key _ h02, key _ h10, key _ h11, key _ h12, key _ h20,
    key _ h21, key _ h22]

theorem fixMul_fits (a b : GTEMatrix) : (fixMul a b).Fits16 := by
  simp only [GTEMatrix.Fits16, Fits16, fixMul]
  exact ⟨sat16_fits _, sat16_fits _, sat16_fits _, sat16_fits _, sat16_fits _, sat16_fits _,
    sat16_fits _, sat16_fits _, sat16_fits _⟩

theorem rotation_zero :
    rotationX 0 ONE = identityMatrix ∧ rotationY 0 ONE = identityMatrix ∧
      rotationZ 0 ONE = identityMatrix := by
  decide

theorem multiplyInto_rt (g : GTE) (m : GTEMatrix) (h : m.Fits16) :
    (multiplyInto g m).rt = fixMul g.rt m := by
  obtain ⟨h00, h01, h02, h10, h11, h12, h20, h21, h22⟩ := h
  unfold multiplyInto
  simp only [multiply_and_load, int16_of_fits _ h00.1 h00.2, int16_of_fits _ h01.1 h01.2,
    int16_of_fits _ h02.1 h02.2, int16_of_fits _ h10.1 h10.2, int16_of_fits _ h11.1 h11.2,
    int16_of_fits _ h12.1 h12.2, int16_of_fits _ h20.1 h20.2, int16_of_fits _ h21.1 h21.2,
    int16_of_fits _ h22.1 h22.2]

theorem rotateCurrentMatrixUnconditional_rt (t : Trig) (g : GTE) (roll yaw pitch : Int)
    (ht : t.Bounded) :
    (rotateCurrentMatrixUnconditional t g roll yaw pitch).rt =
      fixMul (fixMul (fixMul g.rt (rotationX (t.isin pitch) (t.icos pitch)))
        (rotationY (t.isin yaw) (t.icos yaw))) (rotationZ (t.isin roll) (t.icos roll)) := by
  have hb : ∀ a, int16 (t.isin a) = t.isin a ∧ int16 (-t.isin a) = -t.isin a ∧
      int16 (t.icos a) = t.icos a := by
    intro a
    obtain ⟨h1, h2, h3, h4⟩ := ht a
    unfold ONE at h1 h2 h3 h4
    exact ⟨int16_of_fits _ (by omega) (by omega), int16_of_fits _ (by omega) (by omega),
      int16_of_fits _ (by omega) (by omega)⟩
  have h0 : int16 0 = 0 := by decide
  have h1 : int16 ONE = ONE := by decide
  unfold rotateCurrentMatrixUnconditional
  simp only [multiply_and_load, (hb _).1, (hb _).2.1, (hb _).2.2, h0, h1, rotationX, rotationY,
    rotationZ]

/-- C17. For every current rotation matrix with 16-bit entries, the multiply-and-load
step with the elementary rotation of any axis at angle zero (sine 0, cosine ONE)
leaves the matrix unchanged; hence, for a sine and cosine with isin(0) = 0 and
icos(0) = ONE, rotateCurrentMatrix yields for all (roll, yaw, pitch) the same matrix
as the variant that performs all three multiplies unconditionally. -/
theorem rotateCurrentMatrix_skip_zero (t : Trig) (g : GTE) (roll yaw pitch : Int)
    (ht : t.Bounded) (hs : t.isin 0 = 0) (hc : t.icos 0 = ONE) (hm : g.rt.Fits16) :
    ((multiplyInto g (rotationX 0 ONE)).rt = g.rt ∧
      (multiplyInto g (rotationY 0 ONE)).rt = g.rt ∧
      (multiplyInto g (rotationZ 0 ONE)).rt = g.rt) ∧
    (rotateCurrentMatrix t g roll yaw pitch).rt
      = (rotateCurrentMatrixUnconditional t g roll yaw pitch).rt := by
  have hid : identityMatrix.Fits16 := by decide
  have hstep : (multiplyInto g identityMatrix).rt = g.rt := by
    rw [multiplyInto_rt g _ hid, fixMul_identity_right g.rt hm]
  refine ⟨?_, ?_⟩
  · rw [rotation_zero.1, rotation_zero.2.1, rotation_zero.2.2]
    exact ⟨hstep, hstep, hstep⟩
  · rw [rotateCurrentMatrix_rt t g roll yaw pitch ht,
      rotateCurrentMatrixUnconditional_rt t g roll yaw pitch ht]
    have hX : ∀ m : GTEMatrix, m.Fits16 →
        (if pitch ≠ 0 then fixMul m (rotationX (t.isin pitch) (t.icos pitch)) else m)
          = fixMul m (rotationX (t.isin pitch) (t.icos pitch)) := by
      intro m hmf
      by_cases hp : pitch = 0
      · subst hp
        rw [hs, hc, rotation_zero.1, fixMul_identity_right m hmf]
        simp
      · simp [hp]
    have hY : ∀ m : GTEMatrix, m.Fits16 →
        (if yaw ≠ 0 then fixMul m (rotationY (t.isin yaw) (t.icos yaw)) else m)
          = fixMul m (rotationY (t.isin yaw) (t.icos yaw)) := by
      intro m hmf
      by_cases hp : yaw = 0
      · subst hp
        rw [hs, hc, rotation_zero.2.1, fixMul_identity_right m hmf]
        simp
      · simp [hp]
    have hZ : ∀ m : GTEMatrix, m.Fits16 →
        (if roll ≠ 0 then fixMul m (rotationZ (t.isin roll) (t.icos roll)) else m)
          = fixMul m (rotationZ (t.isin roll) (t.icos roll)) := by
      intro m hmf
      by_cases hp : roll = 0
      · subst hp
        rw [hs, hc, rotation_zero.2.2, fixMul_identity_right m hmf]
        simp
      · simp [hp]
    simp only []
    rw [hX g.rt hm, hY _ (fixMul_fits _ _), hZ _ (fixMul_fits _ _)]

/-- Worked instance of C17: a quarter turn of roll alone, from the identity. -/
theorem rotateCurrentMatrix_skip_zero_witness :
    (rotateCurrentMatrix quarterTurnTrig identityGTE 1024 0 0).rt
      = (rotateCurrentMatrixUnconditional quarterTurnTrig identityGTE 1024 0 0).rt :=
  (rotateCurrentMatrix_skip_zero quarterTurnTrig identityGTE 1024 0 0 quarterTurnTrig_bounded
    (by decide) (by decide) (by decide)).2

/-! ## The input step: dead zone -/

theorem outsideDeadZone_false (a : Nat) (h : 100 ≤ a ∧ a ≤ 156) : outsideDeadZone a = false := by
  unfold outsideDeadZone
  have h1 : ¬ a > 156 := by omega
  have h2 : ¬ a < 100 := by omega
  simp [h1, h2]

/-- C16. For every controller snapshot and every camera state: if all four stick axes
lie in the dead zone [100, 156] and neither L2 nor R2 is pressed, the camera after the
input step is the camera before it; and for each axis, as long as its sample lies in
the dead zone, the camera after the step does not depend on the sample. -/
theorem dead_zone_no_change (t : Trig) (s : InputState) (info : ControllerInfo) :
    ((100 ≤ info.lx ∧ info.lx ≤ 156) → (100 ≤ info.ly ∧ info.ly ≤ 156) →
      (100 ≤ info.rx ∧ info.rx ≤ 156) → (100 ≤ info.ry ∧ info.ry ≤ 156) →
      pressed info BUTTON_MASK_L2 = false → pressed info BUTTON_MASK_R2 = false →
      (inputStep t s info).camera = s.camera) ∧
    (∀ a : Nat, (100 ≤ info.lx ∧ info.lx ≤ 156) → (100 ≤ a ∧ a ≤ 156) →
      (inputStep t s { info with lx := a }).camera = (inputStep t s info).camera) ∧
    (∀ a : Nat, (100 ≤ info.ly ∧ info.ly ≤ 156) → (100 ≤ a ∧ a ≤ 156) →
      (inputStep t s { info with ly := a }).camera = (inputStep t s info).camera) ∧
    (∀ a : Nat, (100 ≤ info.rx ∧ info.rx ≤ 156) → (100 ≤ a ∧ a ≤ 156) →
      (inputStep t s { info with rx := a }).camera = (inputStep t s info).camera) ∧
    (∀ a : Nat, (100 ≤ info.ry ∧ info.ry ≤ 156) → (100 ≤ a ∧ a ≤ 156) →
      (inputStep t s { info with ry := a }).camera = (inputStep t s info).camera) := by
  refine ⟨?_, ?_, ?_, ?_, ?_⟩
  · intro hlx hly hrx hry hl2 hr2
    simp only [inputStep, moveCamera, hl2, hr2, outsideDeadZone_false _ hlx,
      outsideDeadZone_false _ hly, outsideDeadZone_false _ hrx, outsideDeadZone_false _ hry,
      Bool.false_eq_true, if_false, ite_self]
  · intro a h ha
    simp only [inputStep, moveCamera, pressed, outsideDeadZone_false _ h,
      outsideDeadZone_false _ ha, Bool.false_eq_true, if_false]
  · intro a h ha
    simp only [inputStep, moveCamera, pressed, outsideDeadZone_false _ h,
      outsideDeadZone_false _ ha, Bool.false_eq_true, if_false]
  · intro a h ha
    simp only [inputStep, moveCamera, pressed, outsideDeadZone_false _ h,
      outsideDeadZone_false _ ha, Bool.false_eq_true, if_false]
  · intro a h ha
    simp only [inputStep, moveCamera, pressed, outsideDeadZone_false _ h,
      outsideDeadZone_false _ ha, Bool.false_eq_true, if_false]

/-- Worked instance of C16: the sticks at rest, no button down, on the initial
camera. -/
theorem dead_zone_no_change_witness :
    (inputStep quarterTurnTrig initialInputState (atRest 0)).camera
      = initialInputState.camera :=
  (dead_zone_no_change quarterTurnTrig initialInputState (atRest 0)).1
    (by decide) (by decide) (by decide) (by decide) (by decide) (by decide)

/-! ## The input step: the two toggles -/

theorem toggle_held (down held flag : Bool) : (toggle down held flag).1 = down := by
  cases down <;> cases held <;> rfl

theorem toggle_flips (down held flag : Bool) :
    (toggle down held flag).2 ≠ flag ↔ (down = true ∧ held = false) := by
  cases down <;> cases held <;> cases flag <;> decide

theorem inputFrames_append (t : Trig) (s : InputState) (l : List (Option ControllerInfo))
    (c : Option ControllerInfo) :
    inputFrames t s (l ++ [c]) = inputFrame t (inputFrames t s l) c := by
  induction l generalizing s with
  | nil => rfl
  | cons a rest ih =>
    rw [List.cons_append, inputFrames, inputFrames, ih]

theorem inputFrames_held (t : Trig) (infos : List ControllerInfo) :
    (inputFrames t initialInputState (infos.map some)).trianglePressed
        = downInLast BUTTON_MASK_TRIANGLE infos ∧
      (inputFrames t initialInputState (infos.map some)).squarePressed
        = downInLast BUTTON_MASK_SQUARE infos := by
  induction infos using List.reverseRecOn with
  | nil => exact ⟨rfl, rfl⟩
  | append_singleton l a _ =>
    rw [List.map_append, List.map_singleton, inputFrames_append]
    have hlast : (l ++ [a]).getLast? = some a := by simp
    simp only [inputFrame, inputStep, toggle_held, downInLast, hlast, and_self]

theorem inputFrames_hold (t : Trig) (infos : List ControllerInfo) (s : InputState) :
    ((∀ info ∈ infos, pressed info BUTTON_MASK_TRIANGLE = true) → s.trianglePressed = true →
      (inputFrames t s (infos.map some)).showingHelp = s.showingHelp ∧
        (inputFrames t s (infos.map some)).trianglePressed = true) ∧
    ((∀ info ∈ infos, pressed info BUTTON_MASK_SQUARE = true) → s.squarePressed = true →
      (inputFrames t s (infos.map some)).renderTextured = s.renderTextured ∧
        (inputFrames t s (infos.map some)).squarePressed = true) := by
  induction infos generalizing s with
  | nil => exact ⟨fun _ h => ⟨rfl, h⟩, fun _ h => ⟨rfl, h⟩⟩
  | cons a rest ih =>
    constructor
    · intro hall hheld
      have ha := hall a (List.mem_cons_self _ _)
      have hs : (inputStep t s a).showingHelp = s.showingHelp ∧
          (inputStep t s a).trianglePressed = true := by
        simp only [inputStep, toggle, ha, hheld, if_true, Bool.not_true, Bool.false_eq_true,
          if_false, and_self]
      rw [List.map_cons, inputFrames]
      have := (ih (inputFrame t s (some a))).1
        (fun i hi => hall i (List.mem_cons_of_mem _ hi)) hs.2
      exact ⟨this.1.trans hs.1, this.2⟩
    · intro hall hheld
      have ha := hall a (List.mem_cons_self _ _)
      have hs : (inputStep t s a).renderTextured = s.renderTextured ∧
          (inputStep t s a).squarePressed = true := by
        simp only [inputStep, toggle, ha, hheld, if_true, Bool.not_true, Bool.false_eq_true,
          if_false, and_self]
      rw [List.map_cons, inputFrames]
      have := (ih (inputFrame t s (some a))).2
        (fun i hi => hall i (List.mem_cons_of_mem _ hi)) hs.2
      exact ⟨this.1.trans hs.1, this.2⟩

/-- C18. Over every run of frames in which a controller is read, from the start of
main: showingHelp flips in a frame if and only if Triangle is down in that frame and
was not down in the previous read frame, and renderTextured flips if and only if the
same holds for Square; a button held down over any number of consecutive frames,
from a state in which it is not held, flips its flag exactly once; and what happens
to showingHelp depends on the Triangle bit alone, what happens to renderTextured on
the Square bit alone. -/
theorem toggles_flip_on_press (t : Trig) :
    (∀ (infos : List ControllerInfo) (info : ControllerInfo),
      ((inputStep t (inputFrames t initialInputState (infos.map some)) info).showingHelp
          ≠ (inputFrames t initialInputState (infos.map some)).showingHelp
        ↔ (pressed info BUTTON_MASK_TRIANGLE = true ∧
            downInLast BUTTON_MASK_TRIANGLE infos = false)) ∧
      ((inputStep t (inputFrames t initialInputState (infos.map some)) info).renderTextured
          ≠ (inputFrames t initialInputState (infos.map some)).renderTextured
        ↔ (pressed info BUTTON_MASK_SQUARE = true ∧
            downInLast BUTTON_MASK_SQUARE infos = false))) ∧
    (∀ (s : InputState) (info : ControllerInfo) (infos : List ControllerInfo),
      (s.trianglePressed = false →
        (∀ i ∈ info :: infos, pressed i BUTTON_MASK_TRIANGLE = true) →
        (inputFrames t s ((info :: infos).map some)).showingHelp = !s.showingHelp) ∧
      (s.squarePressed = false →
        (∀ i ∈ info :: infos, pressed i BUTTON_MASK_SQUARE = true) →
        (inputFrames t s ((info :: infos).map some)).renderTextured = !s.renderTextured)) ∧
    (∀ (s s' : InputState) (info info' : ControllerInfo),
      (s.trianglePressed = s'.trianglePressed → s.showingHelp = s'.showingHelp →
        pressed info BUTTON_MASK_TRIANGLE = pressed info' BUTTON_MASK_TRIANGLE →
        (inputStep t s info).showingHelp = (inputStep t s' info').showingHelp ∧
          (inputStep t s info).trianglePressed = (inputStep t s' info').trianglePressed) ∧
      (s.squarePressed = s'.squarePressed → s.renderTextured = s'.renderTextured →
        pressed info BUTTON_MASK_SQUARE = pressed info' BUTTON_MASK_SQUARE →
        (inputStep t s info).renderTextured = (inputStep t s' info').renderTextured ∧
          (inputStep t s info).squarePressed = (inputStep t s' info').squarePressed)) := by
  refine ⟨?_, ?_, ?_⟩
  · intro infos info
    obtain ⟨hT, hS⟩ := inputFrames_held t infos
    constructor
    · rw [← hT]
      exact toggle_flips _ _ _
    · rw [← hS]
      exact toggle_flips _ _ _
  · intro s info infos
    constructor
    · intro hheld hall
      have ha := hall info (List.mem_cons_self _ _)
      have hs : (inputStep t s info).showingHelp = (!s.showingHelp) ∧
          (inputStep t s info).trianglePressed = true := by
        simp only [inputStep, toggle, ha, hheld, if_true, Bool.not_false, and_self]
      rw [List.map_cons, inputFrames]
      have := (inputFrames_hold t infos (inputFrame t s (some info))).1
        (fun i hi => hall i (List.mem_cons_of_mem _ hi)) hs.2
      exact this.1.trans hs.1
    · intro hheld hall
      have ha := hall info (List.mem_cons_self _ _)
      have hs : (inputStep t s info).renderTextured = (!s.renderTextured) ∧
          (inputStep t s info).squarePressed = true := by
        simp only [inputStep, toggle, ha, hheld, if_true, Bool.not_false, and_self]
      rw [List.map_cons, inputFrames]
      have := (inputFrames_hold t infos (inputFrame t s (some info))).2
        (fun i hi => hall i (List.mem_cons_of_mem _ hi)) hs.2
      exact this.1.trans hs.1
  · intro s s' info info'
    constructor
    · intro h1 h2 h3
      simp only [inputStep, h1, h2, h3, and_self]
    · intro h1 h2 h3
      simp only [inputStep, h1, h2, h3, and_self]

/-- Worked instance of C18: Triangle held over three frames on the initial state
hides the help once and leaves the texture flag alone. -/
theorem toggles_flip_on_press_witness :
    (inputFrames quarterTurnTrig initialInputState
        ([atRest BUTTON_MASK_TRIANGLE, atRest BUTTON_MASK_TRIANGLE,
          atRest BUTTON_MASK_TRIANGLE].map some)).showingHelp
      = !initialInputState.showingHelp :=
  ((toggles_flip_on_press quarterTurnTrig).2.1 initialInputState
    (atRest BUTTON_MASK_TRIANGLE)
    [atRest BUTTON_MASK_TRIANGLE, atRest BUTTON_MASK_TRIANGLE]).1 rfl (by decide)

/-! ## The input step: pitch -/

theorem sar6_eq (x : Int) : sar6 x = x / 64 := by
  unfold sar6
  rw [← Int.shiftRight_eq, Int.shiftRight_eq_div_pow]
  norm_num

theorem moveCamera_pitch_eq (t : Trig) (camera : Camera) (info : ControllerInfo) :
    (moveCamera t camera info).pitch =
      if info.type = 0x07 ∧ outsideDeadZone info.ry = true then
        (let q := int16 (camera.pitch + sar6 ((info.ry : Int) - 127) * CAMERA_SENSITIVITY)
         let q1 := if int16 q > 1024 then 1024 else q
         if int16 q1 < -1024 then -1024 else q1)
      else camera.pitch := by
  unfold moveCamera
  simp only [apply_ite Camera.pitch, ite_self]
  by_cases h7 : info.type = 0x07 <;> by_cases hry : outsideDeadZone info.ry = true <;>
    simp only [h7, hry, if_true, if_false, true_and, false_and, and_true, and_false,
      Bool.false_eq_true, ite_self]

theorem moveCamera_pitch (t : Trig) (camera : Camera) (info : ControllerInfo)
    (hp : -1024 ≤ camera.pitch ∧ camera.pitch ≤ 1024) (hry : info.ry < 65536) :
    -1024 ≤ (moveCamera t camera info).pitch ∧ (moveCamera t camera info).pitch ≤ 1024 := by
  have hd : -2 ≤ sar6 ((info.ry : Int) - 127) ∧ sar6 ((info.ry : Int) - 127) ≤ 1022 := by
    rw [sar6_eq]
    omega
  rw [moveCamera_pitch_eq]
  simp only [CAMERA_SENSITIVITY]
  generalize sar6 ((info.ry : Int) - 127) = d at hd
  have hfit : int16 (camera.pitch + d * 10) = camera.pitch + d * 10 :=
    int16_of_fits _ (by omega) (by omega)
  have h1024 : int16 1024 = 1024 := by decide
  rw [hfit, hfit]
  split
  · split
    · rw [h1024]
      split <;> omega
    · rw [hfit]
      split <;> omega
  · exact hp

theorem inputFrame_pitch (t : Trig) (s : InputState) (c : Option ControllerInfo)
    (hp : -1024 ≤ s.camera.pitch ∧ s.camera.pitch ≤ 1024)
    (hry : ∀ info, c = some info → info.ry < 65536) :
    -1024 ≤ (inputFrame t s c).camera.pitch ∧ (inputFrame t s c).camera.pitch ≤ 1024 := by
  cases c with
  | none => exact hp
  | some info => exact moveCamera_pitch t s.camera info hp (hry info rfl)

theorem inputFrames_pitch (t : Trig) (inputs : List (Option ControllerInfo)) (s : InputState)
    (hp : -1024 ≤ s.camera.pitch ∧ s.camera.pitch ≤ 1024)
    (hry : ∀ info, some info ∈ inputs → info.ry < 65536) :
    -1024 ≤ (inputFrames t s inputs).camera.pitch ∧
      (inputFrames t s inputs).camera.pitch ≤ 1024 := by
  induction inputs generalizing s with
  | nil => exact hp
  | cons c rest ih =>
    rw [inputFrames]
    apply ih
    · exact inputFrame_pitch t s c hp (fun info hc => hry info (by rw [hc]; simp))
    · intro info hi
      exact hry info (List.mem_cons_of_mem _ hi)

/-- C19. Starting from the initial camera (pitch 0), after the input step of every
frame and for every run of controller snapshots (the field ry being a uint16_t),
the camera pitch lies in [-1024, 1024]; and from a pitch in this range the sum that
the step stores into the 16-bit pitch fits 16 bits, so the pitch never wraps. -/
theorem pitch_within_quarter_turn (t : Trig) (inputs : List (Option ControllerInfo))
    (hry : ∀ info, some info ∈ inputs → info.ry < 65536) :
    (-1024 ≤ (inputFrames t initialInputState inputs).camera.pitch ∧
      (inputFrames t initialInputState inputs).camera.pitch ≤ 1024) ∧
    (∀ (pitch : Int) (ry : Nat), -1024 ≤ pitch → pitch ≤ 1024 → ry < 65536 →
      Fits16 (pitch + sar6 ((ry : Int) - 127) * CAMERA_SENSITIVITY)) := by
  refine ⟨inputFrames_pitch t inputs initialInputState (by decide) hry, ?_⟩
  intro pitch ry h1 h2 h3
  unfold Fits16 CAMERA_SENSITIVITY
  rw [sar6_eq]
  omega

/-- Worked instance of C19: two frames with the right stick pushed fully down, then a
frame without a controller. -/
theorem pitch_within_quarter_turn_witness :
    -1024 ≤ (inputFrames quarterTurnTrig initialInputState
        [some ⟨0x07, 0, 127, 255, 127, 127⟩, some ⟨0x07, 0, 127, 255, 127, 127⟩,
          none]).camera.pitch ∧
      (inputFrames quarterTurnTrig initialInputState
        [some ⟨0x07, 0, 127, 255, 127, 127⟩, some ⟨0x07, 0, 127, 255, 127, 127⟩,
          none]).camera.pitch ≤ 1024 :=
  (pitch_within_quarter_turn quarterTurnTrig
    [some ⟨0x07, 0, 127, 255, 127, 127⟩, some ⟨0x07, 0, 127, 255, 127, 127⟩, none]
    (by
      intro info h
      simp at h
      subst h
      decide)).1

/-! ## Display offset and drawing origin -/

theorem framesFrom_initial (k : Nat) :
    framesFrom initialFrameState k
      = ⟨decide (k % 2 = 1), 0, if k % 2 = 1 then SCREEN_HEIGHT else 0⟩ := by
  induction k with
  | zero => rfl
  | succ n ih =>
    rw [framesFrom, ih]
    rcases Nat.mod_two_eq_zero_or_one n with h | h
    · have h' : (n + 1) % 2 = 1 := by omega
      simp [frameStep, h, h']
    · have h' : (n + 1) % 2 = 0 := by omega
      simp [frameStep, h, h']

theorem frameEvents_eq (k : Nat) :
    frameEvents k =
      [FrameEvent.reset (k % 2),
       FrameEvent.build (k % 2) 0 (if k % 2 = 1 then SCREEN_HEIGHT else 0),
       FrameEvent.display 0 (if k % 2 = 1 then 0 else SCREEN_HEIGHT),
       FrameEvent.submit (k % 2)] := by
  unfold frameEvents
  rw [framesFrom_initial]
  rcases Nat.mod_two_eq_zero_or_one k with h | h <;> simp [frameStep, h]

/-- C15, as the claim words it, fails in the very first frame: the packets of frame 0
are built with the origin (0, 0), and the offset written to the display hardware
before the hand-off is (0, 256). -/
theorem display_offset_is_other_buffer :
    buildOrigin 0 = [(0, 0)] ∧ displayOffset 0 = [(0, 256)] ∧
      displayOffset 0 ≠ buildOrigin 0 := by
  decide

/-- C15 (amended). In every frame k, the visible-buffer offset written to the display
hardware just before the hand-off points at the other framebuffer than the one the
chain submitted in the same frame draws into: the packets are built with the origin
(0, 0) in even frames and (0, 256) in odd frames, the offset displayed is (0, 256) in
even frames and (0, 0) in odd frames; it is the origin the chain of the frame before
was built with, and the one the chain of the next frame will be built with. -/
theorem display_offset_alternates (k : Nat) :
    buildOrigin k = [(0, if k % 2 = 1 then SCREEN_HEIGHT else 0)] ∧
    displayOffset k = [(0, if k % 2 = 1 then 0 else SCREEN_HEIGHT)] ∧
    displayOffset k ≠ buildOrigin k ∧
    displayOffset (k + 1) = buildOrigin k ∧
    buildOrigin (k + 1) = displayOffset k := by
  have hb : ∀ j, buildOrigin j = [(0, if j % 2 = 1 then SCREEN_HEIGHT else 0)] := by
    intro j
    unfold buildOrigin
    rw [frameEvents_eq]
    rfl
  have hd : ∀ j, displayOffset j = [(0, if j % 2 = 1 then 0 else SCREEN_HEIGHT)] := by
    intro j
    unfold displayOffset
    rw [frameEvents_eq]
    rfl
  refine ⟨hb k, hd k, ?_, ?_, ?_⟩
  · rw [hb, hd]
    rcases Nat.mod_two_eq_zero_or_one k with h | h <;> simp only [h] <;> decide
  · rw [hb, hd]
    rcases Nat.mod_two_eq_zero_or_one k with h | h
    · have h' : (k + 1) % 2 = 1 := by omega
      simp [h, h']
    · have h' : (k + 1) % 2 = 0 := by omega
      simp [h, h']
  · rw [hb, hd]
    rcases Nat.mod_two_eq_zero_or_one k with h | h
    · have h' : (k + 1) % 2 = 1 := by omega
      simp [h, h']
    · have h' : (k + 1) % 2 = 0 := by omega
      simp [h, h']

/-! ## Building the chain of a frame -/

theorem storeWords_below (ws : List Nat) (d : Int → Nat) (ptr i : Int) (h : i < ptr) :
    storeWords d ptr ws i = d i := by
  induction ws generalizing d ptr with
  | nil => rfl
  | cons w rest ih =>
    rw [storeWords, ih _ _ (by omega)]
    have hne : i ≠ ptr := by omega
    simp [storeData, hne]

theorem Linked_agree (addr : Nat) (d d' : Int → Nat) (e : Nat) (ps : List (Nat × Nat))
    (a : Nat) (h : Linked addr d a ps e) (hd : ∀ p ∈ ps, d' (p.1 : Int) = d (p.1 : Int)) :
    Linked addr d' a ps e := by
  induction ps generalizing a with
  | nil => exact h
  | cons p ps ih =>
    obtain ⟨h1, h2, h3, h4⟩ := h
    have hp := hd p (List.mem_cons_self _ _)
    refine ⟨h1, h2, ?_, ?_⟩
    · rw [hp]; exact h3
    · rw [hp]
      exact ih _ h4 (fun q hq => hd q (List.mem_cons_of_mem _ hq))

theorem BucketInv_follow (chain : DMAChain) (b : Nat) (ps : List (Nat × Nat)) (e : Nat)
    (h : BucketInv chain b ps e) :
    followLinks chain CHAIN_BUFFER_SIZE (tagAddr (chain.orderingTable b)) = (ps, e) := by
  obtain ⟨_, _, hcap, hl, _, hlen⟩ := h
  apply followLinks_of_Linked chain _ _ _ hl
  omega

theorem BucketInv_reset (chain : DMAChain) (b : Nat) (halign : chain.addr % 4 = 0)
    (hb : b < ORDERING_TABLE_SIZE) :
    BucketInv (resetChain chain) b [] (tagAddr ((resetChain chain).orderingTable b)) := by
  have hleave := resetChain_link_leaves chain b hb
  rw [← resetChain_addr chain] at hleave halign
  have hl := Linked_nil (resetChain chain).addr (resetChain chain).data _ hleave
  refine ⟨halign, ?_, ?_, hl, by simp, ?_⟩
  · rw [resetChain_nextPacket]
  · rw [resetChain_nextPacket]; decide
  · rw [resetChain_nextPacket]; simp

/-- A packet allocated and then filled with command words keeps the invariant of
every bucket, the new packet being put in front of the bucket it is allocated to. -/
theorem BucketInv_filled (chain : DMAChain) (z n : Nat) (res : DMAChain × Int)
    (words : List Nat) (chain' : DMAChain) (b e : Nat) (ps : List (Nat × Nat))
    (h : allocatePacket chain (z : Int) (n : Int) = some res)
    (ha : chain'.addr = res.1.addr) (ht : chain'.orderingTable = res.1.orderingTable)
    (hn : chain'.nextPacket = res.1.nextPacket)
    (hd : chain'.data = storeWords res.1.data res.2 words)
    (hinv : BucketInv chain b ps e) :
    BucketInv chain' b
        ((if z = b then [(chain.nextPacket.toNat, n % 256)] else []) ++ ps) e ∧
      chain'.nextPacket = chain.nextPacket + ((n : Int) + 1) := by
  obtain ⟨halign, h0, _, hl, hb, hlen⟩ := hinv
  obtain ⟨_, _, hcap, _, hcur, _, _, hret⟩ := allocatePacket_eq_some chain z n res h
  obtain ⟨k0, _, ka, kl, kb⟩ :=
    allocatePacket_keeps_chain chain z n res b e ps halign h h0 hl hb
  have hagree : ∀ p ∈ (if z = b then [(chain.nextPacket.toNat, n % 256)] else []) ++ ps,
      storeWords res.1.data res.2 words (p.1 : Int) = res.1.data (p.1 : Int) := by
    intro p hp
    apply storeWords_below
    rw [hret]
    by_cases hzb : z = b
    · simp only [hzb, if_true, List.singleton_append, List.mem_cons] at hp
      rcases hp with hp | hp
      · subst hp
        simp only
        omega
      · have := hb p hp
        omega
    · simp only [hzb, if_false, List.nil_append] at hp
      have := hb p hp
      omega
  refine ⟨⟨by rw [ha, ka]; exact halign, by rw [hn]; exact k0, by rw [hn, hcur]; exact hcap,
    ?_, by rw [hn]; exact kb, ?_⟩, by rw [hn, hcur]⟩
  · rw [ha, hd, ht]
    exact Linked_agree _ _ _ _ _ _ kl hagree
  · rw [hn, hcur, List.length_append]
    by_cases hzb : z = b
    · simp only [hzb, if_true, List.length_singleton]
      push_cast
      omega
    · simp only [hzb, if_false, List.length_nil]
      push_cast
      omega

theorem BucketInv_allocateAll (calls : List (Nat × Nat)) (chain chain' : DMAChain)
    (b e : Nat) (ps : List (Nat × Nat)) (h : allocateAll chain calls = some chain')
    (hinv : BucketInv chain b ps e) :
    BucketInv chain' b ((packetsOf b chain.nextPacket.toNat calls).reverse ++ ps) e := by
  obtain ⟨halign, h0, hcap, hl, hb, hlen⟩ := hinv
  obtain ⟨ka, k0, kl, kb⟩ := allocateAll_keeps_chain calls chain chain' b e ps halign h h0 hl hb
  obtain ⟨c1, c2⟩ := allocateAll_cursor calls chain chain' h hcap
  have hpl := packetsOf_length b calls chain.nextPacket.toNat
  refine ⟨by rw [ka]; exact halign, k0, c2, kl, kb, ?_⟩
  rw [List.length_append, List.length_reverse]
  push_cast
  omega

theorem BucketInv_emitFace (cmds : GPUCommands) (tex : TextureInfo) (renderTextured : Bool)
    (i : Nat) (uvs : FaceUVs) (zIndex : Int) (chain : DMAChain) (g : GTE) (polyCount : Int)
    (r : RenderState × FaceOutcome) (b e : Nat) (ps : List (Nat × Nat)) (hz0 : 0 ≤ zIndex)
    (h : emitFace cmds tex renderTextured i uvs zIndex chain g polyCount = some r)
    (hinv : BucketInv chain b ps e) :
    BucketInv r.1.chain b
        ((if zIndex.toNat = b then
            [(chain.nextPacket.toNat, if renderTextured then 7 else 4)] else []) ++ ps) e ∧
      r.1.chain.nextPacket = chain.nextPacket + (if renderTextured then 8 else 5) := by
  have hzz : zIndex = ((zIndex.toNat : Nat) : Int) := (Int.toNat_of_nonneg hz0).symm
  unfold emitFace at h
  cases renderTextured with
  | true =>
    simp only [if_true] at h ⊢
    cases ha : allocatePacket chain zIndex 7 with
    | none => rw [ha] at h; simp at h
    | some res =>
      rw [ha, Option.map_some'] at h
      injection h with h
      subst h
      rw [hzz] at ha
      have := BucketInv_filled chain zIndex.toNat 7 res
        [0x808080 ||| cmds.gp0_shadedTriangle false true false,
          sxyWord g.sx0 g.sy0, cmds.gp0_uv (tex.u + uvs.u0) (tex.v + uvs.v0) tex.clut,
          sxyWord g.sx1 g.sy1, cmds.gp0_uv (tex.u + uvs.u1) (tex.v + uvs.v1) tex.page,
          sxyWord g.sx2 g.sy2, cmds.gp0_uv (tex.u + uvs.u2) (tex.v + uvs.v2) 0]
        { res.1 with
          data := storeWords res.1.data res.2
            [0x808080 ||| cmds.gp0_shadedTriangle false true false,
              sxyWord g.sx0 g.sy0, cmds.gp0_uv (tex.u + uvs.u0) (tex.v + uvs.v0) tex.clut,
              sxyWord g.sx1 g.sy1, cmds.gp0_uv (tex.u + uvs.u1) (tex.v + uvs.v1) tex.page,
              sxyWord g.sx2 g.sy2, cmds.gp0_uv (tex.u + uvs.u2) (tex.v + uvs.v2) 0] }
        b e ps ha rfl rfl rfl rfl hinv
      exact ⟨this.1, by rw [this.2]; norm_num⟩
  | false =>
    simp only [Bool.false_eq_true, if_false] at h ⊢
    cases ha : allocatePacket chain zIndex 4 with
    | none => rw [ha] at h; simp at h
    | some res =>
      rw [ha, Option.map_some'] at h
      injection h with h
      subst h
      rw [hzz] at ha
      have := BucketInv_filled chain zIndex.toNat 4 res
        [colors.getD (i % 6) 0 ||| cmds.gp0_shadedTriangle false false false,
          sxyWord g.sx0 g.sy0, sxyWord g.sx1 g.sy1, sxyWord g.sx2 g.sy2]
        { res.1 with
          data := storeWords res.1.data res.2
            [colors.getD (i % 6) 0 ||| cmds.gp0_shadedTriangle false false false,
              sxyWord g.sx0 g.sy0, sxyWord g.sx1 g.sy1, sxyWord g.sx2 g.sy2] }
        b e ps ha rfl rfl rfl rfl hinv
      exact ⟨this.1, by rw [this.2]; norm_num⟩

/-- The ways out of the loop body for one face: one of the three culling tests, the
chain untouched, or the emission into a bucket within the table. -/
theorem renderFace_cases (cmds : GPUCommands) (tex : TextureInfo)
    (renderTextured : Bool) (i : Nat) (uvs : FaceUVs) (p : Projected) (st : RenderState) :
    (∃ g o, o ≠ FaceOutcome.drawn ∧
        renderFace cmds tex renderTextured i uvs p st = some ({ st with gte := g }, o)) ∨
      (∃ zIndex : Int, 0 ≤ zIndex ∧ zIndex < (ORDERING_TABLE_SIZE : Int) ∧
        zIndex = bucketIndex st.gte.zsf3 p ∧
        (bucketIndex st.gte.zsf3 p ≤ 0 → zIndex = 0) ∧
        renderFace cmds tex renderTextured i uvs p st
          = emitFace cmds tex renderTextured i uvs zIndex st.chain
              (avsz3 (nclip (rtpt st.gte p))) st.polyCount) := by
  have hnn := bucketIndex_nonneg st.gte.zsf3 p
  by_cases hback : signedArea p ≤ 0
  · left
    exact ⟨_, FaceOutcome.backface, by decide,
      renderFace_backface cmds tex renderTextured i uvs p st hback⟩
  · have hfront : 0 < signedArea p := by omega
    by_cases hfar : (ORDERING_TABLE_SIZE : Int) ≤ bucketIndex st.gte.zsf3 p
    · left
      refine ⟨avsz3 (nclip (rtpt st.gte p)), FaceOutcome.tooFar, by decide, ?_⟩
      unfold renderFace
      simp only [nclip_rtpt_mac0, hback, if_false, avsz3_otz, ge_iff_le, hfar, if_true]
    · by_cases hnear : bucketIndex st.gte.zsf3 p ≤ 0
      · rw [renderFace_near cmds tex renderTextured i uvs p st hfront hnear]
        by_cases hsum : st.gte.sz3 + p.depth0 + p.depth1 = 0
        · left
          exact ⟨avsz3 (nclip (rtpt st.gte p)), FaceOutcome.behind, by decide,
            by simp only [hsum, if_true]⟩
        · right
          exact ⟨_, hnn, by omega, rfl, fun _ => by omega, by simp only [hsum, if_false]⟩
      · right
        refine ⟨_, hnn, by omega, rfl, fun hh => absurd hh hnear, ?_⟩
        unfold renderFace
        simp only [nclip_rtpt_mac0, hback, if_false, avsz3_otz, ge_iff_le, hfar, hnear]

theorem BucketInv_renderFace (cmds : GPUCommands) (tex : TextureInfo) (renderTextured : Bool)
    (i : Nat) (uvs : FaceUVs) (p : Projected) (st : RenderState)
    (r : RenderState × FaceOutcome) (b e : Nat) (ps : List (Nat × Nat))
    (h : renderFace cmds tex renderTextured i uvs p st = some r)
    (hinv : BucketInv st.chain b ps e) :
    ∃ ps', BucketInv r.1.chain b ps' e := by
  rcases renderFace_cases cmds tex renderTextured i uvs p st with
    ⟨g, o, _, hsome⟩ | ⟨z, hz0, _, _, _, hemit⟩
  · rw [hsome] at h
    injection h with h
    subst h
    exact ⟨ps, hinv⟩
  · rw [hemit] at h
    exact ⟨_, (BucketInv_emitFace cmds tex renderTextured i uvs z st.chain _ st.polyCount r
      b e ps hz0 h hinv).1⟩

theorem BucketInv_renderFaces (cmds : GPUCommands) (tex : TextureInfo) (renderTextured : Bool)
    (faces : List (FaceUVs × Projected)) (i : Nat) (st st' : RenderState) (b e : Nat)
    (ps : List (Nat × Nat))
    (h : renderFaces cmds tex renderTextured i faces st = some st')
    (hinv : BucketInv st.chain b ps e) :
    ∃ ps', BucketInv st'.chain b ps' e := by
  induction faces generalizing i st ps with
  | nil =>
    rw [renderFaces] at h
    injection h with h
    subst h
    exact ⟨ps, hinv⟩
  | cons face rest ih =>
    rw [renderFaces] at h
    cases hr : renderFace cmds tex renderTextured i face.1 face.2 st with
    | none => rw [hr] at h; simp at h
    | some r =>
      rw [hr, Option.some_bind] at h
      obtain ⟨ps1, hinv1⟩ :=
        BucketInv_renderFace cmds tex renderTextured i face.1 face.2 st r b e ps hr hinv
      exact ih (i + 1) r.1 ps1 h hinv1

theorem BucketInv_trailing (fc : FrameCommands) (chain chain' : DMAChain)
    (bufferX bufferY : Int) (b e : Nat) (ps : List (Nat × Nat))
    (h : trailingPackets fc chain bufferX bufferY = some chain')
    (hinv : BucketInv chain b ps e) :
    BucketInv chain' b
        ((if b = ORDERING_TABLE_SIZE - 1 then
            [(chain.nextPacket.toNat + 4, 4), (chain.nextPacket.toNat, 3)] else []) ++ ps) e ∧
      chain'.nextPacket = chain.nextPacket + 4 + 5 := by
  have hz : ((ORDERING_TABLE_SIZE : Int) - 1) = ((ORDERING_TABLE_SIZE - 1 : Nat) : Int) := by
    decide
  unfold trailingPackets at h
  rw [hz] at h
  cases h1 : allocatePacket chain ((ORDERING_TABLE_SIZE - 1 : Nat) : Int) 3 with
  | none => rw [h1] at h; simp at h
  | some r1 =>
    rw [h1, Option.some_bind] at h
    have i1 := BucketInv_filled chain (ORDERING_TABLE_SIZE - 1) 3 r1
      [fc.gp0_rgb 64 64 64 ||| fc.gp0_vramFill, fc.gp0_xy bufferX bufferY,
        fc.gp0_xy SCREEN_WIDTH SCREEN_HEIGHT]
      { r1.1 with
        data := storeWords r1.1.data r1.2
          [fc.gp0_rgb 64 64 64 ||| fc.gp0_vramFill, fc.gp0_xy bufferX bufferY,
            fc.gp0_xy SCREEN_WIDTH SCREEN_HEIGHT] }
      b e ps h1 rfl rfl rfl rfl hinv
    simp only at h
    cases h2 : allocatePacket
        { r1.1 with
          data := storeWords r1.1.data r1.2
            [fc.gp0_rgb 64 64 64 ||| fc.gp0_vramFill, fc.gp0_xy bufferX bufferY,
              fc.gp0_xy SCREEN_WIDTH SCREEN_HEIGHT] }
        ((ORDERING_TABLE_SIZE - 1 : Nat) : Int) 4 with
    | none => rw [h2] at h; simp at h
    | some r2 =>
      rw [h2, Option.map_some'] at h
      injection h with h
      subst h
      have i2 := BucketInv_filled _ (ORDERING_TABLE_SIZE - 1) 4 r2
        [fc.gp0_texpage 0 true false, fc.gp0_fbOffset1 bufferX bufferY,
          fc.gp0_fbOffset2 (bufferX + SCREEN_WIDTH - 1) (bufferY + SCREEN_HEIGHT - 2),
          fc.gp0_fbOrigin bufferX bufferY]
        { r2.1 with
          data := storeWords r2.1.data r2.2
            [fc.gp0_texpage 0 true false, fc.gp0_fbOffset1 bufferX bufferY,
              fc.gp0_fbOffset2 (bufferX + SCREEN_WIDTH - 1) (bufferY + SCREEN_HEIGHT - 2),
              fc.gp0_fbOrigin bufferX bufferY] }
        b e _ h2 rfl rfl rfl rfl i1.1
      have hcur : ({ r1.1 with
          data := storeWords r1.1.data r1.2
            [fc.gp0_rgb 64 64 64 ||| fc.gp0_vramFill, fc.gp0_xy bufferX bufferY,
              fc.gp0_xy SCREEN_WIDTH SCREEN_HEIGHT] } : DMAChain).nextPacket.toNat
          = chain.nextPacket.toNat + 4 := by
        have h0 := hinv.2.1
        rw [i1.2]
        omega
      refine ⟨?_, ?_⟩
      · have := i2.1
        rw [hcur] at this
        by_cases hb : ORDERING_TABLE_SIZE - 1 = b
        · subst hb
          simpa using this
        · have hb' : ¬ b = ORDERING_TABLE_SIZE - 1 := fun hh => hb hh.symm
          simpa [hb, hb'] using this
      · rw [i2.2, i1.2]
        push_cast
        ring

theorem BucketInv_renderAndOverlay (t : Trig) (cmds : GPUCommands) (tex : TextureInfo)
    (renderTextured showingHelp : Bool) (camera : Camera)
    (faces : List (FaceUVs × Projected)) (overlay : List (Nat × Nat))
    (chain : DMAChain) (g : GTE) (mid : RenderState) (b : Nat)
    (halign : chain.addr % 4 = 0) (hb : b < ORDERING_TABLE_SIZE)
    (h : renderAndOverlay t cmds tex renderTextured showingHelp camera faces overlay chain g
      = some mid) :
    ∃ ps, BucketInv mid.chain b ps (tagAddr ((resetChain chain).orderingTable b)) := by
  unfold renderAndOverlay at h
  simp only at h
  cases hr : renderFaces cmds tex renderTextured 0 faces
      { chain := resetChain chain, gte := cameraTranslation (cameraRotation t g camera) camera,
        polyCount := 0 } with
  | none => rw [hr] at h; simp at h
  | some st1 =>
    rw [hr, Option.some_bind] at h
    obtain ⟨ps1, hinv1⟩ := BucketInv_renderFaces cmds tex renderTextured faces 0 _ st1 b _ []
      hr (BucketInv_reset chain b halign hb)
    cases showingHelp with
    | false =>
      simp only [Bool.false_eq_true, if_false] at h
      injection h with h
      subst h
      exact ⟨ps1, hinv1⟩
    | true =>
      simp only [if_true] at h
      cases hp : printString st1.chain overlay with
      | none => rw [hp] at h; simp at h
      | some c =>
        rw [hp, Option.map_some'] at h
        injection h with h
        subst h
        exact ⟨_, BucketInv_allocateAll overlay st1.chain c b _ ps1 hp hinv1⟩

/-- C13. In every frame whose chain is built to the end, the chain handed off is the
chain left by the render pass and the overlay plus exactly two packets on top of it,
both in bucket ORDERING_TABLE_SIZE - 1: the 3-word background fill at the old cursor,
then the 4-word attribute packet four words further, the cursor ending five words
after that. At the hand-off the head of the farthest bucket is the attribute packet,
its header links to the fill packet, and the traversal from the farthest bucket
visits these two packets first and only then what the bucket held before them. -/
theorem trailing_packets_last (t : Trig) (cmds : GPUCommands) (fc : FrameCommands)
    (tex : TextureInfo) (renderTextured showingHelp : Bool) (camera : Camera)
    (faces : List (FaceUVs × Projected)) (overlay : List (Nat × Nat))
    (bufferX bufferY : Int) (chain : DMAChain) (g : GTE) (st : RenderState)
    (halign : chain.addr % 4 = 0)
    (h : buildFrame t cmds fc tex renderTextured showingHelp camera faces overlay
      bufferX bufferY chain g = some st) :
    ∃ mid : RenderState,
      renderAndOverlay t cmds tex renderTextured showingHelp camera faces overlay chain g
        = some mid ∧
      trailingPackets fc mid.chain bufferX bufferY = some st.chain ∧
      0 ≤ mid.chain.nextPacket ∧
      st.chain.nextPacket = mid.chain.nextPacket + 4 + 5 ∧
      tagAddr (st.chain.orderingTable (ORDERING_TABLE_SIZE - 1))
        = (st.chain.addr + 4 * (mid.chain.nextPacket.toNat + 4)) % 2 ^ 24 ∧
      tagLength (st.chain.data ((mid.chain.nextPacket.toNat + 4 : Nat) : Int)) = 4 ∧
      tagAddr (st.chain.data ((mid.chain.nextPacket.toNat + 4 : Nat) : Int))
        = (st.chain.addr + 4 * mid.chain.nextPacket.toNat) % 2 ^ 24 ∧
      tagLength (st.chain.data ((mid.chain.nextPacket.toNat : Nat) : Int)) = 3 ∧
      followLinks st.chain CHAIN_BUFFER_SIZE
          (tagAddr (st.chain.orderingTable (ORDERING_TABLE_SIZE - 1)))
        = ((mid.chain.nextPacket.toNat + 4, 4) :: (mid.chain.nextPacket.toNat, 3) ::
            (followLinks mid.chain CHAIN_BUFFER_SIZE
              (tagAddr (mid.chain.orderingTable (ORDERING_TABLE_SIZE - 1)))).1,
           (followLinks mid.chain CHAIN_BUFFER_SIZE
              (tagAddr (mid.chain.orderingTable (ORDERING_TABLE_SIZE - 1)))).2) := by
  unfold buildFrame at h
  cases hm : renderAndOverlay t cmds tex renderTextured showingHelp camera faces overlay
      chain g with
  | none => rw [hm] at h; simp at h
  | some mid =>
    rw [hm, Option.some_bind] at h
    cases ht : trailingPackets fc mid.chain bufferX bufferY with
    | none => rw [ht] at h; simp at h
    | some c =>
      rw [ht, Option.map_some'] at h
      injection h with h
      subst h
      obtain ⟨ps, hinv⟩ := BucketInv_renderAndOverlay t cmds tex renderTextured showingHelp
        camera faces overlay chain g mid (ORDERING_TABLE_SIZE - 1) halign (by decide) hm
      obtain ⟨hinv', hcur⟩ := BucketInv_trailing fc mid.chain c bufferX bufferY
        (ORDERING_TABLE_SIZE - 1) _ ps ht hinv
      simp only [if_true, List.cons_append, List.nil_append] at hinv'
      have hf := BucketInv_follow _ _ _ _ hinv'
      have hfm := BucketInv_follow _ _ _ _ hinv
      obtain ⟨_, _, _, hl, _, _⟩ := hinv'
      obtain ⟨a1, l1⟩ := Linked_head _ _ _ _ _ _ hl
      obtain ⟨a2, _⟩ := Linked_head _ _ _ _ _ _ l1
      refine ⟨mid, rfl, ht, hinv.2.1, hcur, a1, hl.2.2.1, a2, l1.2.2.1, ?_⟩
      rw [hfm]
      exact hf

/-- Worked instance of C13: one face in bucket 10 and an overlay packet of one word in
bucket 0 leave the cursor at word 7; the fill packet is then at word 7 and the
attribute packet at word 11, and the walk from bucket 719 starts with these two. -/
theorem trailing_packets_last_witness :
    ∃ st, buildFrame quarterTurnTrig exampleCommands exampleFrameCommands exampleTexture
        false true initialInputState.camera [triangleAtTen] [(0, 1)] 0 0 exampleChain
        (setupGTE identityGTE SCREEN_WIDTH SCREEN_HEIGHT) = some st ∧
      (followLinks st.chain CHAIN_BUFFER_SIZE
          (tagAddr (st.chain.orderingTable (ORDERING_TABLE_SIZE - 1)))).1.take 2
        = [(11, 4), (7, 3)] := by
  have hs : buildFrame quarterTurnTrig exampleCommands exampleFrameCommands exampleTexture
      false true initialInputState.camera [triangleAtTen] [(0, 1)] 0 0 exampleChain
      (setupGTE identityGTE SCREEN_WIDTH SCREEN_HEIGHT)
      = some ((buildFrame quarterTurnTrig exampleCommands exampleFrameCommands exampleTexture
          false true initialInputState.camera [triangleAtTen] [(0, 1)] 0 0 exampleChain
          (setupGTE identityGTE SCREEN_WIDTH SCREEN_HEIGHT)).get (by decide)) :=
    (Option.some_get _).symm
  obtain ⟨mid, hm, _, _, _, _, _, _, _, hf⟩ :=
    trailing_packets_last quarterTurnTrig exampleCommands exampleFrameCommands exampleTexture
      false true initialInputState.camera [triangleAtTen] [(0, 1)] 0 0 exampleChain
      (setupGTE identityGTE SCREEN_WIDTH SCREEN_HEIGHT) _ (by decide) hs
  have hk : (renderAndOverlay quarterTurnTrig exampleCommands exampleTexture false true
      initialInputState.camera [triangleAtTen] [(0, 1)] exampleChain
      (setupGTE identityGTE SCREEN_WIDTH SCREEN_HEIGHT)).map
        (fun m => m.chain.nextPacket.toNat) = some 7 := by
    decide
  rw [hm, Option.map_some'] at hk
  injection hk with hk
  refine ⟨_, hs, ?_⟩
  rw [hf, hk]
  rfl

/-! ## One triangle in bucket 10 -/

theorem rotateCurrentMatrix_zsf3 (t : Trig) (g : GTE) (roll yaw pitch : Int) :
    (rotateCurrentMatrix t g roll yaw pitch).zsf3 = g.zsf3 := by
  unfold rotateCurrentMatrix
  simp only [apply_ite GTE.zsf3, gte_loadRotationMatrix, multiplyCurrentMatrixByVectors,
    gte_setColumnVectors, mvmvaRT, ite_self]

theorem cameraSetup_zsf3 (t : Trig) (g : GTE) (camera : Camera) :
    (cameraTranslation (cameraRotation t g camera) camera).zsf3 = g.zsf3 := by
  unfold cameraTranslation updateTranslationMatrix cameraRotation
  simp only [gte_setTranslationVector, mvmvaRT, rotateCurrentMatrix_zsf3,
    gte_setRotationMatrix]

theorem renderFace_visible (cmds : GPUCommands) (tex : TextureInfo) (renderTextured : Bool)
    (i : Nat) (uvs : FaceUVs) (p : Projected) (st : RenderState) (hfront : 0 < signedArea p)
    (h0 : 0 < bucketIndex st.gte.zsf3 p)
    (h1 : bucketIndex st.gte.zsf3 p < (ORDERING_TABLE_SIZE : Int)) :
    renderFace cmds tex renderTextured i uvs p st
      = emitFace cmds tex renderTextured i uvs (bucketIndex st.gte.zsf3 p) st.chain
          (avsz3 (nclip (rtpt st.gte p))) st.polyCount := by
  have h' : ¬ signedArea p ≤ 0 := by omega
  have hfar : ¬ (ORDERING_TABLE_SIZE : Int) ≤ bucketIndex st.gte.zsf3 p := by omega
  have hnear : ¬ bucketIndex st.gte.zsf3 p ≤ 0 := by omega
  unfold renderFace
  simp only [nclip_rtpt_mac0, h', if_false, avsz3_otz, ge_iff_le, hfar, hnear]

/-- The buckets after a frame whose mesh is one front-facing triangle at scaled
depth 10: bucket 10 holds the draw packet at word 0, bucket
ORDERING_TABLE_SIZE - 1 the two trailing packets, and every bucket, in between, the
packets that the overlay allocated to it when the help is shown. -/
theorem one_triangle_buckets (t : Trig) (cmds : GPUCommands) (fc : FrameCommands)
    (tex : TextureInfo) (renderTextured showingHelp : Bool) (camera : Camera)
    (uvs : FaceUVs) (p : Projected) (overlay : List (Nat × Nat))
    (bufferX bufferY : Int) (chain : DMAChain) (g : GTE) (st : RenderState)
    (halign : chain.addr % 4 = 0) (hfront : 0 < signedArea p)
    (hdepth : bucketIndex g.zsf3 p = 10)
    (h : buildFrame t cmds fc tex renderTextured showingHelp camera [(uvs, p)] overlay
      bufferX bufferY chain g = some st) :
    ∃ K : Nat, st.chain.nextPacket = (K : Int) + 4 + 5 ∧
      (showingHelp = false → K = if renderTextured then 8 else 5) ∧
      ∀ b, b < ORDERING_TABLE_SIZE →
        followLinks st.chain CHAIN_BUFFER_SIZE (tagAddr (st.chain.orderingTable b))
          = ((if b = ORDERING_TABLE_SIZE - 1 then [(K + 4, 4), (K, 3)] else []) ++
              ((packetsOf b (if renderTextured then 8 else 5)
                  (if showingHelp then overlay else [])).reverse ++
                (if b = 10 then [(0, if renderTextured then 7 else 4)] else [])),
             tagAddr ((resetChain chain).orderingTable b)) := by
  unfold buildFrame at h
  cases hm : renderAndOverlay t cmds tex renderTextured showingHelp camera [(uvs, p)] overlay
      chain g with
  | none => rw [hm] at h; simp at h
  | some mid =>
    rw [hm, Option.some_bind] at h
    cases ht : trailingPackets fc mid.chain bufferX bufferY with
    | none => rw [ht] at h; simp at h
    | some c =>
      rw [ht, Option.map_some'] at h
      injection h with h
      subst h
      -- the render pass: one packet in bucket 10
      unfold renderAndOverlay at hm
      simp only at hm
      have hz : bucketIndex (cameraTranslation (cameraRotation t g camera) camera).zsf3 p
          = 10 := by
        rw [cameraSetup_zsf3]; exact hdepth
      rw [renderFaces, renderFace_visible _ _ _ _ _ _ _ hfront (by rw [hz]; decide)
        (by rw [hz]; decide), hz] at hm
      cases he : emitFace cmds tex renderTextured 0 uvs 10 (resetChain chain)
          (avsz3 (nclip (rtpt (cameraTranslation (cameraRotation t g camera) camera) p)))
          0 with
      | none => rw [he] at hm; simp at hm
      | some r =>
        simp only [he, Option.some_bind, renderFaces] at hm
        have hface : ∀ b, b < ORDERING_TABLE_SIZE →
            BucketInv r.1.chain b
              ((if b = 10 then [(0, if renderTextured then 7 else 4)] else []))
              (tagAddr ((resetChain chain).orderingTable b)) ∧
            r.1.chain.nextPacket = (if renderTextured then 8 else 5) := by
          intro b hb
          obtain ⟨i1, i2⟩ := BucketInv_emitFace cmds tex renderTextured 0 uvs 10
            (resetChain chain) _ 0 r b _ [] (by decide) he (BucketInv_reset chain b halign hb)
          rw [resetChain_nextPacket] at i1 i2
          refine ⟨?_, by rw [i2, zero_add]⟩
          by_cases hb10 : b = 10
          · subst hb10
            simpa using i1
          · have hb10' : ¬ (10 : Nat) = b := fun hh => hb10 hh.symm
            simpa [hb10, hb10'] using i1
        have hmid : ∀ b, b < ORDERING_TABLE_SIZE →
            BucketInv mid.chain b
              ((packetsOf b (if renderTextured then 8 else 5)
                  (if showingHelp then overlay else [])).reverse ++
                (if b = 10 then [(0, if renderTextured then 7 else 4)] else []))
              (tagAddr ((resetChain chain).orderingTable b)) := by
          intro b hb
          obtain ⟨i1, i2⟩ := hface b hb
          cases showingHelp with
          | false =>
            simp only [Bool.false_eq_true, if_false] at hm
            injection hm with hm
            subst hm
            simpa [packetsOf] using i1
          | true =>
            simp only [if_true] at hm
            cases hp : printString r.1.chain overlay with
            | none => rw [hp] at hm; simp at hm
            | some c2 =>
              rw [hp, Option.map_some'] at hm
              injection hm with hm
              subst hm
              have := BucketInv_allocateAll overlay r.1.chain c2 b _ _ hp i1
              rw [i2] at this
              cases renderTextured <;> simpa using this
        refine ⟨mid.chain.nextPacket.toNat, ?_, ?_, ?_⟩
        · have h0 := (hmid 0 (by decide)).2.1
          have hcur := (BucketInv_trailing fc mid.chain c bufferX bufferY 0 _ _ ht
            (hmid 0 (by decide))).2
          rw [hcur]
          omega
        · intro hh
          subst hh
          simp only [Bool.false_eq_true, if_false] at hm
          injection hm with hm
          subst hm
          rw [(hface 0 (by decide)).2]
          cases renderTextured <;> rfl
        · intro b hb
          have := (BucketInv_trailing fc mid.chain c bufferX bufferY b _ _ ht (hmid b hb)).1
          exact BucketInv_follow _ _ _ _ this


theorem trailingPackets_isSome (fc : FrameCommands) (chain : DMAChain) (bufferX bufferY : Int)
    (hcap : chain.nextPacket + 4 + 5 < (CHAIN_BUFFER_SIZE : Int)) :
    (trailingPackets fc chain bufferX bufferY).isSome = true := by
  unfold trailingPackets
  cases h1 : allocatePacket chain ((ORDERING_TABLE_SIZE : Int) - 1) 3 with
  | none =>
    have hs := (allocatePacket_some_iff chain ((ORDERING_TABLE_SIZE : Int) - 1) 3).2
      ⟨by decide, by decide, by omega⟩
    rw [h1] at hs
    exact absurd hs (by simp)
  | some r1 =>
    obtain ⟨_, _, _, _, hcur, _, _, _⟩ := allocatePacket_eq_some chain _ 3 r1 h1
    simp only [Option.some_bind, Option.isSome_map']
    exact (allocatePacket_some_iff _ ((ORDERING_TABLE_SIZE : Int) - 1) 4).2
      ⟨by decide, by decide, by simp only [hcur]; omega⟩

/-- With the help hidden, the frame of one visible triangle at scaled depth 10 is
always built: its 1 + 2 packets take at most 17 words of the buffer. -/
theorem one_triangle_built (t : Trig) (cmds : GPUCommands) (fc : FrameCommands)
    (tex : TextureInfo) (renderTextured : Bool) (camera : Camera)
    (uvs : FaceUVs) (p : Projected) (overlay : List (Nat × Nat))
    (bufferX bufferY : Int) (chain : DMAChain) (g : GTE)
    (halign : chain.addr % 4 = 0) (hfront : 0 < signedArea p)
    (hdepth : bucketIndex g.zsf3 p = 10) :
    (buildFrame t cmds fc tex renderTextured false camera [(uvs, p)] overlay
      bufferX bufferY chain g).isSome = true := by
  have hz : bucketIndex (cameraTranslation (cameraRotation t g camera) camera).zsf3 p
      = 10 := by
    rw [cameraSetup_zsf3]; exact hdepth
  unfold buildFrame renderAndOverlay
  simp only [Bool.false_eq_true, if_false]
  rw [renderFaces, renderFace_visible _ _ _ _ _ _ _ hfront (by rw [hz]; decide)
    (by rw [hz]; decide), hz]
  cases he : emitFace cmds tex renderTextured 0 uvs 10 (resetChain chain)
      (avsz3 (nclip (rtpt (cameraTranslation (cameraRotation t g camera) camera) p)))
      0 with
  | none =>
    have := emitFace_none _ _ _ _ _ _ _ _ _ (by decide) (by decide) he
    rw [resetChain_nextPacket] at this
    cases renderTextured <;> simp [CHAIN_BUFFER_SIZE] at this
  | some r =>
    obtain ⟨_, i2⟩ := BucketInv_emitFace cmds tex renderTextured 0 uvs 10
      (resetChain chain) _ 0 r 0 _ [] (by decide) he
      (BucketInv_reset chain 0 halign (by decide))
    rw [resetChain_nextPacket] at i2
    simp only [Option.some_bind, renderFaces, Option.isSome_map']
    apply trailingPackets_isSome
    rw [i2]
    cases renderTextured <;> decide


/-- C14 (counterexample). The program starts with the help shown. With the help shown
and an overlay of one packet, which the specification places in bucket 0, the frame
of one front-facing triangle at scaled depth 10 leaves bucket 0 holding the packet
at word 5: a bucket other than 10 and 719 is not empty. -/
theorem help_overlay_fills_nearest_bucket :
    initialInputState.showingHelp = true ∧
    0 < signedArea triangleAtTen.2 ∧
    bucketIndex (setupGTE identityGTE SCREEN_WIDTH SCREEN_HEIGHT).zsf3 triangleAtTen.2 = 10 ∧
    ∃ st, buildFrame quarterTurnTrig exampleCommands exampleFrameCommands exampleTexture
        false initialInputState.showingHelp initialInputState.camera [triangleAtTen] [(0, 1)]
        0 0 exampleChain (setupGTE identityGTE SCREEN_WIDTH SCREEN_HEIGHT) = some st ∧
      (followLinks st.chain CHAIN_BUFFER_SIZE (tagAddr (st.chain.orderingTable 0))).1
        = [(5, 1)] := by
  have hs : buildFrame quarterTurnTrig exampleCommands exampleFrameCommands exampleTexture
      false true initialInputState.camera [triangleAtTen] [(0, 1)] 0 0 exampleChain
      (setupGTE identityGTE SCREEN_WIDTH SCREEN_HEIGHT)
      = some ((buildFrame quarterTurnTrig exampleCommands exampleFrameCommands exampleTexture
          false true initialInputState.camera [triangleAtTen] [(0, 1)] 0 0 exampleChain
          (setupGTE identityGTE SCREEN_WIDTH SCREEN_HEIGHT)).get (by decide)) :=
    (Option.some_get _).symm
  obtain ⟨K, _, _, hb⟩ :=
    one_triangle_buckets quarterTurnTrig exampleCommands exampleFrameCommands exampleTexture
      false true initialInputState.camera triangleAtTen.1 triangleAtTen.2 [(0, 1)] 0 0
      exampleChain (setupGTE identityGTE SCREEN_WIDTH SCREEN_HEIGHT) _ (by decide) (by decide)
      (by decide) hs
  refine ⟨rfl, by decide, by decide, _, hs, ?_⟩
  rw [hb 0 (by decide)]
  rfl

/-- C14 (amended). For a mesh of exactly one front-facing triangle whose scaled depth
is 10, with ORDERING_TABLE_SIZE = 720 and the help overlay hidden: the frame is built,
and after it bucket 10 holds exactly one draw packet (at word 0, of 4 command words,
or 7 when textured), bucket 719 holds exactly the two trailing background packets
(the attribute packet of 4 words in front of the fill packet of 3 words), and every
other bucket (0 to 9 and 11 to 718) is empty. -/
theorem one_triangle_frame (t : Trig) (cmds : GPUCommands) (fc : FrameCommands)
    (tex : TextureInfo) (renderTextured : Bool) (camera : Camera)
    (uvs : FaceUVs) (p : Projected) (overlay : List (Nat × Nat))
    (bufferX bufferY : Int) (chain : DMAChain) (g : GTE)
    (halign : chain.addr % 4 = 0) (hfront : 0 < signedArea p)
    (hdepth : bucketIndex g.zsf3 p = 10) :
    ORDERING_TABLE_SIZE = 720 ∧
    ∃ st, buildFrame t cmds fc tex renderTextured false camera [(uvs, p)] overlay
        bufferX bufferY chain g = some st ∧
      (followLinks st.chain CHAIN_BUFFER_SIZE (tagAddr (st.chain.orderingTable 10))).1
        = [(0, if renderTextured then 7 else 4)] ∧
      (followLinks st.chain CHAIN_BUFFER_SIZE (tagAddr (st.chain.orderingTable 719))).1
        = [((if renderTextured then 8 else 5) + 4, 4), (if renderTextured then 8 else 5, 3)] ∧
      ∀ b, b < 719 → b ≠ 10 →
        (followLinks st.chain CHAIN_BUFFER_SIZE (tagAddr (st.chain.orderingTable b))).1
          = [] := by
  have hsome := one_triangle_built t cmds fc tex renderTextured camera uvs p overlay
    bufferX bufferY chain g halign hfront hdepth
  have hs := (Option.some_get hsome).symm
  obtain ⟨K, _, hK, hb⟩ :=
    one_triangle_buckets t cmds fc tex renderTextured false camera uvs p overlay
      bufferX bufferY chain g _ halign hfront hdepth hs
  have hK := hK rfl
  subst hK
  refine ⟨rfl, _, hs, ?_, ?_, ?_⟩
  · rw [hb 10 (by decide)]
    simp [packetsOf, ORDERING_TABLE_SIZE]
  · rw [hb 719 (by decide)]
    simp [packetsOf, ORDERING_TABLE_SIZE]
  · intro b h1 h2
    have h3 : ¬ b = ORDERING_TABLE_SIZE - 1 := by
      simp only [ORDERING_TABLE_SIZE]; omega
    rw [hb b (by simp only [ORDERING_TABLE_SIZE]; omega)]
    simp [packetsOf, h2, h3]

/-- Worked instance of C14: the triangle with three depths of 456 has scaled depth
(30 * 1368) >> 12 = 10; with untextured rendering its frame has the draw packet at
word 0 in bucket 10 and the trailing packets at words 9 and 5 in bucket 719. -/
theorem one_triangle_frame_witness :
    exampleChain.addr % 4 = 0 ∧ 0 < signedArea triangleAtTen.2 ∧
    bucketIndex (setupGTE identityGTE SCREEN_WIDTH SCREEN_HEIGHT).zsf3 triangleAtTen.2 = 10 ∧
    ∃ st, buildFrame quarterTurnTrig exampleCommands exampleFrameCommands exampleTexture
        false false initialInputState.camera [triangleAtTen] [(0, 1)] 0 0 exampleChain
        (setupGTE identityGTE SCREEN_WIDTH SCREEN_HEIGHT) = some st ∧
      (followLinks st.chain CHAIN_BUFFER_SIZE (tagAddr (st.chain.orderingTable 10))).1
        = [(0, 4)] ∧
      (followLinks st.chain CHAIN_BUFFER_SIZE (tagAddr (st.chain.orderingTable 719))).1
        = [(9, 4), (5, 3)] ∧
      ∀ b, b < 719 → b ≠ 10 →
        (followLinks st.chain CHAIN_BUFFER_SIZE (tagAddr (st.chain.orderingTable b))).1
          = [] :=
  ⟨by decide, by decide, by decide,
    (one_triangle_frame quarterTurnTrig exampleCommands exampleFrameCommands exampleTexture
      false initialInputState.camera triangleAtTen.1 triangleAtTen.2 [(0, 1)] 0 0
      exampleChain (setupGTE identityGTE SCREEN_WIDTH SCREEN_HEIGHT) (by decide) (by decide)
      (by decide)).2⟩


/-! ## The words of the packets of a run -/

theorem readWords_congr (d d' : Int → Nat) (n : Nat) (ptr : Int)
    (h : ∀ i, ptr ≤ i → i < ptr + (n : Int) → d i = d' i) :
    readWords d ptr n = readWords d' ptr n := by
  induction n generalizing ptr with
  | zero => rfl
  | succ n ih =>
    rw [readWords, readWords, h ptr (le_refl _) (by push_cast; omega),
      ih (ptr + 1) (fun i h1 h2 => h i (by omega) (by push_cast; omega))]

theorem readWords_storeWords (ws : List Nat) (d : Int → Nat) (ptr : Int) :
    readWords (storeWords d ptr ws) ptr ws.length = ws := by
  induction ws generalizing d ptr with
  | nil => rfl
  | cons w rest ih =>
    rw [List.length_cons, readWords, storeWords, ih, storeWords_below _ _ _ _ (by omega)]
    simp [storeData]

/-- What a run from a non-negative cursor leaves: one record per request, the
packets one after the other from the starting cursor to the final one, each inside
the buffer, each stopping before the next starts, no word below the starting cursor
changed, and every header and command word still in place at the end. -/
theorem allocateRun_spec (reqs : List PacketRequest) (chain : DMAChain)
    (out : DMAChain × List PacketRecord) (h0 : 0 ≤ chain.nextPacket)
    (hn : ∀ r ∈ reqs, 0 ≤ r.numCommands ∧ (r.words.length : Int) ≤ r.numCommands)
    (h : allocateRun chain reqs = some out) :
    out.2.map PacketRecord.numCommands = reqs.map PacketRequest.numCommands ∧
    contiguousFrom chain.nextPacket out.2 out.1.nextPacket ∧
    (∀ p ∈ out.2, chain.nextPacket ≤ p.header ∧ p.header < p.stop ∧
      p.stop < (CHAIN_BUFFER_SIZE : Int)) ∧
    out.2.Pairwise (fun p q => p.stop ≤ q.header) ∧
    (∀ i, i < chain.nextPacket → out.1.data i = chain.data i) ∧
    (∀ p ∈ out.2, out.1.data p.header = p.tag ∧
      readWords out.1.data (p.header + 1) p.words.length = p.words) := by
  induction reqs generalizing chain out with
  | nil =>
    simp only [allocateRun, Option.some.injEq] at h
    subst h
    simp [contiguousFrom]
  | cons r rest ih =>
    rw [allocateRun] at h
    cases ha : allocatePacket chain r.zIndex r.numCommands with
    | none => rw [ha] at h; simp at h
    | some res =>
      rw [ha, Option.some_bind] at h
      cases hr : allocateRun { res.1 with data := storeWords res.1.data res.2 r.words } rest with
      | none => rw [hr] at h; simp at h
      | some out' =>
        rw [hr, Option.map_some'] at h
        injection h with h
        subst h
        obtain ⟨_, _, hcap, _, hcur, hdata, _, hret⟩ :=
          allocatePacket_eq_some chain _ _ res ha
        obtain ⟨hr0, hrw⟩ := hn r (List.mem_cons_self _ _)
        obtain ⟨i1, i2, i3, i4, i5, i6⟩ :=
          ih { res.1 with data := storeWords res.1.data res.2 r.words } out'
            (by simp only [hcur]; omega) (fun x hx => hn x (List.mem_cons_of_mem _ hx)) hr
        simp only [hcur] at i2 i3 i5
        have hhead : res.2 - 1 = chain.nextPacket := by omega
        have hbelow : ∀ i, i < chain.nextPacket + 1 →
            out'.1.data i = res.1.data i := by
          intro i hi
          rw [i5 i (by omega), storeWords_below _ _ _ _ (by omega)]
        refine ⟨?_, ?_, ?_, ?_, ?_, ?_⟩
        · simp only [List.map_cons, i1]
        · refine ⟨hhead, ?_⟩
          simpa only [PacketRecord.stop, hhead] using i2
        · intro p hp
          rcases List.mem_cons.1 hp with hp | hp
          · subst hp
            simp only [PacketRecord.stop, hhead]
            omega
          · obtain ⟨a, b, c⟩ := i3 p hp
            exact ⟨by omega, b, c⟩
        · refine List.pairwise_cons.2 ⟨?_, i4⟩
          intro q hq
          have := (i3 q hq).1
          simp only [PacketRecord.stop, hhead]
          omega
        · intro i hi
          rw [hbelow i (by omega), hdata]
          have hne : i ≠ chain.nextPacket := by omega
          simp [storeData, hne]
        · intro p hp
          rcases List.mem_cons.1 hp with hp | hp
          · subst hp
            simp only [hhead]
            refine ⟨hbelow _ (by omega), ?_⟩
            rw [readWords_congr out'.1.data (storeWords res.1.data res.2 r.words) _ _
              (fun i h1 h2 => i5 i (by omega)), ← hret]
            exact readWords_storeWords _ _ _
          · exact i6 p hp


theorem allocateRun_tags (reqs : List PacketRequest) (chain : DMAChain)
    (out : DMAChain × List PacketRecord) (h : allocateRun chain reqs = some out) :
    ∀ p ∈ out.2, tagLength p.tag = toU32 p.numCommands % 256 := by
  induction reqs generalizing chain out with
  | nil =>
    simp only [allocateRun, Option.some.injEq] at h
    subst h
    simp
  | cons r rest ih =>
    rw [allocateRun] at h
    cases ha : allocatePacket chain r.zIndex r.numCommands with
    | none => rw [ha] at h; simp at h
    | some res =>
      rw [ha, Option.some_bind] at h
      cases hr : allocateRun { res.1 with data := storeWords res.1.data res.2 r.words } rest with
      | none => rw [hr] at h; simp at h
      | some out' =>
        rw [hr, Option.map_some'] at h
        injection h with h
        subst h
        obtain ⟨_, _, _, _, _, hdata, _, hret⟩ := allocatePacket_eq_some chain _ _ res ha
        intro p hp
        rcases List.mem_cons.1 hp with hp | hp
        · subst hp
          have hhead : res.2 - 1 = chain.nextPacket := by omega
          simp only [hhead, hdata, storeData, if_true]
          exact tagLength_gp0_tag _ _
        · exact ih _ out' hr p hp

/-! ## The 32-bit machine agrees with the offsets where no address wraps -/

theorem ptrAddr_of_lt (addr : Nat) (k : Int) (h0 : 0 ≤ (addr : Int) + 4 * k)
    (h1 : (addr : Int) + 4 * k < 2 ^ 32) : (ptrAddr addr k : Int) = (addr : Int) + 4 * k := by
  unfold ptrAddr toU32
  rw [Int.emod_eq_of_lt h0 h1, Int.toNat_of_nonneg h0]

theorem wrapOffset_of_lt (addr : Nat) (k : Int) (h0 : 0 ≤ (addr : Int) + 4 * k)
    (h1 : (addr : Int) + 4 * k < 2 ^ 32) : wrapOffset addr k = k := by
  unfold wrapOffset
  rw [ptrAddr_of_lt addr k h0 h1]
  omega

/-- As long as the cursor is not below `data` and neither `&data[CHAIN_BUFFER_SIZE]`
nor the advanced cursor wraps, the call on the 32-bit machine is the call on
offsets. -/
theorem allocatePacket32_eq (chain : DMAChain) (z n : Int) (hk : 0 ≤ chain.nextPacket)
    (hn : 0 ≤ n) (hw : (chain.addr : Int) + 4 * (chain.nextPacket + (n + 1)) < 2 ^ 32)
    (hcap : (chain.addr : Int) + 4 * (CHAIN_BUFFER_SIZE : Int) < 2 ^ 32) :
    allocatePacket32 chain z n = allocatePacket chain z n := by
  have e0 : wrapOffset chain.addr chain.nextPacket = chain.nextPacket :=
    wrapOffset_of_lt _ _ (by omega) (by omega)
  have e1 : wrapOffset chain.addr (chain.nextPacket + (n + 1)) = chain.nextPacket + (n + 1) :=
    wrapOffset_of_lt _ _ (by omega) (by omega)
  have e2 : wrapOffset chain.addr (chain.nextPacket + 1) = chain.nextPacket + 1 :=
    wrapOffset_of_lt _ _ (by omega) (by omega)
  have a1 : (ptrAddr chain.addr (chain.nextPacket + (n + 1)) : Int)
      = (chain.addr : Int) + 4 * (chain.nextPacket + (n + 1)) :=
    ptrAddr_of_lt _ _ (by omega) (by omega)
  have a2 : (ptrAddr chain.addr (CHAIN_BUFFER_SIZE : Int) : Int)
      = (chain.addr : Int) + 4 * (CHAIN_BUFFER_SIZE : Int) :=
    ptrAddr_of_lt _ _ (by omega) (by omega)
  have hcmp : (ptrAddr chain.addr (chain.nextPacket + (n + 1))
        < ptrAddr chain.addr (CHAIN_BUFFER_SIZE : Int))
      ↔ chain.nextPacket + (n + 1) < (CHAIN_BUFFER_SIZE : Int) := by
    rw [← Int.ofNat_lt, a1, a2]
    omega
  unfold allocatePacket32 allocatePacket
  simp only [e0, e1, e2, hcmp]


theorem allocateAll32_eq (calls : List (Int × Int)) (chain chain' : DMAChain)
    (hk : 0 ≤ chain.nextPacket) (hk' : chain.nextPacket < (CHAIN_BUFFER_SIZE : Int))
    (hn : ∀ c ∈ calls, NoWrap chain.addr c.2)
    (h : allocateAll32 chain calls = some chain') :
    allocateAll chain (natCalls calls) = some chain' := by
  induction calls generalizing chain with
  | nil => exact h
  | cons c rest ih =>
    obtain ⟨z, n⟩ := c
    obtain ⟨hn0, hnw⟩ := hn (z, n) (List.mem_cons_self _ _)
    simp only at hn0 hnw
    rw [allocateAll32, allocatePacket32_eq chain z n hk hn0 (by omega) (by omega)] at h
    cases ha : allocatePacket chain z n with
    | none => rw [ha] at h; simp at h
    | some res =>
      rw [ha, Option.some_bind] at h
      obtain ⟨hz0, _, hcap, haddr, hcur, _⟩ := allocatePacket_eq_some chain z n res ha
      have hzz : ((z.toNat : Nat) : Int) = z := Int.toNat_of_nonneg hz0
      have hnn : ((n.toNat : Nat) : Int) = n := Int.toNat_of_nonneg hn0
      have hrest := ih res.1 (by omega) (by omega)
        (fun c hc => by rw [haddr]; exact hn c (List.mem_cons_of_mem _ hc)) h
      simp only [natCalls, List.map_cons, allocateAll, hzz, hnn, ha, Option.some_bind]
      exact hrest

theorem allocateRun32_eq (reqs : List PacketRequest) (chain : DMAChain)
    (out : DMAChain × List PacketRecord)
    (hk : 0 ≤ chain.nextPacket) (hk' : chain.nextPacket < (CHAIN_BUFFER_SIZE : Int))
    (hn : ∀ r ∈ reqs, NoWrap chain.addr r.numCommands)
    (h : allocateRun32 chain reqs = some out) :
    allocateRun chain reqs = some out := by
  induction reqs generalizing chain out with
  | nil => exact h
  | cons r rest ih =>
    obtain ⟨hn0, hnw⟩ := hn r (List.mem_cons_self _ _)
    rw [allocateRun32,
      allocatePacket32_eq chain r.zIndex r.numCommands hk hn0 (by omega) (by omega)] at h
    cases ha : allocatePacket chain r.zIndex r.numCommands with
    | none => rw [ha] at h; simp at h
    | some res =>
      rw [ha, Option.some_bind] at h
      obtain ⟨_, _, hcap, haddr, hcur, _⟩ := allocatePacket_eq_some chain _ _ res ha
      cases hr : allocateRun32 { res.1 with data := storeWords res.1.data res.2 r.words }
          rest with
      | none => rw [hr] at h; simp at h
      | some out' =>
        have hrest := ih { res.1 with data := storeWords res.1.data res.2 r.words } out'
          (by simp only [hcur]; omega) (by simp only [hcur]; omega)
          (fun x hx => by
            simp only [haddr]
            exact hn x (List.mem_cons_of_mem _ hx)) hr
        rw [hr] at h
        rw [allocateRun, ha, Option.some_bind, hrest]
        exact h

/-! ## When allocatePacket aborts -/

/-- C3, as the claim words it, fails in two ways. With the cursor at 32764, an
allocation of 3 words to bucket 0 would leave the cursor at exactly
CHAIN_BUFFER_SIZE, which does not exceed the capacity, and yet the call aborts. And
with the cursor at word 0, the call for bucket 7 with the word count 2^30 - 1 returns,
the cursor staying at word 0, although the old cursor + n + 1 words exceeds the
capacity: the 32-bit address has wrapped to `&data[0]`. -/
theorem allocatePacket32_abort_not_on_excess :
    (allocatePacket32 { exampleChain with nextPacket := 32764 } 0 3).isSome = false ∧
    ¬ ((32764 : Int) + (3 + 1) > (CHAIN_BUFFER_SIZE : Int)) ∧
    (allocatePacket32 exampleChain 7 (2 ^ 30 - 1)).map (fun res => (res.1.nextPacket, res.2))
      = some (0, 1) ∧
    exampleChain.nextPacket + ((2 ^ 30 - 1) + 1) > (CHAIN_BUFFER_SIZE : Int) := by
  decide

/-- C3 (amended). For every chain state whose cursor is not below `data`, bucket
index z and non-negative word count n for which the advanced cursor does not wrap the
32-bit address space (address of data + 4 * (old cursor + n + 1) < 2^32, the buffer
ending below 2^32), allocatePacket aborts if and only if z is outside
[0, ORDERING_TABLE_SIZE) or the advanced cursor (old cursor + n + 1 words) reaches or
exceeds CHAIN_BUFFER_SIZE; an allocation with in-range z that leaves the cursor
strictly below the capacity succeeds. -/
theorem allocatePacket32_abort_iff (chain : DMAChain) (z n : Int)
    (hk : 0 ≤ chain.nextPacket) (hn : 0 ≤ n)
    (hw : (chain.addr : Int) + 4 * (chain.nextPacket + (n + 1)) < 2 ^ 32)
    (hcap : (chain.addr : Int) + 4 * (CHAIN_BUFFER_SIZE : Int) < 2 ^ 32) :
    (allocatePacket32 chain z n = none ↔
      (z < 0 ∨ (ORDERING_TABLE_SIZE : Int) ≤ z ∨
        (CHAIN_BUFFER_SIZE : Int) ≤ chain.nextPacket + (n + 1))) ∧
    ((0 ≤ z ∧ z < (ORDERING_TABLE_SIZE : Int) ∧
        chain.nextPacket + (n + 1) < (CHAIN_BUFFER_SIZE : Int)) →
      ∃ res, allocatePacket32 chain z n = some res) := by
  rw [allocatePacket32_eq chain z n hk hn hw hcap]
  have hiff := allocatePacket_some_iff chain z n
  constructor
  · rw [← Option.not_isSome_iff_eq_none, hiff]
    omega
  · intro hh
    exact Option.isSome_iff_exists.1 (hiff.2 hh)

/-- Worked instance of the amended C3: on the example chain at 0x80100000, 3 words
for bucket 0 abort from the cursor 32764 (the cursor would land on 32768) and are
granted from the cursor 32763. -/
theorem allocatePacket32_abort_iff_witness :
    (0 : Int) ≤ 32764 ∧ (0 : Int) ≤ 3 ∧
    ((0x80100000 : Nat) : Int) + 4 * (32764 + (3 + 1)) < 2 ^ 32 ∧
    ((0x80100000 : Nat) : Int) + 4 * (CHAIN_BUFFER_SIZE : Int) < 2 ^ 32 ∧
    allocatePacket32 { exampleChain with nextPacket := 32764 } 0 3 = none ∧
    ∃ res, allocatePacket32 { exampleChain with nextPacket := 32763 } 0 3 = some res :=
  ⟨by decide, by decide, by decide, by decide,
    (allocatePacket32_abort_iff { exampleChain with nextPacket := 32764 } 0 3 (by decide)
      (by decide) (by decide) (by decide)).1.2 (by decide),
    (allocatePacket32_abort_iff { exampleChain with nextPacket := 32763 } 0 3 (by decide)
      (by decide) (by decide) (by decide)).2 (by decide)⟩


/-! ## Buckets are stacks -/

set_option maxRecDepth 20000 in
/-- C2, as the claim words it, fails for word counts that do not move the cursor. On
the reset example chain (at 0x80100000, word 0 at the 24-bit address 0x100000) two
calls for bucket 7 with the word count -1 both succeed, and so do the calls for
bucket 7 with the word counts 2^30 - 1 and 4, the first of which wraps the 32-bit
cursor back to word 0. In both runs the second packet takes the place of the first:
the head of bucket 7 is word 0 and the header at word 0 links to word 0, so the walk
from bucket 7 meets the same packet again and again and never reaches what the
bucket held after the reset (the address 0x120018). -/
theorem allocatePacket32_self_link :
    (allocateAll32 (resetChain exampleChain) [(7, -1), (7, -1)]).map
        (fun c => (tagAddr (c.orderingTable 7), tagAddr (c.data 0),
          followLinks c 3 (tagAddr (c.orderingTable 7))))
      = some (0x100000, 0x100000, [(0, 255), (0, 255), (0, 255)], 0x100000) ∧
    (allocateAll32 (resetChain exampleChain) [(7, 2 ^ 30 - 1), (7, 4)]).map
        (fun c => (tagAddr (c.orderingTable 7), tagAddr (c.data 0),
          followLinks c 3 (tagAddr (c.orderingTable 7))))
      = some (0x100000, 0x100000, [(0, 4), (0, 4), (0, 4)], 0x100000) ∧
    wordIndexAt exampleChain.addr CHAIN_BUFFER_SIZE 0x100000 = some 0 ∧
    tagAddr ((resetChain exampleChain).orderingTable 7) = 0x120018 :=
  ⟨by decide, by decide, by decide, by decide⟩

/-- C2 (amended). After a reset of a chain at a word-aligned address, for every run of
successful allocatePacket calls whose word counts are non-negative and do not wrap
the 32-bit cursor (`NoWrap`), and every bucket b: following the back-links from
orderingTable[b] visits exactly the packets allocated to b, latest first, and then
leaves the packet buffer at the address bucket b held after the reset. In
particular, after allocating to buckets [5, 3, 5], the head of bucket 5 is the third
packet, whose header links to the first packet, and bucket 3 holds only the second
packet. -/
theorem allocatePacket32_bucket_lifo :
    (∀ (chain chain' : DMAChain) (calls : List (Int × Int)) (b : Nat),
      chain.addr % 4 = 0 → b < ORDERING_TABLE_SIZE →
      (∀ c ∈ calls, NoWrap chain.addr c.2) →
      allocateAll32 (resetChain chain) calls = some chain' →
      followLinks chain' CHAIN_BUFFER_SIZE (tagAddr (chain'.orderingTable b))
        = ((packetsOf b 0 (natCalls calls)).reverse,
            tagAddr ((resetChain chain).orderingTable b))) ∧
    (∀ (chain chain' : DMAChain) (n1 n2 n3 : Nat),
      chain.addr % 4 = 0 →
      NoWrap chain.addr (n1 : Int) → NoWrap chain.addr (n2 : Int) →
      NoWrap chain.addr (n3 : Int) →
      allocateAll32 (resetChain chain) [(5, (n1 : Int)), (3, (n2 : Int)), (5, (n3 : Int))]
        = some chain' →
      tagAddr (chain'.orderingTable 5) = (chain.addr + 4 * (n1 + 1 + (n2 + 1))) % 2 ^ 24 ∧
      tagAddr (chain'.data ((n1 + 1 + (n2 + 1) : Nat) : Int)) = (chain.addr + 4 * 0) % 2 ^ 24 ∧
      followLinks chain' CHAIN_BUFFER_SIZE (tagAddr (chain'.orderingTable 5))
        = ([(n1 + 1 + (n2 + 1), n3 % 256), (0, n1 % 256)],
            tagAddr ((resetChain chain).orderingTable 5)) ∧
      tagAddr (chain'.orderingTable 3) = (chain.addr + 4 * (n1 + 1)) % 2 ^ 24 ∧
      followLinks chain' CHAIN_BUFFER_SIZE (tagAddr (chain'.orderingTable 3))
        = ([(n1 + 1, n2 % 256)], tagAddr ((resetChain chain).orderingTable 3))) := by
  have hmodel : ∀ (chain chain' : DMAChain) (calls : List (Int × Int)),
      (∀ c ∈ calls, NoWrap chain.addr c.2) →
      allocateAll32 (resetChain chain) calls = some chain' →
      allocateAll (resetChain chain) (natCalls calls) = some chain' := by
    intro chain chain' calls hn h
    refine allocateAll32_eq calls (resetChain chain) chain' ?_ ?_ ?_ h
    · rw [resetChain_nextPacket]
    · rw [resetChain_nextPacket]; decide
    · rw [resetChain_addr]; exact hn
  refine ⟨fun chain chain' calls b halign hb hn h =>
    followLinks_after_reset chain chain' _ b halign hb (hmodel chain chain' calls hn h), ?_⟩
  intro chain chain' n1 n2 n3 halign w1 w2 w3 h
  have h' := hmodel chain chain' _ (by
    intro c hc
    simp only [List.mem_cons, List.mem_singleton, List.not_mem_nil, or_false] at hc
    rcases hc with hc | hc | hc <;> subst hc <;> assumption) h
  have hcalls : natCalls [(5, (n1 : Int)), (3, (n2 : Int)), (5, (n3 : Int))]
      = [(5, n1), (3, n2), (5, n3)] := by
    simp [natCalls]
  rw [hcalls] at h'
  have h5 := followLinks_after_reset chain chain' _ 5 halign (by decide) h'
  have h3 := followLinks_after_reset chain chain' _ 3 halign (by decide) h'
  have l5 := linked_after_reset chain chain' _ 5 halign (by decide) h'
  have l3 := linked_after_reset chain chain' _ 3 halign (by decide) h'
  have p5 : (packetsOf 5 0 [(5, n1), (3, n2), (5, n3)]).reverse
      = [(n1 + 1 + (n2 + 1), n3 % 256), (0, n1 % 256)] := by
    simp [packetsOf]
  have p3 : (packetsOf 3 0 [(5, n1), (3, n2), (5, n3)]).reverse = [(n1 + 1, n2 % 256)] := by
    simp [packetsOf]
  rw [p5] at h5 l5
  rw [p3] at h3 l3
  obtain ⟨a5, l5'⟩ := Linked_head _ _ _ _ _ _ l5
  obtain ⟨a51, _⟩ := Linked_head _ _ _ _ _ _ l5'
  obtain ⟨a3, _⟩ := Linked_head _ _ _ _ _ _ l3
  exact ⟨a5, a51, h5, a3, h3⟩

/-- Worked instance of the amended C2: on the example chain, packets of 4, 4 and 7
words allocated to buckets 5, 3, 5 after a reset lie at words 0, 5 and 10; bucket 5
then runs through the packet at word 10 and the packet at word 0, bucket 3 through
the packet at word 5. -/
theorem allocatePacket32_bucket_lifo_witness :
    exampleChain.addr % 4 = 0 ∧
    NoWrap exampleChain.addr 4 ∧ NoWrap exampleChain.addr 7 ∧
    ∃ chain', allocateAll32 (resetChain exampleChain) [(5, 4), (3, 4), (5, 7)]
        = some chain' ∧
      (followLinks chain' CHAIN_BUFFER_SIZE (tagAddr (chain'.orderingTable 5))).1
        = [(10, 7), (0, 4)] ∧
      (followLinks chain' CHAIN_BUFFER_SIZE (tagAddr (chain'.orderingTable 3))).1
        = [(5, 4)] := by
  have h : allocateAll32 (resetChain exampleChain) [(5, 4), (3, 4), (5, 7)]
      = some ((allocateAll32 (resetChain exampleChain) [(5, 4), (3, 4), (5, 7)]).get
          (by decide)) :=
    (Option.some_get _).symm
  have e := allocatePacket32_bucket_lifo.2 exampleChain _ 4 4 7 (by decide) (by decide)
    (by decide) (by decide) h
  exact ⟨by decide, by decide, by decide, _, h, by rw [e.2.2.1], by rw [e.2.2.2.2]⟩

/-! ## The words of the packets of a run on the machine -/

set_option maxRecDepth 20000 in
/-- C21, as the claim words it, fails for a word count that wraps the 32-bit cursor.
From the reset example chain the call for bucket 7 with the word count 2^30 - 1
succeeds and leaves the cursor at word 0; the next call, for 4 words, succeeds as
well. Both packets have their header at word 0, the first reaching to word 2^30,
far outside `data`, and at the end word 0 holds the header of the second packet
(0x04100000), not the one the first call wrote (0xff120018). -/
theorem allocateRun32_wrap_overwrites :
    (∀ r ∈ [(⟨7, 2 ^ 30 - 1, []⟩ : PacketRequest), ⟨7, 4, [1, 2, 3, 4]⟩],
      0 ≤ r.numCommands) ∧
    (allocateRun32 (resetChain exampleChain) [⟨7, 2 ^ 30 - 1, []⟩, ⟨7, 4, [1, 2, 3, 4]⟩]).map
        (fun out => (out.2.map (fun p => (p.header, p.stop, p.tag)), out.1.data 0,
          out.1.nextPacket))
      = some ([(0, 2 ^ 30, 0xff120018), (0, 5, 0x04100000)], 0x04100000, 5) := by
  decide

/-- C21 (amended). For every run of successful allocatePacket calls whose word counts
are non-negative and do not wrap the 32-bit cursor (`NoWrap`), each caller storing at
most numCommands command words through the returned pointer, starting from a chain
whose cursor was reset to the start of data: there is one packet per call with the
word count of the call; the packets appear in data in allocation order with no gap,
the first at word 0 and the last stopping at the final cursor; every word of every
packet lies inside data[0 .. CHAIN_BUFFER_SIZE); the word ranges are pairwise
disjoint, an earlier packet stopping before a later one starts; and at the end of
the run the header of every packet is the tag its call wrote, with the word count of
the packet, and its command words are the words its caller stored: no later
allocation has overwritten them. -/
theorem allocateRun32_ranges (chain : DMAChain) (reqs : List PacketRequest)
    (out : DMAChain × List PacketRecord) (hreset : chain.nextPacket = 0)
    (hn : ∀ r ∈ reqs, NoWrap chain.addr r.numCommands ∧
      (r.words.length : Int) ≤ r.numCommands)
    (h : allocateRun32 chain reqs = some out) :
    out.2.map PacketRecord.numCommands = reqs.map PacketRequest.numCommands ∧
    contiguousFrom 0 out.2 out.1.nextPacket ∧
    (∀ p ∈ out.2, ∀ i, p.covers i → 0 ≤ i ∧ i < (CHAIN_BUFFER_SIZE : Int)) ∧
    out.2.Pairwise (fun p q => p.stop ≤ q.header ∧ ∀ i, ¬ (p.covers i ∧ q.covers i)) ∧
    (∀ p ∈ out.2, out.1.data p.header = p.tag ∧
      tagLength p.tag = toU32 p.numCommands % 256 ∧
      readWords out.1.data (p.header + 1) p.words.length = p.words) := by
  have h' := allocateRun32_eq reqs chain out (by omega) (by rw [hreset]; decide)
    (fun r hr => (hn r hr).1) h
  obtain ⟨i1, i2, i3, i4, _, i6⟩ :=
    allocateRun_spec reqs chain out (by omega) (fun r hr => ⟨(hn r hr).1.1, (hn r hr).2⟩) h'
  rw [hreset] at i2 i3
  refine ⟨i1, i2, ?_, ?_, ?_⟩
  · intro p hp i hi
    obtain ⟨a, _, c⟩ := i3 p hp
    obtain ⟨b, d⟩ := hi
    exact ⟨by omega, by omega⟩
  · refine i4.imp ?_
    intro p q hpq
    refine ⟨hpq, ?_⟩
    rintro i ⟨⟨_, a⟩, ⟨b, _⟩⟩
    omega
  · intro p hp
    exact ⟨(i6 p hp).1, allocateRun_tags reqs chain out h' p hp, (i6 p hp).2⟩

/-- Worked instance of the amended C21: from the reset example chain the three
packets of `exampleRequests` take the words 0..3, 4..8 and 9, and the cursor ends at
word 10. -/
theorem allocateRun32_ranges_witness :
    (resetChain exampleChain).nextPacket = 0 ∧
    (∀ r ∈ exampleRequests, NoWrap (resetChain exampleChain).addr r.numCommands ∧
      (r.words.length : Int) ≤ r.numCommands) ∧
    (allocateRun32 (resetChain exampleChain) exampleRequests).map
        (fun out => (out.2.map (fun p => (p.header, p.stop)), out.1.nextPacket))
      = some ([(0, 4), (4, 9), (9, 10)], 10) ∧
    ∃ out, allocateRun32 (resetChain exampleChain) exampleRequests = some out ∧
      out.2.map PacketRecord.numCommands
        = exampleRequests.map PacketRequest.numCommands ∧
      contiguousFrom 0 out.2 out.1.nextPacket ∧
      (∀ p ∈ out.2, ∀ i, p.covers i → 0 ≤ i ∧ i < (CHAIN_BUFFER_SIZE : Int)) ∧
      out.2.Pairwise (fun p q => p.stop ≤ q.header ∧ ∀ i, ¬ (p.covers i ∧ q.covers i)) ∧
      (∀ p ∈ out.2, out.1.data p.header = p.tag ∧
        tagLength p.tag = toU32 p.numCommands % 256 ∧
        readWords out.1.data (p.header + 1) p.words.length = p.words) :=
  ⟨by decide, by decide, by decide, _,
    (Option.some_get (by decide)).symm,
    allocateRun32_ranges (resetChain exampleChain) exampleRequests _ (by decide) (by decide)
      (Option.some_get (by decide)).symm⟩

end PSX
